import Mathlib

/-!
# car-rentals: the JSON-file appointment backend

A shallow embedding of `src/db_json.js` (the record store) and of the request
handlers of `src/index.js`, followed by theorems about them.

Modelling conventions.

* A request body and a stored record are JSON values. `JVal` is the JSON data
  model. A number `num n` is the integer `n`; the model is exact on the safe
  integers (`-2^53 < n < 2^53`, the predicate `JVal.safe`): these are read by
  `JSON.parse`, written by `JSON.stringify` and printed by `String` without
  change, and `String(n)` is the decimal numeral. Fractional numbers, integers
  past `2^53` (rounded to a double, printed with an exponent from `1e21` on)
  and numerals past the range of a double (read as `Infinity`, written back as
  `null`) are outside the model; the theorems that depend on how a number is
  printed or written back assume `JVal.safe` of the values concerned.
* A JavaScript expression that may be `undefined` has type `Option JVal`,
  `none` standing for `undefined`.
* The three collection files are the fields of `Store`. Every handler runs to
  completion before the next one starts, and the file system does not fail.
  The one exception that a handler can then raise is the `TypeError` of a
  conversion to string (`String(v)`, `RegExp.prototype.test`, `v + ' '`) of an
  object with an own `toString` property, or of an array that holds one: the
  predicate `throws`. The handlers test it where the source converts, in the
  order of the source, and answer with the `catch` branch (status 500); what
  was written before the exception stays written. The functions `jsString`,
  `getById`, `update`, `remove`, `isValidDate` and `isValidTime` give the
  result of the call when no conversion throws.
* `uuidv4()` and `new Date().toISOString()` are inputs of the handlers that
  create a record: the arguments `id` and `now`.
* Built-ins of the runtime are modelled where the handlers call them: `String`,
  truthiness, `===`, `Date.parse` on `YYYY-MM-DD` strings (as V8 computes it),
  and `Array.prototype.sort` (the stable sort). The collation function
  `String.prototype.localeCompare` is a parameter of the list handler.
-/

namespace CarRentals

/-! ## JSON values and the JavaScript operators used by the source -/

/-- JSON value, as produced by `JSON.parse` and by the body parser. A number
`num n` is the integer `n`, exact for the safe integers (see `JVal.safe`). -/
inductive JVal where
  | null
  | bool (b : Bool)
  | num (n : Int)
  | str (s : String)
  | arr (items : List JVal)
  | obj (fields : List (String × JVal))

/-- Parsed JSON object: the properties in enumeration order. Records of a
collection file and request bodies have this type. -/
abbrev Rec := List (String × JVal)

/-- In-memory object whose properties may hold `undefined` (`none`), as built
by an object literal such as `{ name, phone, email }`. -/
abbrev MemObj := List (String × Option JVal)

/-- Property read `r.k`; `none` is `undefined` (no such property). -/
def prop (r : Rec) (k : String) : Option JVal :=
  List.lookup k r

/-- Truthiness of a value (`!!v`): `undefined`, `null`, `false`, `0` and the
empty string are falsy, everything else (arrays and objects included) is truthy. -/
def truthy : Option JVal → Bool
  | none => false
  | some .null => false
  | some (.bool b) => b
  | some (.num n) => n != 0
  | some (.str s) => s != ""
  | some (.arr _) => true
  | some (.obj _) => true

/-- The expression `a || b`. -/
def jsOr (a b : Option JVal) : Option JVal :=
  if truthy a then a else b

/-- The test `v == null`: true of `null` and of `undefined` only. -/
def looseNull : Option JVal → Bool
  | none => true
  | some .null => true
  | _ => false

mutual
/-- The conversion `String(v)` of a JSON value, when it does not throw (see
`JVal.throws`) and the numbers inside are safe integers (see `JVal.safe`). -/
def JVal.toStr : JVal → String
  | .null => "null"
  | .bool b => if b then "true" else "false"
  | .num n => toString n
  | .str s => s
  | .arr xs => JVal.joinStr xs
  | .obj _ => "[object Object]"
termination_by structural v => v
/-- The conversion of an array, `xs.join(",")`: `null` elements give the empty
string, the other elements their `String` conversion. -/
def JVal.joinStr : List JVal → String
  | [] => ""
  | x :: rest =>
    (match x with
      | .null => ""
      | v => JVal.toStr v) ++
    (match rest with
      | [] => ""
      | _ => "," ++ JVal.joinStr rest)
termination_by structural xs => xs
end

/-- The conversion `String(v)` of a value that may be `undefined`, when it
does not throw (see `throws`). -/
def jsString : Option JVal → String
  | none => "undefined"
  | some v => v.toStr

mutual
/-- Whether the conversion of a JSON value to a string throws a `TypeError`
(`Cannot convert object to primitive value`). An object with an own property
`toString` throws: the property of a parsed object is never a function, and
`Object.prototype.valueOf` returns the object itself. Any other object is
converted by `Object.prototype.toString`. An array is converted by `join`,
which converts its elements, and throws when one of them does. -/
def JVal.throws : JVal → Bool
  | .arr xs => JVal.throwsAny xs
  | .obj fields => fields.any (fun p => p.1 == "toString")
  | _ => false
termination_by structural v => v
/-- Whether the conversion of some element of an array throws. -/
def JVal.throwsAny : List JVal → Bool
  | [] => false
  | x :: rest => JVal.throws x || JVal.throwsAny rest
termination_by structural xs => xs
end

/-- Whether the conversion to string of a value that may be `undefined`
throws: `String(v)`, the implicit conversion of `RegExp.prototype.test(v)` and
that of `v + ' '` throw on the same values read from JSON. -/
def throws : Option JVal → Bool
  | none => false
  | some v => v.throws

mutual
/-- Every number inside the value is a safe integer (`-2^53 < n < 2^53`): the
numbers that `JSON.parse`, `JSON.stringify` and `String` treat exactly as the
model does. -/
def JVal.safe : JVal → Bool
  | .num n => decide (-9007199254740992 < n) && decide (n < 9007199254740992)
  | .arr xs => JVal.safeItems xs
  | .obj fields => JVal.safeFields fields
  | _ => true
termination_by structural v => v
/-- Every number inside the elements of an array is a safe integer. -/
def JVal.safeItems : List JVal → Bool
  | [] => true
  | x :: rest => JVal.safe x && JVal.safeItems rest
termination_by structural xs => xs
/-- Every number inside the properties of an object is a safe integer. -/
def JVal.safeFields : List (String × JVal) → Bool
  | [] => true
  | (_, x) :: rest => JVal.safe x && JVal.safeFields rest
termination_by structural xs => xs
end

/-- Every number inside a value that may be `undefined` is a safe integer. -/
def safe : Option JVal → Bool
  | none => true
  | some v => v.safe

/-- Every number inside a parsed object is a safe integer. -/
def safeRec (r : Rec) : Bool :=
  r.all (fun p => p.2.safe)

/-- Strict equality `a === b` of two values that come from two different
parses (a collection read, another collection read, or the request body), which
is the case at every `===` and `!==` of `index.js`: primitives are compared by
value, and two arrays or two objects are never the same reference. -/
def strictEq : Option JVal → Option JVal → Bool
  | none, none => true
  | some .null, some .null => true
  | some (.bool a), some (.bool b) => a == b
  | some (.num a), some (.num b) => a == b
  | some (.str a), some (.str b) => a == b
  | _, _ => false

/-- Assignment of property `k` in an object under construction: an existing
property keeps its place and takes the new value, a new one is added last. -/
def setProp (o : MemObj) (k : String) (v : Option JVal) : MemObj :=
  if o.any (fun p => p.1 == k) then o.map (fun p => if p.1 == k then (k, v) else p)
  else o ++ [(k, v)]

/-- Spread `{ ...o, ...patch }` onto a copy `o`: the properties of `patch` are
assigned in order. -/
def spread (o patch : MemObj) : MemObj :=
  patch.foldl (fun acc p => setProp acc p.1 p.2) o

/-- A parsed record seen as an in-memory object. -/
def ofRec (r : Rec) : MemObj :=
  r.map (fun p => (p.1, some p.2))

/-- The object that `JSON.stringify` followed by `JSON.parse` gives: properties
holding `undefined` are dropped. This is what `writeRaw` persists and what
`res.json` sends. -/
def toJson (o : MemObj) : Rec :=
  o.filterMap (fun p => p.2.map (fun v => (p.1, v)))

mutual
/-- Structural equality test of two JSON values. -/
def JVal.beq : JVal → JVal → Bool
  | .null, .null => true
  | .bool a, .bool b => a == b
  | .num a, .num b => a == b
  | .str a, .str b => a == b
  | .arr a, .arr b => JVal.beqList a b
  | .obj a, .obj b => JVal.beqFields a b
  | _, _ => false
termination_by structural v => v
/-- Structural equality test of two arrays. -/
def JVal.beqList : List JVal → List JVal → Bool
  | [], [] => true
  | x :: xs, y :: ys => JVal.beq x y && JVal.beqList xs ys
  | _, _ => false
termination_by structural xs => xs
/-- Structural equality test of two property lists. -/
def JVal.beqFields : List (String × JVal) → List (String × JVal) → Bool
  | [], [] => true
  | (k, x) :: xs, (l, y) :: ys => k == l && JVal.beq x y && JVal.beqFields xs ys
  | _, _ => false
termination_by structural xs => xs
end

/-- No property that reads `undefined` is listed again with a value: the
property lists that stand for an object in memory. -/
def Tidy (o : MemObj) : Prop :=
  ∀ k, List.lookup k o = some none → ∀ v, (k, some v) ∉ o

/-! ## db_json.js -/

/-- The test `String(x.id) === String(id)` of `getById`, `update` and, negated,
of `remove`. -/
def idMatches (id : Option JVal) (x : Rec) : Bool :=
  jsString (prop x "id") == jsString id

/-- Whether the test `String(x.id) === String(id)` throws on the record `x`. -/
def idTestThrows (id : Option JVal) (x : Rec) : Bool :=
  throws (prop x "id") || throws id

/-- Whether the search `arr.find(x => String(x.id) === String(id))` of
`getById`, and likewise the `findIndex` of `update`, throws: the records are
tested in order, up to the first one that matches. -/
def findThrows (id : Option JVal) : List Rec → Bool
  | [] => false
  | x :: xs => idTestThrows id x || (!idMatches id x && findThrows id xs)

/-- Whether `arr.filter(x => String(x.id) !== String(id))` of `remove` throws:
every record is tested. -/
def filterThrows (id : Option JVal) (arr : List Rec) : Bool :=
  arr.any (idTestThrows id)

/-- The function `getById(name, id)` on the contents `arr` of the collection:
the value returned when the search does not throw (`findThrows`). -/
def getById (arr : List Rec) (id : Option JVal) : Option Rec :=
  arr.find? (idMatches id)

/-- The function `create(name, obj)`: the new item `{ id, ...obj, created_at: now }`
and the collection written back. -/
def create (arr : List Rec) (obj : MemObj) (id now : String) : MemObj × List Rec :=
  let item := setProp (spread [("id", some (.str id))] obj) "created_at" (some (.str now))
  (item, arr ++ [toJson item])

/-- The call `arr.findIndex(p)`; `none` is the result `-1`. -/
def findIndex (p : Rec → Bool) : List Rec → Option Nat
  | [] => none
  | x :: xs => if p x then some 0 else (findIndex p xs).map (fun i => i + 1)

/-- The function `update(name, id, patch)`, when the search does not throw
(`findThrows`): `none` is the result `null` (nothing is written), otherwise the
merged item and the collection written back. -/
def update (arr : List Rec) (id : Option JVal) (patch : MemObj) :
    Option (MemObj × List Rec) :=
  match findIndex (idMatches id) arr with
  | none => none
  | some idx =>
    let merged := spread (ofRec (arr.getD idx [])) patch
    some (merged, arr.set idx (toJson merged))

/-- The body `{ success: true }`. -/
def successBody : JVal :=
  .obj [("success", .bool true)]

/-- The function `remove(name, id)`, when the filter does not throw
(`filterThrows`): the value returned, `{ success: true }`, and the collection
written back. -/
def remove (arr : List Rec) (id : Option JVal) : JVal × List Rec :=
  (successBody, arr.filter (fun x => !idMatches id x))

/-! ## index.js: validation -/

/-- The test of the pattern `^\d{4}-\d{2}-\d{2}$`. -/
def matchesDatePattern (s : String) : Bool :=
  match s.toList with
  | [y1, y2, y3, y4, s1, m1, m2, s2, d1, d2] =>
    y1.isDigit && y2.isDigit && y3.isDigit && y4.isDigit && s1 == '-' &&
    m1.isDigit && m2.isDigit && s2 == '-' && d1.isDigit && d2.isDigit
  | _ => false

/-- Value of a decimal digit. -/
def digitVal (c : Char) : Nat :=
  c.toNat - 48

/-- Whether `Date.parse(s)` is a number (not `NaN`) for a string `s` of the
shape `YYYY-MM-DD`, as computed by the date parser of Node.js (V8). The string
is first read as an ISO date: the month must lie in 01..12 and the day in
01..31, whatever the month; a day past the end of the month rolls over into
the next month. A string that is not an ISO date is read again by the legacy
parser, which takes three numbers `a-b-c` as month `a`, day `b` and year `c`
when `a` lies in 1..31, and as year, month and day otherwise: so for the years
0001..0012 every string whose second number lies in 01..31 parses too. Strings
of another shape are never passed to `Date.parse` by `isValidDate`, and are
given `false` here. -/
def dateParses (s : String) : Bool :=
  match s.toList with
  | [y1, y2, y3, y4, _, m1, m2, _, d1, d2] =>
    let year := 1000 * digitVal y1 + 100 * digitVal y2 + 10 * digitVal y3 + digitVal y4
    let month := 10 * digitVal m1 + digitVal m2
    let day := 10 * digitVal d1 + digitVal d2
    (decide (1 ≤ month) && decide (month ≤ 12) && decide (1 ≤ day) && decide (day ≤ 31)) ||
      (decide (1 ≤ year) && decide (year ≤ 12) && decide (1 ≤ month) && decide (month ≤ 31))
  | _ => false

/-- The function `isValidDate(str)`; the pattern test and `Date.parse` both
convert their argument to a string. The value returned when that conversion
does not throw (`throws`). -/
def isValidDate (v : Option JVal) : Bool :=
  matchesDatePattern (jsString v) && dateParses (jsString v)

/-- The test of the pattern `^([01]\d|2[0-3]):[0-5]\d$`. -/
def matchesTimePattern (s : String) : Bool :=
  match s.toList with
  | [h1, h2, c, m1, m2] =>
    (((h1 == '0' || h1 == '1') && h2.isDigit) ||
      (h1 == '2' && (h2 == '0' || h2 == '1' || h2 == '2' || h2 == '3'))) &&
    c == ':' &&
    (m1 == '0' || m1 == '1' || m1 == '2' || m1 == '3' || m1 == '4' || m1 == '5') &&
    m2.isDigit
  | _ => false

/-- The function `isValidTime(str)`; the pattern test converts its argument to
a string. The value returned when that conversion does not throw (`throws`). -/
def isValidTime (v : Option JVal) : Bool :=
  matchesTimePattern (jsString v)

/-! ## index.js: the state and the responses -/

/-- Contents of the three collection files. -/
structure Store where
  customers : List Rec
  services : List Rec
  appointments : List Rec

/-- Response sent by a handler: the status code and the JSON body. -/
structure Response where
  status : Nat
  body : JVal

/-- The body `{ error: msg }`. -/
def errorBody (msg : String) : JVal :=
  .obj [("error", .str msg)]

/-- The answer of the `catch` branch of a handler,
`res.status(500).json({ error: e.message })`, for the `TypeError` of a
conversion to string. -/
def serverError : Response :=
  ⟨500, errorBody "Cannot convert object to primitive value"⟩

/-- The call `res.json(x)` on the result of `db.update`: `null` is sent as
`null`, an object without its `undefined` properties. -/
def jsonOfUpdated : Option (MemObj × List Rec) → JVal
  | none => .null
  | some (item, _) => .obj (toJson item)

/-! ## index.js: customers -/

/-- The handler `app.post('/api/customers')`. -/
def postCustomers (s : Store) (body : Rec) (id now : String) : Response × Store :=
  let name := prop body "name"
  let phone := prop body "phone"
  let email := prop body "email"
  if !truthy name then (⟨400, errorBody "Name required"⟩, s)
  else
    let r := create s.customers
      [("name", name), ("phone", jsOr phone (some .null)), ("email", jsOr email (some .null))]
      id now
    (⟨201, .obj (toJson r.1)⟩, { s with customers := r.2 })

/-- The handler `app.put('/api/customers/:id')`. The search of `db.update` may
throw, before anything is written. -/
def putCustomers (s : Store) (id : String) (body : Rec) : Response × Store :=
  let name := prop body "name"
  let phone := prop body "phone"
  let email := prop body "email"
  if findThrows (some (.str id)) s.customers then (serverError, s)
  else
    match update s.customers (some (.str id))
        [("name", name), ("phone", phone), ("email", email)] with
    | none => (⟨404, errorBody "Customer not found"⟩, s)
    | some (item, arr) => (⟨200, .obj (toJson item)⟩, { s with customers := arr })

/-- The handler `app.delete('/api/customers/:id')`: the customer is removed,
then the appointments that reference it. When the filter of `db.remove`
throws nothing is written; when the filter of the appointments throws, on a
stored `customer_id` that has no string conversion, the customers have already
been written and the appointments are not. -/
def deleteCustomers (s : Store) (id : String) : Response × Store :=
  if filterThrows (some (.str id)) s.customers then (serverError, s)
  else
    let customers := (remove s.customers (some (.str id))).2
    if s.appointments.any (fun a => throws (prop a "customer_id")) then
      (serverError, { s with customers := customers })
    else
      let remaining := s.appointments.filter
        (fun a => jsString (prop a "customer_id") != jsString (some (.str id)))
      (⟨200, successBody⟩, { s with customers := customers, appointments := remaining })

/-! ## index.js: services -/

/-- The handler `app.post('/api/services')`. -/
def postServices (s : Store) (body : Rec) (id now : String) : Response × Store :=
  let title := prop body "title"
  let duration_min := prop body "duration_min"
  let price := prop body "price"
  if !truthy title || !truthy duration_min || looseNull price then
    (⟨400, errorBody "Missing fields"⟩, s)
  else
    let r := create s.services
      [("title", title), ("duration_min", duration_min), ("price", price)] id now
    (⟨201, .obj (toJson r.1)⟩, { s with services := r.2 })

/-- The handler `app.put('/api/services/:id')`. The search of `db.update` may
throw, before anything is written. -/
def putServices (s : Store) (id : String) (body : Rec) : Response × Store :=
  let title := prop body "title"
  let duration_min := prop body "duration_min"
  let price := prop body "price"
  if findThrows (some (.str id)) s.services then (serverError, s)
  else
    match update s.services (some (.str id))
        [("title", title), ("duration_min", duration_min), ("price", price)] with
    | none => (⟨404, errorBody "Service not found"⟩, s)
    | some (item, arr) => (⟨200, .obj (toJson item)⟩, { s with services := arr })

/-- The handler `app.delete('/api/services/:id')`: the service is removed, then
the appointments that reference it. When the filter of `db.remove` throws
nothing is written; when the filter of the appointments throws, on a stored
`service_id` that has no string conversion, the services have already been
written and the appointments are not. -/
def deleteServices (s : Store) (id : String) : Response × Store :=
  if filterThrows (some (.str id)) s.services then (serverError, s)
  else
    let services := (remove s.services (some (.str id))).2
    if s.appointments.any (fun a => throws (prop a "service_id")) then
      (serverError, { s with services := services })
    else
      let remaining := s.appointments.filter
        (fun a => jsString (prop a "service_id") != jsString (some (.str id)))
      (⟨200, successBody⟩, { s with services := services, appointments := remaining })

/-! ## index.js: appointments -/

/-- The conflict test of `app.post('/api/appointments')`:
`a.appointment_date === appointment_date && a.start_time === start_time`. -/
def slotTaken (date time : Option JVal) (a : Rec) : Bool :=
  strictEq (prop a "appointment_date") date && strictEq (prop a "start_time") time

/-- The object literal passed to `db.create` by `app.post('/api/appointments')`:
`{ customer_id: customerId, service_id: serviceId, appointment_date, start_time,
status: 'booked' }`. -/
def bookedObj (customerId serviceId appointment_date start_time : Option JVal) : MemObj :=
  [("customer_id", customerId), ("service_id", serviceId),
   ("appointment_date", appointment_date), ("start_time", start_time),
   ("status", some (.str "booked"))]

/-- The handler `app.post('/api/appointments')`. The calls `isValidDate`,
`isValidTime` and the two calls of `getById`, which both precede the two
not-found answers, throw when a conversion to string does. -/
def postAppointments (s : Store) (body : Rec) (id now : String) : Response × Store :=
  let customerId := prop body "customerId"
  let serviceId := prop body "serviceId"
  let appointment_date := prop body "appointment_date"
  let start_time := prop body "start_time"
  if !truthy customerId || !truthy serviceId || !truthy appointment_date || !truthy start_time then
    (⟨400, errorBody "Missing fields"⟩, s)
  else if throws appointment_date then (serverError, s)
  else if !isValidDate appointment_date then
    (⟨400, errorBody "Invalid date format (YYYY-MM-DD)"⟩, s)
  else if throws start_time then (serverError, s)
  else if !isValidTime start_time then
    (⟨400, errorBody "Invalid time format (HH:MM)"⟩, s)
  else if findThrows customerId s.customers || findThrows serviceId s.services then
    (serverError, s)
  else if (getById s.customers customerId).isNone then
    (⟨400, errorBody "Customer not found"⟩, s)
  else if (getById s.services serviceId).isNone then
    (⟨400, errorBody "Service not found"⟩, s)
  else if (s.appointments.find? (slotTaken appointment_date start_time)).isSome then
    (⟨409, errorBody "Time slot already taken"⟩, s)
  else
    let r := create s.appointments
      (bookedObj customerId serviceId appointment_date start_time) id now
    (⟨201, .obj (toJson r.1)⟩, { s with appointments := r.2 })

/-- The guard of the conflict check of `app.put('/api/appointments/:id')`:
`(appointment_date && appointment_date !== row.appointment_date) ||
 (start_time && start_time !== row.start_time)`. -/
def slotChanged (row : Rec) (date time : Option JVal) : Bool :=
  (truthy date && !strictEq date (prop row "appointment_date")) ||
  (truthy time && !strictEq time (prop row "start_time"))

/-- The conflict test of `app.put('/api/appointments/:id')`:
`a.id !== row.id && a.appointment_date === (appointment_date||row.appointment_date)
 && a.start_time === (start_time||row.start_time)`. -/
def slotTakenByOther (row : Rec) (date time : Option JVal) (a : Rec) : Bool :=
  !strictEq (prop a "id") (prop row "id") &&
  strictEq (prop a "appointment_date") (jsOr date (prop row "appointment_date")) &&
  strictEq (prop a "start_time") (jsOr time (prop row "start_time"))

/-- The object literal passed to `db.update` by `app.put('/api/appointments/:id')`:
`{ customer_id: customerId || row.customer_id, service_id: serviceId || row.service_id,
appointment_date: appointment_date || row.appointment_date,
start_time: start_time || row.start_time, status: status || row.status }`. -/
def patchObj (row : Rec) (customerId serviceId appointment_date start_time status : Option JVal) :
    MemObj :=
  [("customer_id", jsOr customerId (prop row "customer_id")),
   ("service_id", jsOr serviceId (prop row "service_id")),
   ("appointment_date", jsOr appointment_date (prop row "appointment_date")),
   ("start_time", jsOr start_time (prop row "start_time")),
   ("status", jsOr status (prop row "status"))]

/-- The record `{ ...row, ...patch }` that `db.update` computes for the patch
object of `app.put('/api/appointments/:id')`, as serialised. -/
def mergedRow (row : Rec) (body : Rec) : Rec :=
  toJson (spread (ofRec row) (patchObj row (prop body "customerId") (prop body "serviceId")
    (prop body "appointment_date") (prop body "start_time") (prop body "status")))

/-- The handler `app.put('/api/appointments/:id')`. The search of `getById`
may throw; the search of `db.update` then repeats it on the same collection. -/
def putAppointments (s : Store) (id : String) (body : Rec) : Response × Store :=
  let customerId := prop body "customerId"
  let serviceId := prop body "serviceId"
  let appointment_date := prop body "appointment_date"
  let start_time := prop body "start_time"
  let status := prop body "status"
  if findThrows (some (.str id)) s.appointments then (serverError, s)
  else
    match getById s.appointments (some (.str id)) with
    | none => (⟨404, errorBody "Appointment not found"⟩, s)
    | some row =>
      if slotChanged row appointment_date start_time &&
          (s.appointments.find? (slotTakenByOther row appointment_date start_time)).isSome then
        (⟨409, errorBody "Time slot already taken"⟩, s)
      else
        let updated := update s.appointments (some (.str id))
          (patchObj row customerId serviceId appointment_date start_time status)
        (⟨200, jsonOfUpdated updated⟩,
          { s with appointments := match updated with
                                   | none => s.appointments
                                   | some (_, arr) => arr })

/-- The handler `app.delete('/api/appointments/:id')`. The filter of
`db.remove` may throw, before anything is written. -/
def deleteAppointments (s : Store) (id : String) : Response × Store :=
  if filterThrows (some (.str id)) s.appointments then (serverError, s)
  else
    (⟨200, successBody⟩, { s with appointments := (remove s.appointments (some (.str id))).2 })

/-! ## The sequential system -/

/-- Request that writes: the route, the `:id` of the path, the body, and for a
create the identifier and the time stamp that the store will generate. -/
inductive Request where
  | postCustomers (body : Rec) (id now : String)
  | putCustomers (id : String) (body : Rec)
  | deleteCustomers (id : String)
  | postServices (body : Rec) (id now : String)
  | putServices (id : String) (body : Rec)
  | deleteServices (id : String)
  | postAppointments (body : Rec) (id now : String)
  | putAppointments (id : String) (body : Rec)
  | deleteAppointments (id : String)

/-- One request processed to completion. -/
def handle (s : Store) : Request → Response × Store
  | .postCustomers body id now => postCustomers s body id now
  | .putCustomers id body => putCustomers s id body
  | .deleteCustomers id => deleteCustomers s id
  | .postServices body id now => postServices s body id now
  | .putServices id body => putServices s id body
  | .deleteServices id => deleteServices s id
  | .postAppointments body id now => postAppointments s body id now
  | .putAppointments id body => putAppointments s id body
  | .deleteAppointments id => deleteAppointments s id

/-- The three collections as `migrate.js` and the test set-up create them. -/
def emptyStore : Store :=
  ⟨[], [], []⟩

/-- The identifier `id` is the identifier of no record of `arr`. -/
def freshIn (id : String) (arr : List Rec) : Prop :=
  ∀ x ∈ arr, jsString (prop x "id") ≠ id

/-- The generated identifier of a create request is not already in the
collection the request appends to; the other requests generate nothing. -/
def Request.freshFor (s : Store) : Request → Prop
  | .postCustomers _ id _ => freshIn id s.customers
  | .postServices _ id _ => freshIn id s.services
  | .postAppointments _ id _ => freshIn id s.appointments
  | _ => True

/-- States reached from the empty collections by a finite sequence of
requests, each one with a fresh generated identifier. -/
inductive Reachable : Store → Prop where
  | init : Reachable emptyStore
  | step (s : Store) (r : Request) : Reachable s → r.freshFor s → Reachable (handle s r).2

/-- The state after a sequence of requests, the responses dropped. -/
def run (s : Store) : List Request → Store
  | [] => s
  | r :: rest => run (handle s r).2 rest

/-! ## Sample data: the requests of the test suite -/

/-- The customer request of the test suite. -/
def sampleCustomer : Request :=
  .postCustomers [("name", .str "Test User"), ("phone", .str "012")] "c1" "2025-04-01T09:00:00.000Z"

/-- The service request of the test suite. -/
def sampleService : Request :=
  .postServices [("title", .str "Cut"), ("duration_min", .num 30), ("price", .num 15)]
    "s1" "2025-04-01T09:01:00.000Z"

/-- The appointment body of the test suite. -/
def sampleBooking : Rec :=
  [("customerId", .str "c1"), ("serviceId", .str "s1"),
   ("appointment_date", .str "2025-04-20"), ("start_time", .str "10:00")]

/-- The store after the customer, the service and the appointment of the test
suite have been created. -/
def sampleStore : Store :=
  run emptyStore [sampleCustomer, sampleService,
    .postAppointments sampleBooking "a1" "2025-04-01T09:02:00.000Z"]

/-- The appointment body of the test suite with the date sent as a JSON array
of one string, `["2025-04-20"]`; `String` converts it to `2025-04-20`. -/
def arrayBooking : Rec :=
  [("customerId", .str "c1"), ("serviceId", .str "s1"),
   ("appointment_date", .arr [.str "2025-04-20"]), ("start_time", .str "10:00")]

/-- The store after the customer and the service of the test suite and one
appointment with the array date have been created. -/
def arrayStore : Store :=
  run emptyStore [sampleCustomer, sampleService,
    .postAppointments arrayBooking "a1" "2025-04-01T09:02:00.000Z"]

/-- The store after the customer and the service of the test suite and two
appointments on 2025-04-20, at 10:00 and at 11:00, have been created. -/
def twoSlotStore : Store :=
  run sampleStore [.postAppointments
    [("customerId", .str "c1"), ("serviceId", .str "s1"),
     ("appointment_date", .str "2025-04-20"), ("start_time", .str "11:00")]
    "a2" "2025-04-01T09:03:00.000Z"]

/-- The appointment body of the test suite on another day, with the object
`{ toString: 1 }` sent as `customerId`. -/
def objectRefBooking : Rec :=
  [("customerId", .obj [("toString", .num 1)]), ("serviceId", .str "s1"),
   ("appointment_date", .str "2025-04-21"), ("start_time", .str "10:00")]

/-- The appointment body of the test suite on another day, with the object
`{ toString: 1 }` sent as `start_time`. -/
def objectTimeBooking : Rec :=
  [("customerId", .str "c1"), ("serviceId", .str "s1"),
   ("appointment_date", .str "2025-04-21"), ("start_time", .obj [("toString", .num 1)])]

/-- The two-slot store after the first appointment has been updated with
`{ customerId: { toString: 1 } }`: the update stores the object as sent. -/
def objectRefStore : Store :=
  run twoSlotStore [.putAppointments "a1" [("customerId", .obj [("toString", .num 1)])]]

/-! ## Predicates used to state the properties -/

/-- The value has a string conversion that the model computes: the
conversion does not throw and the numbers inside are safe integers, so that
`jsString v` is the string that `String(v)` returns. -/
def converts (v : Option JVal) : Bool :=
  !throws v && safe v

/-- Every number stored in the three collections is a safe integer. -/
def SafeStore (s : Store) : Prop :=
  (∀ c ∈ s.customers, safeRec c = true) ∧ (∀ v ∈ s.services, safeRec v = true) ∧
    (∀ a ∈ s.appointments, safeRec a = true)

/-- Two records occupy the same slot: equal `appointment_date` and equal
`start_time`. -/
def sameSlot (a b : Rec) : Prop :=
  prop a "appointment_date" = prop b "appointment_date" ∧
    prop a "start_time" = prop b "start_time"

/-- Slot uniqueness: no two distinct records of the appointments collection
occupy the same slot. -/
def SlotUnique (s : Store) : Prop :=
  s.appointments.Pairwise (fun a b => ¬ sameSlot a b)

/-- An array or an object, the values that `===` compares by reference. -/
def isComposite : Option JVal → Bool
  | some (.arr _) => true
  | some (.obj _) => true
  | _ => false

/-- The effective value of a patched field as the update rule words it: the
value of the patch when the patch provides one, the value of the record
otherwise. -/
def providedOr (patch current : Option JVal) : Option JVal :=
  match patch with
  | some v => some v
  | none => current

/-- The update conflict rule: the effective slot `(d', t')` differs from the
slot of the record `row`, and some stored appointment with an identifier
different from that of `row` has `appointment_date = d'` and `start_time = t'`.
The function `eff` gives the effective value of a field from the value of the
patch and the value of the record. -/
def ConflictRule (eff : Option JVal → Option JVal → Option JVal) (appointments : List Rec)
    (row patch : Rec) : Prop :=
  (eff (prop patch "appointment_date") (prop row "appointment_date"),
      eff (prop patch "start_time") (prop row "start_time")) ≠
    (prop row "appointment_date", prop row "start_time") ∧
  ∃ a ∈ appointments, prop a "id" ≠ prop row "id" ∧
    prop a "appointment_date" =
      eff (prop patch "appointment_date") (prop row "appointment_date") ∧
    prop a "start_time" = eff (prop patch "start_time") (prop row "start_time")

/-- No stored appointment has an array or an object as `id`, `appointment_date`
or `start_time`. -/
def PlainSlots (appointments : List Rec) : Prop :=
  ∀ a ∈ appointments, isComposite (prop a "id") = false ∧
    isComposite (prop a "appointment_date") = false ∧
    isComposite (prop a "start_time") = false

/-- The appointment requests whose `appointment_date` and `start_time`, when
sent, are not arrays or objects (strings, numbers, booleans, `null`); the other
requests are unrestricted. -/
def Request.plain : Request → Prop
  | .postAppointments body _ _ =>
    isComposite (prop body "appointment_date") = false ∧
      isComposite (prop body "start_time") = false
  | .putAppointments _ body =>
    isComposite (prop body "appointment_date") = false ∧
      isComposite (prop body "start_time") = false
  | _ => True

/-- States reached from the empty collections by requests with fresh
generated identifiers and without array or object dates and times. -/
inductive ReachablePlain : Store → Prop where
  | init : ReachablePlain emptyStore
  | step (s : Store) (r : Request) :
    ReachablePlain s → r.freshFor s → r.plain → ReachablePlain (handle s r).2

/-- The invariant of the appointments collection that carries slot uniqueness:
identifiers are strings and pairwise different, dates and times are not arrays
or objects, and no two records occupy the same slot. -/
def ApptInv (l : List Rec) : Prop :=
  (∀ a ∈ l, ∃ i, prop a "id" = some (.str i)) ∧
  (∀ a ∈ l, isComposite (prop a "appointment_date") = false ∧
    isComposite (prop a "start_time") = false) ∧
  l.Pairwise (fun a b => prop a "id" ≠ prop b "id") ∧
  l.Pairwise (fun a b => ¬ sameSlot a b)

/-! ## The validators in the words of the specification -/

/-- Time of day in the words of the specification: exactly five characters
`HH:MM`, `H` and `M` decimal digits, the hour between 00 and 23 and the minute
between 00 and 59. -/
def IsTimeOfDay (s : String) : Prop :=
  ∃ h1 h2 m1 m2 : Char, s.toList = [h1, h2, ':', m1, m2] ∧
    h1.isDigit = true ∧ h2.isDigit = true ∧ m1.isDigit = true ∧ m2.isDigit = true ∧
    10 * digitVal h1 + digitVal h2 ≤ 23 ∧ 10 * digitVal m1 + digitVal m2 ≤ 59

/-- Leap years of the Gregorian calendar. -/
def isLeapYear (y : Nat) : Bool :=
  (y % 4 == 0 && y % 100 != 0) || y % 400 == 0

/-- Number of days of month `m` (1..12) in year `y`. -/
def daysInMonth (y m : Nat) : Nat :=
  if m = 2 then (if isLeapYear y then 29 else 28)
  else if m = 4 ∨ m = 6 ∨ m = 9 ∨ m = 11 then 30
  else 31

/-- Calendar date in the words of the specification: the form `YYYY-MM-DD`
(four digits, dash, two digits, dash, two digits), the month between 01 and 12
and the day between 01 and the number of days of that month in that year. -/
def isCalendarDate (s : String) : Bool :=
  match s.toList with
  | [y1, y2, y3, y4, s1, m1, m2, s2, d1, d2] =>
    let year := 1000 * digitVal y1 + 100 * digitVal y2 + 10 * digitVal y3 + digitVal y4
    let month := 10 * digitVal m1 + digitVal m2
    let day := 10 * digitVal d1 + digitVal d2
    y1.isDigit && y2.isDigit && y3.isDigit && y4.isDigit && s1 == '-' &&
    m1.isDigit && m2.isDigit && s2 == '-' && d1.isDigit && d2.isDigit &&
    decide (1 ≤ month) && decide (month ≤ 12) &&
    decide (1 ≤ day) && decide (day ≤ daysInMonth year month)
  | _ => false

/-! ## Further predicates used to state the properties -/

/-- The identity fields of the records of a collection, in order: the pairs
`(id, created_at)`. -/
def idStamps (l : List Rec) : List (Option JVal × Option JVal) :=
  l.map (fun r => (prop r "id", prop r "created_at"))

/-- Non-empty string, in the words of the data model. -/
def isNonEmptyString : Option JVal → Bool
  | some (.str s) => s != ""
  | _ => false

/-- Positive integer, in the words of the data model. -/
def isPositiveInteger : Option JVal → Bool
  | some (.num n) => decide (0 < n)
  | _ => false

/-- Non-negative number, in the words of the data model. -/
def isNonNegativeNumber : Option JVal → Bool
  | some (.num n) => decide (0 ≤ n)
  | _ => false

/-- The constraints of the Service data model on the body of a create request:
`title` a non-empty string, `duration_min` a positive integer, `price` a
non-negative number. -/
def ValidService (body : Rec) : Prop :=
  isNonEmptyString (prop body "title") = true ∧
    isPositiveInteger (prop body "duration_min") = true ∧
    isNonNegativeNumber (prop body "price") = true

/-- Every stored appointment has a date that passes `isValidDate` and a time
that passes `isValidTime`. -/
def WellFormedSlots (l : List Rec) : Prop :=
  ∀ a ∈ l, isValidDate (prop a "appointment_date") = true ∧
    isValidTime (prop a "start_time") = true

/-- States reached from the empty collections by requests that satisfy `P` in
the state they arrive in. -/
inductive ReachableBy (P : Store → Request → Prop) : Store → Prop where
  | init : ReachableBy P emptyStore
  | step (s : Store) (r : Request) : ReachableBy P s → P s r → ReachableBy P (handle s r).2

/-- The requests that leave the slot of an appointment alone: all of them but
the appointment updates whose body supplies a truthy `appointment_date` or
`start_time`. -/
def Request.keepsSlot : Request → Prop
  | .putAppointments _ body =>
    truthy (prop body "appointment_date") = false ∧ truthy (prop body "start_time") = false
  | _ => True

/-- Referential integrity: the `customer_id` of every stored appointment
string-equals the `id` of some stored customer and its `service_id`
string-equals the `id` of some stored service. -/
def RefIntegrity (s : Store) : Prop :=
  ∀ a ∈ s.appointments,
    (∃ c ∈ s.customers, jsString (prop c "id") = jsString (prop a "customer_id")) ∧
    (∃ v ∈ s.services, jsString (prop v "id") = jsString (prop a "service_id"))

/-- The references of every stored appointment have a string conversion. -/
def RefsConvert (s : Store) : Prop :=
  ∀ a ∈ s.appointments,
    throws (prop a "customer_id") = false ∧ throws (prop a "service_id") = false

/-- The requests that leave the references of an appointment alone: all of
them but the appointment updates whose body supplies `customerId` or
`serviceId`. -/
def Request.keepsRefs : Request → Prop
  | .putAppointments _ body => prop body "customerId" = none ∧ prop body "serviceId" = none
  | _ => True

/-! ## index.js: the appointment list -/

/-- Insertion of `x` before the first element that it does not follow. -/
def insertSorted {α : Type} (le : α → α → Bool) (x : α) : List α → List α
  | [] => [x]
  | y :: ys => if le x y then x :: y :: ys else y :: insertSorted le x ys

/-- The call `rows.sort(compare)` with `le a b` standing for `compare(a, b) <= 0`:
the stable sort, as `Array.prototype.sort` is specified. Elements that compare
equal keep their order. -/
def sortBy {α : Type} (le : α → α → Bool) : List α → List α
  | [] => []
  | x :: xs => insertSorted le x (sortBy le xs)

/-- Property read `o.k` on an object in memory. -/
def memProp (o : MemObj) (k : String) : Option JVal :=
  (List.lookup k o).join

/-- The string `date + ' ' + time` of the sort callback, when the conversion
of `date` and of `time` does not throw (`throws`); `+` with a string operand
converts the other operand to a string. -/
def sortKey (date time : Option JVal) : String :=
  jsString date ++ " " ++ jsString time

/-- The row built by the `map` callback of `app.get('/api/appointments')`:
`{ ...a, customer_name: customer.name || null, service_title: service.title || null,
duration_min: service.duration_min || null }`, where `customer` and `service`
are the first records whose `id` string-equals the reference, or `{}`. -/
def enrich (customers services : List Rec) (a : Rec) : MemObj :=
  let customer := (customers.find? (idMatches (prop a "customer_id"))).getD []
  let service := (services.find? (idMatches (prop a "service_id"))).getD []
  spread (ofRec a)
    [("customer_name", jsOr (prop customer "name") (some .null)),
     ("service_title", jsOr (prop service "title") (some .null)),
     ("duration_min", jsOr (prop service "duration_min") (some .null))]

/-- The rows of `app.get('/api/appointments')` after the first optional filter:
`if (date) rows = rows.filter(r => r.appointment_date === date)`. -/
def filterByDate (rows : List Rec) (date : Option JVal) : List Rec :=
  if truthy date then rows.filter (fun r => strictEq (prop r "appointment_date") date)
  else rows

/-- The rows of `app.get('/api/appointments')` after the two optional filters:
`if (date) rows = rows.filter(r => r.appointment_date === date)` and
`if (customerId) rows = rows.filter(r => String(r.customer_id) === String(customerId))`,
when the second filter does not throw. -/
def filterRows (rows : List Rec) (date customerId : Option JVal) : List Rec :=
  let rows := if truthy date then rows.filter (fun r => strictEq (prop r "appointment_date") date)
    else rows
  if truthy customerId then
    rows.filter (fun r => jsString (prop r "customer_id") == jsString customerId)
  else rows

/-- The comparison of the sort callback, `compare(a, b) <= 0`, for the
collation function `localeCompare`. -/
def rowLe (localeCompare : String → String → Int) (a b : MemObj) : Bool :=
  decide (localeCompare (sortKey (memProp a "appointment_date") (memProp a "start_time"))
    (sortKey (memProp b "appointment_date") (memProp b "start_time")) ≤ 0)

/-- Whether the `customerId` filter of `app.get('/api/appointments')` throws:
when it is applied, the test `String(r.customer_id) === String(customerId)` is
run on every row left by the date filter. -/
def customerFilterThrows (rows : List Rec) (customerId : Option JVal) : Bool :=
  truthy customerId && rows.any (fun r => throws (prop r "customer_id") || throws customerId)

/-- Whether the `map` callback of `app.get('/api/appointments')` throws on some
row: the search of the customer, then the search of the service. -/
def enrichThrows (customers services : List Rec) (rows : List Rec) : Bool :=
  rows.any (fun a => findThrows (prop a "customer_id") customers ||
    findThrows (prop a "service_id") services)

/-- Whether the sort of `app.get('/api/appointments')` throws: with two rows or
more the callback is run and every row is compared at least once, and the
callback throws on a row whose `appointment_date` or `start_time` has no
string conversion; with less than two rows the callback is not run. -/
def sortThrows (rows : List MemObj) : Bool :=
  decide (2 ≤ rows.length) &&
    rows.any (fun a => throws (memProp a "appointment_date") || throws (memProp a "start_time"))

/-- The rows that `app.get('/api/appointments')` sends, in order; `none` when
a conversion to string throws in the `customerId` filter, in the `map`
callback or in the sort callback, and the handler sends no list. The collation
function `String.prototype.localeCompare` of the runtime is a parameter; the
query is the object `req.query`. -/
def listRows (localeCompare : String → String → Int) (s : Store) (query : Rec) :
    Option (List Rec) :=
  let date := prop query "date"
  let customerId := prop query "customerId"
  if customerFilterThrows (filterByDate s.appointments date) customerId then none
  else
    let rows := filterRows s.appointments date customerId
    if enrichThrows s.customers s.services rows then none
    else
      let rows := rows.map (enrich s.customers s.services)
      if sortThrows rows then none
      else some ((sortBy (rowLe localeCompare) rows).map toJson)

/-- The handler `app.get('/api/appointments')`. -/
def getAppointments (localeCompare : String → String → Int) (s : Store) (query : Rec) :
    Response :=
  match listRows localeCompare s query with
  | none => serverError
  | some rows => ⟨200, .arr (rows.map JVal.obj)⟩

/-- Primary collation weight of a character in the root collation of ICU, for
the characters of the model: space, then `-`, then `:`, then the digits in
numeric order, then the letters in alphabetic order, both cases alike. Other
characters are outside the model: the weight they get here, after the letters,
is not the one of ICU, and no theorem compares strings that hold them. -/
def primaryWeight (c : Char) : Nat :=
  if c == ' ' then 1
  else if c == '-' then 2
  else if c == ':' then 3
  else if c.isDigit then 10 + (c.toNat - 48)
  else if c.isLower then 20 + (c.toNat - 97)
  else if c.isUpper then 20 + (c.toNat - 65)
  else 1000 + c.toNat

/-- Case weight of a character in the root collation of ICU: a lower-case
letter comes before the same letter in upper case. -/
def caseWeight (c : Char) : Nat :=
  if c.isUpper then 1 else 0

/-- Lexicographic comparison of two lists of weights. -/
def compareWeights : List Nat → List Nat → Ordering
  | [], [] => .eq
  | [], _ :: _ => .lt
  | _ :: _, [] => .gt
  | x :: xs, y :: ys =>
    if x < y then .lt else if y < x then .gt else compareWeights xs ys

/-- Model of `String.prototype.localeCompare` under the default (root)
collation of ICU, on strings of ASCII letters, digits, spaces, `-` and `:`:
the primary weights decide, and between strings of equal primary weights the
case decides. -/
def localeCompare (a b : String) : Int :=
  match compareWeights (a.toList.map primaryWeight) (b.toList.map primaryWeight) with
  | .lt => -1
  | .gt => 1
  | .eq =>
    match compareWeights (a.toList.map caseWeight) (b.toList.map caseWeight) with
    | .lt => -1
    | .gt => 1
    | .eq => 0



/-! ## Predicates and sample data for the appointment list -/

/-- Every value that `app.get('/api/appointments')` converts to a string has a
string conversion: the `customerId` of the query, the stored identifiers of
the customers and of the services, and the `customer_id`, `service_id`,
`appointment_date` and `start_time` of the stored appointments. -/
def Listable (s : Store) (query : Rec) : Prop :=
  throws (prop query "customerId") = false ∧
    (∀ c ∈ s.customers, throws (prop c "id") = false) ∧
    (∀ v ∈ s.services, throws (prop v "id") = false) ∧
    ∀ a ∈ s.appointments,
      throws (prop a "customer_id") = false ∧ throws (prop a "service_id") = false ∧
        throws (prop a "appointment_date") = false ∧ throws (prop a "start_time") = false

/-- The two-slot store after the first appointment has been updated with
`{ appointment_date: { toString: 1 } }`. -/
def objectDateStore : Store :=
  run twoSlotStore [.putAppointments "a1" [("appointment_date", .obj [("toString", .num 1)])]]

/-- The value `r.k || null` for the record `r` found by `find`, or for `{}`
when none is found: the property when it is truthy, `null` otherwise. -/
def propOrNull (r : Option Rec) (k : String) : Option JVal :=
  match r with
  | some c => if truthy (prop c k) then prop c k else some .null
  | none => some .null

/-- The store of the test suite after the service has been updated with
`{ title: "Cut", duration_min: 0, price: 15 }`. -/
def zeroDurationStore : Store :=
  run sampleStore [.putServices "s1"
    [("title", .str "Cut"), ("duration_min", .num 0), ("price", .num 15)]]

/-! ## Predicates and sample data for the order of the appointment list -/

/-- The test of the shape `HH:MM`: two digits, a colon, two digits. -/
def matchesTimeShape (s : String) : Bool :=
  match s.toList with
  | [h1, h2, c, m1, m2] => h1.isDigit && h2.isDigit && c == ':' && m1.isDigit && m2.isDigit
  | _ => false

/-- The number written by a list of decimal digits. -/
def numeral (l : List Char) : Nat :=
  l.foldl (fun acc c => 10 * acc + digitVal c) 0

/-- The numbers `(year, month, day, hour, minute)` written in a date of the
form `YYYY-MM-DD` and a time of the form `HH:MM`. -/
def chronoOf (date time : String) : Nat × Nat × Nat × Nat × Nat :=
  (numeral (date.toList.take 4), numeral ((date.toList.drop 5).take 2),
    numeral ((date.toList.drop 8).take 2), numeral (time.toList.take 2),
    numeral ((time.toList.drop 3).take 2))

/-- Chronological order: `(year, month, day, hour, minute)` compared as
numbers, the year first. -/
def chronoLe (a b : Nat × Nat × Nat × Nat × Nat) : Prop :=
  a.1 < b.1 ∨ (a.1 = b.1 ∧ (a.2.1 < b.2.1 ∨ (a.2.1 = b.2.1 ∧
    (a.2.2.1 < b.2.2.1 ∨ (a.2.2.1 = b.2.2.1 ∧
      (a.2.2.2.1 < b.2.2.2.1 ∨ (a.2.2.2.1 = b.2.2.2.1 ∧ a.2.2.2.2 ≤ b.2.2.2.2)))))))

/-- The sort key of a listed row: `appointment_date + ' ' + start_time`. -/
def rowKey (r : Rec) : String :=
  sortKey (prop r "appointment_date") (prop r "start_time")

/-- A listed row whose date has the form `YYYY-MM-DD` and whose time has the
form `HH:MM`. -/
def WellFormedRow (r : Rec) : Prop :=
  matchesDatePattern (jsString (prop r "appointment_date")) = true ∧
    matchesTimeShape (jsString (prop r "start_time")) = true

/-- The numbers `(year, month, day, hour, minute)` of a listed row. -/
def chrono (r : Rec) : Nat × Nat × Nat × Nat × Nat :=
  chronoOf (jsString (prop r "appointment_date")) (jsString (prop r "start_time"))

/-- The two-slot store after the date of the first appointment has been
updated to `May 1` and the date of the second to `april 30`. -/
def letterStore : Store :=
  run twoSlotStore [.putAppointments "a1" [("appointment_date", .str "May 1")],
    .putAppointments "a2" [("appointment_date", .str "april 30")]]

end CarRentals

/-! # Theorems -/

namespace CarRentals

/-! ## Decidable equality of JSON values -/

mutual
theorem JVal.beq_sound : ∀ a b : JVal, JVal.beq a b = true → a = b
  | .null, .null, _ => rfl
  | .bool a, .bool b, h => by simp [JVal.beq] at h; rw [h]
  | .num a, .num b, h => by simp [JVal.beq] at h; rw [h]
  | .str a, .str b, h => by simp [JVal.beq] at h; rw [h]
  | .arr a, .arr b, h => by simp only [JVal.beq] at h; rw [JVal.beqList_sound a b h]
  | .obj a, .obj b, h => by simp only [JVal.beq] at h; rw [JVal.beqFields_sound a b h]
  | .null, .bool _, h | .null, .num _, h | .null, .str _, h | .null, .arr _, h
  | .null, .obj _, h => by simp [JVal.beq] at h
  | .bool _, .null, h | .bool _, .num _, h | .bool _, .str _, h | .bool _, .arr _, h
  | .bool _, .obj _, h => by simp [JVal.beq] at h
  | .num _, .null, h | .num _, .bool _, h | .num _, .str _, h | .num _, .arr _, h
  | .num _, .obj _, h => by simp [JVal.beq] at h
  | .str _, .null, h | .str _, .bool _, h | .str _, .num _, h | .str _, .arr _, h
  | .str _, .obj _, h => by simp [JVal.beq] at h
  | .arr _, .null, h | .arr _, .bool _, h | .arr _, .num _, h | .arr _, .str _, h
  | .arr _, .obj _, h => by simp [JVal.beq] at h
  | .obj _, .null, h | .obj _, .bool _, h | .obj _, .num _, h | .obj _, .str _, h
  | .obj _, .arr _, h => by simp [JVal.beq] at h
termination_by structural a => a
theorem JVal.beqList_sound : ∀ a b : List JVal, JVal.beqList a b = true → a = b
  | [], [], _ => rfl
  | x :: xs, y :: ys, h => by
    simp only [JVal.beqList, Bool.and_eq_true] at h
    rw [JVal.beq_sound x y h.1, JVal.beqList_sound xs ys h.2]
  | [], _ :: _, h | _ :: _, [], h => by simp [JVal.beqList] at h
termination_by structural a => a
theorem JVal.beqFields_sound :
    ∀ a b : List (String × JVal), JVal.beqFields a b = true → a = b
  | [], [], _ => rfl
  | (k, x) :: xs, (l, y) :: ys, h => by
    simp only [JVal.beqFields, Bool.and_eq_true, beq_iff_eq] at h
    rw [h.1.1, JVal.beq_sound x y h.1.2, JVal.beqFields_sound xs ys h.2]
  | [], _ :: _, h | _ :: _, [], h => by simp [JVal.beqFields] at h
termination_by structural a => a
end

mutual
theorem JVal.beq_self : ∀ a : JVal, JVal.beq a a = true
  | .null => rfl
  | .bool a => by simp [JVal.beq]
  | .num a => by simp [JVal.beq]
  | .str a => by simp [JVal.beq]
  | .arr a => by simp only [JVal.beq]; exact JVal.beqList_self a
  | .obj a => by simp only [JVal.beq]; exact JVal.beqFields_self a
termination_by structural a => a
theorem JVal.beqList_self : ∀ a : List JVal, JVal.beqList a a = true
  | [] => rfl
  | x :: xs => by
    simp only [JVal.beqList, Bool.and_eq_true]
    exact ⟨JVal.beq_self x, JVal.beqList_self xs⟩
termination_by structural a => a
theorem JVal.beqFields_self : ∀ a : List (String × JVal), JVal.beqFields a a = true
  | [] => rfl
  | (k, x) :: xs => by
    simp only [JVal.beqFields, Bool.and_eq_true, beq_iff_eq]
    exact ⟨⟨trivial, JVal.beq_self x⟩, JVal.beqFields_self xs⟩
termination_by structural a => a
end

instance : DecidableEq JVal := fun a b =>
  if h : JVal.beq a b = true then isTrue (JVal.beq_sound a b h)
  else isFalse (fun e => h (e ▸ JVal.beq_self a))

/-! ## Objects: property reads after assignment, spread and serialisation -/

theorem lookup_cons_self {β : Type} (k : String) (v : β) (o : List (String × β)) :
    List.lookup k ((k, v) :: o) = some v := by
  simp [List.lookup]

theorem lookup_cons_of_ne {β : Type} {k k' : String} (h : k' ≠ k) (v : β)
    (o : List (String × β)) : List.lookup k' ((k, v) :: o) = List.lookup k' o := by
  have : (k' == k) = false := by simpa using h
  simp [List.lookup, this]

theorem lookup_append_of_any {β : Type} (k : String) (o o' : List (String × β))
    (h : o.any (fun p => p.1 == k) = true) :
    List.lookup k (o ++ o') = List.lookup k o := by
  induction o with
  | nil => simp at h
  | cons p o ih =>
    obtain ⟨a, b⟩ := p
    by_cases hk : k = a
    · subst hk; simp [List.lookup]
    · have hne : (k == a) = false := by simpa using hk
      have hne2 : (a == k) = false := by simpa using fun h => hk h.symm
      simp only [List.any_cons, hne2, Bool.false_or] at h
      simp [List.lookup, hne, ih h]

theorem lookup_append_of_not_any {β : Type} (k : String) (o o' : List (String × β))
    (h : o.any (fun p => p.1 == k) = false) :
    List.lookup k (o ++ o') = List.lookup k o' := by
  induction o with
  | nil => rfl
  | cons p o ih =>
    obtain ⟨a, b⟩ := p
    simp only [List.any_cons, Bool.or_eq_false_iff] at h
    have hne : (k == a) = false := by
      have := h.1
      simp only [beq_eq_false_iff_ne, ne_eq] at this ⊢
      exact fun e => this e.symm
    simp [List.lookup, hne, ih h.2]

theorem lookup_eq_none_of_not_any {β : Type} (k : String) (o : List (String × β))
    (h : o.any (fun p => p.1 == k) = false) : List.lookup k o = none := by
  have := lookup_append_of_not_any k o [] h
  simpa using this

theorem any_key_of_lookup {β : Type} (k : String) (o : List (String × β)) (v : β)
    (h : List.lookup k o = some v) : o.any (fun p => p.1 == k) = true := by
  cases hany : o.any (fun p => p.1 == k) with
  | true => rfl
  | false => rw [lookup_eq_none_of_not_any k o hany] at h; cases h

theorem lookup_map_replace (o : MemObj) (k k' : String) (v : Option JVal) :
    List.lookup k' (o.map (fun p => if p.1 == k then (k, v) else p)) =
      if k' = k then (if o.any (fun p => p.1 == k) then some v else none)
      else List.lookup k' o := by
  induction o with
  | nil => by_cases h : k' = k <;> simp [h]
  | cons p o ih =>
    obtain ⟨a, b⟩ := p
    rw [List.map_cons, List.any_cons]
    by_cases hak : a = k
    · have e : (a == k) = true := by simpa using hak
      simp only [e, ↓reduceIte, Bool.true_or]
      by_cases h : k' = k
      · rw [if_pos h, h, lookup_cons_self]
      · rw [if_neg h, lookup_cons_of_ne h, ih, if_neg h, lookup_cons_of_ne (hak ▸ h)]
    · have e : (a == k) = false := by simpa using hak
      simp only [e, Bool.false_eq_true, ↓reduceIte, Bool.false_or]
      by_cases h : k' = k
      · rw [if_pos h, lookup_cons_of_ne (fun e2 => hak (e2.symm.trans h)), ih, if_pos h]
      · rw [if_neg h]
        by_cases h2 : k' = a
        · rw [h2, lookup_cons_self, lookup_cons_self]
        · rw [lookup_cons_of_ne h2, lookup_cons_of_ne h2, ih, if_neg h]

/-- Reading the property just assigned gives the assigned value. -/
theorem lookup_setProp_self (o : MemObj) (k : String) (v : Option JVal) :
    List.lookup k (setProp o k v) = some v := by
  unfold setProp
  cases hany : o.any (fun p => p.1 == k) with
  | true => rw [if_pos rfl, lookup_map_replace, if_pos rfl, hany, if_pos rfl]
  | false =>
    simp only [Bool.false_eq_true, ↓reduceIte]
    rw [lookup_append_of_not_any k o _ hany]
    exact lookup_cons_self k v []

/-- Assigning a property leaves the other properties as they read before. -/
theorem lookup_setProp_of_ne (o : MemObj) {k k' : String} (v : Option JVal) (h : k' ≠ k) :
    List.lookup k' (setProp o k v) = List.lookup k' o := by
  unfold setProp
  cases hany : o.any (fun p => p.1 == k) with
  | true => rw [if_pos rfl, lookup_map_replace, if_neg h]
  | false =>
    simp only [Bool.false_eq_true, ↓reduceIte]
    cases hany2 : o.any (fun p => p.1 == k') with
    | true => exact lookup_append_of_any k' o _ hany2
    | false =>
      rw [lookup_append_of_not_any k' o _ hany2, lookup_eq_none_of_not_any k' o hany2]
      exact lookup_cons_of_ne h v []

theorem lookup_toJson_none (k : String) (o : MemObj) (h : ∀ v, (k, some v) ∉ o) :
    List.lookup k (toJson o) = none := by
  induction o with
  | nil => rfl
  | cons p o ih =>
    obtain ⟨a, b⟩ := p
    have ht : ∀ v, (k, some v) ∉ o := fun v hv => h v (List.mem_cons_of_mem _ hv)
    cases b with
    | none => simpa [toJson] using ih ht
    | some w =>
      have hne : k ≠ a := fun e => h w (by rw [e]; exact List.mem_cons_self _ _)
      have : toJson ((a, some w) :: o) = (a, w) :: toJson o := by simp [toJson]
      rw [this, lookup_cons_of_ne hne]
      exact ih ht

/-- Reading a property of the serialised object: a property that reads
`undefined` in memory is absent, provided it is not listed again with a value. -/
theorem lookup_toJson (k : String) (o : MemObj)
    (h : List.lookup k o = some none → ∀ v, (k, some v) ∉ o) :
    List.lookup k (toJson o) = (List.lookup k o).join := by
  induction o with
  | nil => rfl
  | cons p o ih =>
    obtain ⟨a, b⟩ := p
    by_cases hk : k = a
    · subst hk
      rw [lookup_cons_self]
      cases b with
      | none =>
        have hn := h (lookup_cons_self k none o)
        have := lookup_toJson_none k ((k, none) :: o) hn
        simpa using this
      | some w =>
        have : toJson ((k, some w) :: o) = (k, w) :: toJson o := by simp [toJson]
        rw [this, lookup_cons_self]; rfl
    · rw [lookup_cons_of_ne hk]
      have ht : List.lookup k o = some none → ∀ v, (k, some v) ∉ o := by
        intro h1 v hv
        exact h (by rw [lookup_cons_of_ne hk]; exact h1) v (List.mem_cons_of_mem _ hv)
      cases b with
      | none =>
        have : toJson ((a, none) :: o) = toJson o := by simp [toJson]
        rw [this]; exact ih ht
      | some w =>
        have : toJson ((a, some w) :: o) = (a, w) :: toJson o := by simp [toJson]
        rw [this, lookup_cons_of_ne hk]; exact ih ht

theorem tidy_ofRec (r : Rec) : Tidy (ofRec r) := by
  intro k h
  exfalso
  induction r with
  | nil => simp [ofRec] at h
  | cons p r ih =>
    obtain ⟨a, b⟩ := p
    have e : ofRec ((a, b) :: r) = (a, some b) :: ofRec r := rfl
    rw [e] at h
    by_cases hk : k = a
    · subst hk; rw [lookup_cons_self] at h; cases h
    · rw [lookup_cons_of_ne hk] at h; exact ih h

theorem mem_setProp (o : MemObj) (k k' : String) (v w : Option JVal)
    (h : (k', w) ∈ setProp o k v) : (k' = k ∧ w = v) ∨ (k' ≠ k ∧ (k', w) ∈ o) := by
  unfold setProp at h
  split at h
  · rw [List.mem_map] at h
    obtain ⟨p, hp, he⟩ := h
    by_cases hpk : p.1 = k
    · have e : (p.1 == k) = true := by simpa using hpk
      rw [if_pos e] at he
      left; cases he; exact ⟨rfl, rfl⟩
    · have e : ¬ (p.1 == k) = true := by simpa using hpk
      rw [if_neg e] at he
      right; subst he; exact ⟨hpk, hp⟩
  · rename_i hany
    rw [List.mem_append] at h
    rcases h with h | h
    · right
      refine ⟨?_, h⟩
      intro e
      apply hany
      rw [List.any_eq_true]
      exact ⟨(k', w), h, by simpa using e⟩
    · left
      simp only [List.mem_singleton, Prod.mk.injEq] at h
      exact h

theorem tidy_setProp (o : MemObj) (k : String) (v : Option JVal) (h : Tidy o) :
    Tidy (setProp o k v) := by
  intro k' hl w hmem
  rcases mem_setProp o k k' v (some w) hmem with ⟨e1, e2⟩ | ⟨hne, hm⟩
  · subst e1
    rw [lookup_setProp_self] at hl
    rw [← e2] at hl
    cases hl
  · rw [lookup_setProp_of_ne o v hne] at hl
    exact h k' hl w hm

theorem tidy_spread (o patch : MemObj) (h : Tidy o) : Tidy (spread o patch) := by
  induction patch generalizing o with
  | nil => exact h
  | cons p ps ih => exact ih _ (tidy_setProp o p.1 p.2 h)

/-- Property read on the serialisation of a tidy object. -/
theorem prop_toJson (o : MemObj) (h : Tidy o) (k : String) :
    prop (toJson o) k = (List.lookup k o).join :=
  lookup_toJson k o (h k)

theorem lookup_ofRec (r : Rec) (k : String) :
    (List.lookup k (ofRec r)).join = prop r k := by
  induction r with
  | nil => rfl
  | cons p r ih =>
    obtain ⟨a, b⟩ := p
    have e : ofRec ((a, b) :: r) = (a, some b) :: ofRec r := rfl
    rw [e]
    by_cases hk : k = a
    · subst hk; rw [lookup_cons_self]; unfold prop; rw [lookup_cons_self]; rfl
    · rw [lookup_cons_of_ne hk]; unfold prop; rw [lookup_cons_of_ne hk]; exact ih

theorem lookup_spread_of_not_mem (o patch : MemObj) (k : String)
    (h : k ∉ patch.map Prod.fst) : List.lookup k (spread o patch) = List.lookup k o := by
  induction patch generalizing o with
  | nil => rfl
  | cons p ps ih =>
    simp only [List.map_cons, List.mem_cons, not_or] at h
    show List.lookup k (spread (setProp o p.1 p.2) ps) = _
    rw [ih _ h.2, lookup_setProp_of_ne o p.2 h.1]

theorem lookup_spread_of_mem (o patch : MemObj) (k : String) (v : Option JVal)
    (hnd : (patch.map Prod.fst).Nodup) (h : (k, v) ∈ patch) :
    List.lookup k (spread o patch) = some v := by
  induction patch generalizing o with
  | nil => cases h
  | cons p ps ih =>
    simp only [List.map_cons, List.nodup_cons] at hnd
    show List.lookup k (spread (setProp o p.1 p.2) ps) = _
    rcases List.mem_cons.mp h with h | h
    · subst h
      rw [lookup_spread_of_not_mem _ _ _ hnd.1, lookup_setProp_self]
    · exact ih _ hnd.2 h

/-! ## The record store -/

theorem update_cons_of_match (x : Rec) (xs : List Rec) (id : Option JVal) (patch : MemObj)
    (h : idMatches id x = true) :
    update (x :: xs) id patch =
      some (spread (ofRec x) patch, toJson (spread (ofRec x) patch) :: xs) := by
  simp [update, findIndex, h]

theorem update_cons_of_not_match (x : Rec) (xs : List Rec) (id : Option JVal)
    (patch : MemObj) (h : idMatches id x = false) :
    update (x :: xs) id patch = (update xs id patch).map (fun r => (r.1, x :: r.2)) := by
  unfold update
  simp only [findIndex, h, Bool.false_eq_true, ↓reduceIte]
  cases findIndex (idMatches id) xs with
  | none => rfl
  | some i => simp

/-- A record found by `getById` is the first one with that identifier, and
`update` with the same identifier rewrites exactly that position. -/
theorem update_of_getById (arr : List Rec) (id : Option JVal) (patch : MemObj) (row : Rec)
    (h : getById arr id = some row) :
    ∃ pre post, arr = pre ++ row :: post ∧ (∀ x ∈ pre, idMatches id x = false) ∧
      idMatches id row = true ∧
      update arr id patch =
        some (spread (ofRec row) patch, pre ++ toJson (spread (ofRec row) patch) :: post) := by
  induction arr with
  | nil => simp [getById] at h
  | cons x xs ih =>
    cases hx : idMatches id x with
    | true =>
      have e : row = x := by
        simp only [getById, List.find?_cons, hx] at h
        exact (Option.some.inj h).symm
      subst e
      exact ⟨[], xs, rfl, by simp, hx, update_cons_of_match row xs id patch hx⟩
    | false =>
      have h2 : getById xs id = some row := by
        simpa only [getById, List.find?_cons, hx] using h
      obtain ⟨pre, post, e, hpre, hrow, hu⟩ := ih h2
      refine ⟨x :: pre, post, by rw [e]; rfl, ?_, hrow, ?_⟩
      · intro y hy
        rcases List.mem_cons.mp hy with hy | hy
        · rw [hy]; exact hx
        · exact hpre y hy
      · rw [update_cons_of_not_match x xs id patch hx, hu]; rfl

/-- Without a record of that identifier `update` returns `null`. -/
theorem update_of_getById_none (arr : List Rec) (id : Option JVal) (patch : MemObj)
    (h : getById arr id = none) : update arr id patch = none := by
  induction arr with
  | nil => rfl
  | cons x xs ih =>
    cases hx : idMatches id x with
    | true => simp [getById, List.find?_cons, hx] at h
    | false =>
      have h2 : getById xs id = none := by
        simpa only [getById, List.find?_cons, hx] using h
      rw [update_cons_of_not_match x xs id patch hx, ih h2]; rfl

theorem getById_mem (arr : List Rec) (id : Option JVal) (row : Rec)
    (h : getById arr id = some row) : row ∈ arr ∧ jsString (prop row "id") = jsString id := by
  refine ⟨List.mem_of_find?_eq_some h, ?_⟩
  have := List.find?_some h
  simpa [idMatches] using this

theorem getById_eq_none_iff (arr : List Rec) (id : Option JVal) :
    getById arr id = none ↔ ∀ x ∈ arr, jsString (prop x "id") ≠ jsString id := by
  simp [getById, List.find?_eq_none, idMatches]

theorem jsString_str (s : String) : jsString (some (.str s)) = s := by
  simp [jsString, JVal.toStr]

theorem tidy_create (arr : List Rec) (obj : MemObj) (id now : String) :
    Tidy (create arr obj id now).1 := by
  refine tidy_setProp _ _ _ (tidy_spread _ _ ?_)
  intro k h
  by_cases hk : k = "id"
  · subst hk; rw [lookup_cons_self] at h; cases h
  · rw [lookup_cons_of_ne hk] at h; cases h

theorem prop_create_of_mem (arr : List Rec) (obj : MemObj) (id now : String)
    (hnd : (obj.map Prod.fst).Nodup) (hca : "created_at" ∉ obj.map Prod.fst)
    (k : String) (v : Option JVal) (h : (k, v) ∈ obj) :
    prop (toJson (create arr obj id now).1) k = v := by
  rw [prop_toJson _ (tidy_create arr obj id now)]
  have hne : k ≠ "created_at" := by
    intro e
    apply hca
    rw [← e]
    exact List.mem_map_of_mem Prod.fst h
  show (List.lookup k (setProp (spread _ obj) "created_at" _)).join = v
  rw [lookup_setProp_of_ne _ _ hne, lookup_spread_of_mem _ obj k v hnd h]
  rfl

theorem prop_create_id (arr : List Rec) (obj : MemObj) (id now : String)
    (hid : "id" ∉ obj.map Prod.fst) :
    prop (toJson (create arr obj id now).1) "id" = some (.str id) := by
  rw [prop_toJson _ (tidy_create arr obj id now)]
  show (List.lookup "id" (setProp (spread _ obj) "created_at" _)).join = _
  rw [lookup_setProp_of_ne _ _ (by decide), lookup_spread_of_not_mem _ obj "id" hid,
    lookup_cons_self]
  rfl

theorem getById_create (arr : List Rec) (obj : MemObj) (id now : String)
    (hid : "id" ∉ obj.map Prod.fst) (hfresh : freshIn id arr) :
    getById (create arr obj id now).2 (some (.str id)) =
      some (toJson (create arr obj id now).1) := by
  have hnone : getById arr (some (.str id)) = none := by
    rw [getById_eq_none_iff]
    intro x hx
    rw [jsString_str]
    exact hfresh x hx
  have hm : idMatches (some (.str id)) (toJson (create arr obj id now).1) = true := by
    simp only [idMatches, prop_create_id arr obj id now hid, beq_self_eq_true]
  show List.find? _ (arr ++ [toJson (create arr obj id now).1]) = _
  unfold getById at hnone
  rw [List.find?_append, hnone]
  simp [List.find?_cons, hm]

/-! ## Decidable predicates -/

instance : DecidableEq Response := fun a b =>
  match a, b with
  | ⟨sa, ba⟩, ⟨sb, bb⟩ =>
    if h : sa = sb ∧ ba = bb then isTrue (by rw [h.1, h.2])
    else isFalse (fun e => h (by cases e; exact ⟨rfl, rfl⟩))

instance (a b : Rec) : Decidable (sameSlot a b) := by
  unfold sameSlot; infer_instance

instance (s : Store) : Decidable (SlotUnique s) := by
  unfold SlotUnique; infer_instance

instance (id : String) (arr : List Rec) : Decidable (freshIn id arr) := by
  unfold freshIn; infer_instance

instance (s : Store) (r : Request) : Decidable (r.freshFor s) := by
  cases r <;> unfold Request.freshFor <;> infer_instance

/-! ## Conversions that throw -/

theorem throws_str (s : String) : throws (some (.str s)) = false := rfl

theorem throws_of_not_composite (v : Option JVal) (h : isComposite v = false) :
    throws v = false := by
  cases v with
  | none => rfl
  | some x => cases x <;> first | rfl | simp [isComposite] at h

/-- The search does not throw when neither the identifier sought nor a stored
identifier does. -/
theorem findThrows_eq_false (id : Option JVal) (arr : List Rec) (hid : throws id = false)
    (h : ∀ x ∈ arr, throws (prop x "id") = false) : findThrows id arr = false := by
  induction arr with
  | nil => rfl
  | cons x xs ih =>
    have hx := h x (List.mem_cons_self _ _)
    have hxs := ih (fun y hy => h y (List.mem_cons_of_mem _ hy))
    simp [findThrows, idTestThrows, hx, hid, hxs]

/-- The filter of `remove` does not throw when neither the identifier sought
nor a stored identifier does. -/
theorem filterThrows_eq_false (id : Option JVal) (arr : List Rec) (hid : throws id = false)
    (h : ∀ x ∈ arr, throws (prop x "id") = false) : filterThrows id arr = false := by
  unfold filterThrows
  rw [List.any_eq_false]
  intro x hx
  simp [idTestThrows, h x hx, hid]

/-- A search that found a record without throwing has converted the
identifier sought. -/
theorem throws_of_found (arr : List Rec) (id : Option JVal) (c : Rec)
    (hf : findThrows id arr = false) (hg : getById arr id = some c) : throws id = false := by
  cases arr with
  | nil => simp [getById] at hg
  | cons x xs =>
    simp only [findThrows, idTestThrows, Bool.or_eq_false_iff] at hf
    exact hf.1.2

theorem any_eq_false_of_forall {α : Type} (l : List α) (p : α → Bool)
    (h : ∀ a ∈ l, p a = false) : l.any p = false := by
  rw [List.any_eq_false]
  intro a ha
  simp [h a ha]

/-! ## The claims -/

/-- Cascade exactness where no conversion throws: when no stored customer
identifier and no stored `customer_id` throws, deleting the customer `k` is
answered with 200 and leaves exactly the appointments whose `customer_id` does
not string-equal `k`, unmodified and in their previous order, and the services
untouched. -/
theorem deleteCustomers_cascade (s : Store) (k : String)
    (hc : ∀ c ∈ s.customers, throws (prop c "id") = false)
    (ha : ∀ a ∈ s.appointments, throws (prop a "customer_id") = false) :
    (deleteCustomers s k).1 = ⟨200, successBody⟩ ∧
      (deleteCustomers s k).2.customers = (remove s.customers (some (.str k))).2 ∧
      (deleteCustomers s k).2.appointments =
        s.appointments.filter (fun a => decide (jsString (prop a "customer_id") ≠ k)) ∧
      (deleteCustomers s k).2.services = s.services := by
  have h1 := filterThrows_eq_false (some (.str k)) s.customers rfl hc
  have h2 := any_eq_false_of_forall s.appointments (fun a => throws (prop a "customer_id")) ha
  have e : deleteCustomers s k =
      (⟨200, successBody⟩,
        { s with customers := (remove s.customers (some (.str k))).2,
                 appointments := s.appointments.filter
                   (fun a => jsString (prop a "customer_id") != jsString (some (.str k))) }) := by
    unfold deleteCustomers
    simp only [h1, h2, Bool.false_eq_true, ↓reduceIte]
  rw [e]
  refine ⟨rfl, rfl, ?_, rfl⟩
  show List.filter _ _ = List.filter _ _
  congr 1
  funext a
  rw [jsString_str]
  by_cases h : jsString (prop a "customer_id") = k <;> simp [h]

/-- Cascade exactness where no conversion throws, for a service. -/
theorem deleteServices_cascade (s : Store) (k : String)
    (hc : ∀ c ∈ s.services, throws (prop c "id") = false)
    (ha : ∀ a ∈ s.appointments, throws (prop a "service_id") = false) :
    (deleteServices s k).1 = ⟨200, successBody⟩ ∧
      (deleteServices s k).2.services = (remove s.services (some (.str k))).2 ∧
      (deleteServices s k).2.appointments =
        s.appointments.filter (fun a => decide (jsString (prop a "service_id") ≠ k)) ∧
      (deleteServices s k).2.customers = s.customers := by
  have h1 := filterThrows_eq_false (some (.str k)) s.services rfl hc
  have h2 := any_eq_false_of_forall s.appointments (fun a => throws (prop a "service_id")) ha
  have e : deleteServices s k =
      (⟨200, successBody⟩,
        { s with services := (remove s.services (some (.str k))).2,
                 appointments := s.appointments.filter
                   (fun a => jsString (prop a "service_id") != jsString (some (.str k))) }) := by
    unfold deleteServices
    simp only [h1, h2, Bool.false_eq_true, ↓reduceIte]
  rw [e]
  refine ⟨rfl, rfl, ?_, rfl⟩
  show List.filter _ _ = List.filter _ _
  congr 1
  funext a
  rw [jsString_str]
  by_cases h : jsString (prop a "service_id") = k <;> simp [h]

/-- What a delete of a customer leaves of the appointments: the cascade, or
the collection as it was when the handler answers 500. -/
theorem deleteCustomers_appointments (s : Store) (k : String) :
    (deleteCustomers s k).2.appointments = s.appointments ∨
      (deleteCustomers s k).2.appointments =
        s.appointments.filter
          (fun a => jsString (prop a "customer_id") != jsString (some (.str k))) := by
  unfold deleteCustomers
  split
  · exact Or.inl rfl
  · simp only
    split
    · exact Or.inl rfl
    · exact Or.inr rfl

/-- What a delete of a service leaves of the appointments. -/
theorem deleteServices_appointments (s : Store) (k : String) :
    (deleteServices s k).2.appointments = s.appointments ∨
      (deleteServices s k).2.appointments =
        s.appointments.filter
          (fun a => jsString (prop a "service_id") != jsString (some (.str k))) := by
  unfold deleteServices
  split
  · exact Or.inl rfl
  · simp only
    split
    · exact Or.inl rfl
    · exact Or.inr rfl

/-- What a delete of an appointment leaves of the appointments. -/
theorem deleteAppointments_appointments (s : Store) (k : String) :
    (deleteAppointments s k).2.appointments = s.appointments ∨
      (deleteAppointments s k).2.appointments =
        s.appointments.filter (fun x => !idMatches (some (.str k)) x) := by
  unfold deleteAppointments
  split
  · exact Or.inl rfl
  · exact Or.inr rfl

/-- The status of the answer of a delete is 200 or 500. -/
theorem delete_status (s : Store) (k : String) :
    ((deleteCustomers s k).1.status = 200 ∨ (deleteCustomers s k).1.status = 500) ∧
      ((deleteServices s k).1.status = 200 ∨ (deleteServices s k).1.status = 500) ∧
      ((deleteAppointments s k).1.status = 200 ∨ (deleteAppointments s k).1.status = 500) := by
  refine ⟨?_, ?_, ?_⟩
  · unfold deleteCustomers
    split
    · exact Or.inr rfl
    · simp only
      split
      · exact Or.inr rfl
      · exact Or.inl rfl
  · unfold deleteServices
    split
    · exact Or.inr rfl
    · simp only
      split
      · exact Or.inr rfl
      · exact Or.inl rfl
  · unfold deleteAppointments
    split
    · exact Or.inr rfl
    · exact Or.inl rfl

/-- C9. Delete idempotence: `remove` always reports success; when no record
has an identifier that string-equals `id` the collection written back is the
collection read; and removing twice writes what removing once writes. -/
theorem remove_idempotent (arr : List Rec) (id : Option JVal) :
    (remove arr id).1 = successBody ∧
      ((∀ x ∈ arr, jsString (prop x "id") ≠ jsString id) → (remove arr id).2 = arr) ∧
      (remove (remove arr id).2 id).2 = (remove arr id).2 := by
  refine ⟨rfl, ?_, ?_⟩
  · intro h
    show List.filter _ arr = arr
    rw [List.filter_eq_self]
    intro x hx
    simpa [idMatches] using h x hx
  · show List.filter _ (List.filter _ arr) = List.filter _ arr
    rw [List.filter_filter]
    congr 1
    funext x
    simp

/-- Witness of C9: removing an absent identifier from a one-record collection. -/
theorem remove_idempotent_witness :
    (∀ x ∈ [[("id", JVal.str "a1"), ("name", JVal.str "Test User")]],
        jsString (prop x "id") ≠ jsString (some (.str "b2"))) ∧
      (remove [[("id", JVal.str "a1"), ("name", JVal.str "Test User")]] (some (.str "b2"))).2 =
        [[("id", JVal.str "a1"), ("name", JVal.str "Test User")]] :=
  ⟨by decide,
    (remove_idempotent [[("id", JVal.str "a1"), ("name", JVal.str "Test User")]]
      (some (.str "b2"))).2.1 (by decide)⟩

/-- C10. Create/get round trip: when the supplied fields contain neither `id`
nor `created_at`, the generated identifier is new to the collection, the stored
identifiers have a string conversion and the numbers supplied are safe
integers, the record returned by `create` reads every supplied field with the
supplied value, reads `id` as the generated identifier, and `getById` with
that identifier, on the collection written back, does not throw and returns
exactly the record; for a customer the name sent is echoed by the handler. -/
theorem create_getById_roundtrip (arr : List Rec) (obj : MemObj) (id now : String)
    (hnd : (obj.map Prod.fst).Nodup) (hid : "id" ∉ obj.map Prod.fst)
    (hca : "created_at" ∉ obj.map Prod.fst) (hfresh : freshIn id arr)
    (hids : ∀ x ∈ arr, converts (prop x "id") = true)
    (_hsafe : ∀ p ∈ obj, safe p.2 = true) :
    (∀ k v, (k, v) ∈ obj → prop (toJson (create arr obj id now).1) k = v) ∧
      prop (toJson (create arr obj id now).1) "id" = some (.str id) ∧
      findThrows (prop (toJson (create arr obj id now).1) "id") (create arr obj id now).2 = false ∧
      getById (create arr obj id now).2 (prop (toJson (create arr obj id now).1) "id") =
        some (toJson (create arr obj id now).1) ∧
      (∀ (services appointments : List Rec) (body : Rec), truthy (prop body "name") = true →
        safe (prop body "name") = true →
        ∃ rec, (postCustomers ⟨arr, services, appointments⟩ body id now).1 = ⟨201, .obj rec⟩ ∧
          prop rec "name" = prop body "name" ∧
          getById (postCustomers ⟨arr, services, appointments⟩ body id now).2.customers
            (prop rec "id") = some rec) := by
  refine ⟨fun k v h => prop_create_of_mem arr obj id now hnd hca k v h,
    prop_create_id arr obj id now hid, ?_, ?_, ?_⟩
  · rw [prop_create_id arr obj id now hid]
    refine findThrows_eq_false _ _ rfl ?_
    intro x hx
    rcases List.mem_append.mp hx with hx | hx
    · have := hids x hx
      simp only [converts, Bool.and_eq_true, Bool.not_eq_true'] at this
      exact this.1
    · rw [List.mem_singleton.mp hx]
      exact congrArg throws (prop_create_id arr obj id now hid)
  · rw [prop_create_id arr obj id now hid]
    exact getById_create arr obj id now hid hfresh
  · intro services appointments body hname _
    refine ⟨toJson (create arr [("name", prop body "name"),
      ("phone", jsOr (prop body "phone") (some .null)),
      ("email", jsOr (prop body "email") (some .null))] id now).1, ?_, ?_, ?_⟩
    · simp [postCustomers, hname]
    · exact prop_create_of_mem arr _ id now (by simp) (by simp) "name" _
        (List.mem_cons_self _ _)
    · rw [prop_create_id arr _ id now (by simp)]
      have := getById_create arr [("name", prop body "name"),
        ("phone", jsOr (prop body "phone") (some .null)),
        ("email", jsOr (prop body "email") (some .null))] id now (by simp) hfresh
      simpa [postCustomers, hname] using this

/-- Witness of C10: a second customer created in the collection that holds the
customer of the test suite. -/
theorem create_getById_roundtrip_witness :
    freshIn "c2" sampleStore.customers ∧
      getById (create sampleStore.customers
          [("name", some (.str "Second User")), ("phone", some (.num 12))]
          "c2" "2025-04-02T09:00:00.000Z").2
          (prop (toJson (create sampleStore.customers [("name", some (.str "Second User")),
            ("phone", some (.num 12))] "c2" "2025-04-02T09:00:00.000Z").1) "id") =
        some (toJson (create sampleStore.customers [("name", some (.str "Second User")),
          ("phone", some (.num 12))] "c2" "2025-04-02T09:00:00.000Z").1) :=
  ⟨(by decide),
    (create_getById_roundtrip sampleStore.customers
      [("name", some (.str "Second User")), ("phone", some (.num 12))]
      "c2" "2025-04-02T09:00:00.000Z" (by decide) (by decide) (by decide)
      (by decide) (by decide) (by decide)).2.2.2.1⟩

theorem postCustomers_rejected (s : Store) (body : Rec) (id now : String)
    (h : (postCustomers s body id now).1.status ≠ 201) : (postCustomers s body id now).2 = s := by
  unfold postCustomers at h ⊢
  by_cases hn : truthy (prop body "name") = true
  · simp [hn] at h
  · simp [hn]

theorem postServices_rejected (s : Store) (body : Rec) (id now : String)
    (h : (postServices s body id now).1.status ≠ 201) : (postServices s body id now).2 = s := by
  unfold postServices at h ⊢
  simp only at h ⊢
  split at h
  · rename_i hc; rw [if_pos hc]
  · exact absurd rfl h

theorem postAppointments_rejected (s : Store) (body : Rec) (id now : String)
    (h : (postAppointments s body id now).1.status ≠ 201) :
    (postAppointments s body id now).2 = s := by
  unfold postAppointments at h ⊢
  simp only at h ⊢
  split at h
  · rename_i hc; rw [if_pos hc]
  · rename_i hc; rw [if_neg hc]
    split at h
    · rename_i hc; rw [if_pos hc]
    · rename_i hc; rw [if_neg hc]
      split at h
      · rename_i hc; rw [if_pos hc]
      · rename_i hc; rw [if_neg hc]
        split at h
        · rename_i hc; rw [if_pos hc]
        · rename_i hc; rw [if_neg hc]
          split at h
          · rename_i hc; rw [if_pos hc]
          · rename_i hc; rw [if_neg hc]
            split at h
            · rename_i hc; rw [if_pos hc]
            · rename_i hc; rw [if_neg hc]
              split at h
              · rename_i hc; rw [if_pos hc]
              · rename_i hc; rw [if_neg hc]
                split at h
                · rename_i hc; rw [if_pos hc]
                · rename_i hc; rw [if_neg hc]
                  split at h
                  · rename_i hc; rw [if_pos hc]
                  · exact absurd rfl h

theorem putCustomers_rejected (s : Store) (id : String) (body : Rec)
    (h : (putCustomers s id body).1.status ≠ 200) : (putCustomers s id body).2 = s := by
  unfold putCustomers at h ⊢
  simp only at h ⊢
  split at h
  · rename_i hc; rw [if_pos hc]
  · rename_i hc; rw [if_neg hc]
    split
    · rfl
    · rename_i item arr hu
      rw [hu] at h
      exact absurd rfl h

theorem putServices_rejected (s : Store) (id : String) (body : Rec)
    (h : (putServices s id body).1.status ≠ 200) : (putServices s id body).2 = s := by
  unfold putServices at h ⊢
  simp only at h ⊢
  split at h
  · rename_i hc; rw [if_pos hc]
  · rename_i hc; rw [if_neg hc]
    split
    · rfl
    · rename_i item arr hu
      rw [hu] at h
      exact absurd rfl h

theorem putAppointments_rejected (s : Store) (id : String) (body : Rec)
    (h : (putAppointments s id body).1.status ≠ 200) : (putAppointments s id body).2 = s := by
  unfold putAppointments at h ⊢
  simp only at h ⊢
  split at h
  · rename_i hc; rw [if_pos hc]
  · rename_i hc; rw [if_neg hc]
    split
    · rfl
    · rename_i row hrow
      rw [hrow] at h
      simp only at h
      split at h
      · rename_i hc; rw [if_pos hc]
      · exact absurd rfl h

/-- C5. Fail-fast atomicity: a request answered with status 400, 404 or 409
leaves the customers, the services and the appointments exactly as they were. -/
theorem rejected_request_leaves_store (s : Store) (r : Request)
    (h : (handle s r).1.status = 400 ∨ (handle s r).1.status = 404 ∨
      (handle s r).1.status = 409) :
    (handle s r).2 = s := by
  cases r with
  | postCustomers body id now =>
    exact postCustomers_rejected s body id now (by rcases h with h | h | h <;> (rw [handle] at h; omega))
  | putCustomers id body =>
    exact putCustomers_rejected s id body (by rcases h with h | h | h <;> (rw [handle] at h; omega))
  | deleteCustomers id =>
    have hst := (delete_status s id).1
    rcases h with h | h | h <;> (rw [handle] at h; omega)
  | postServices body id now =>
    exact postServices_rejected s body id now (by rcases h with h | h | h <;> (rw [handle] at h; omega))
  | putServices id body =>
    exact putServices_rejected s id body (by rcases h with h | h | h <;> (rw [handle] at h; omega))
  | deleteServices id =>
    have hst := (delete_status s id).2.1
    rcases h with h | h | h <;> (rw [handle] at h; omega)
  | postAppointments body id now =>
    exact postAppointments_rejected s body id now
      (by rcases h with h | h | h <;> (rw [handle] at h; omega))
  | putAppointments id body =>
    exact putAppointments_rejected s id body
      (by rcases h with h | h | h <;> (rw [handle] at h; omega))
  | deleteAppointments id =>
    have hst := (delete_status s id).2.2
    rcases h with h | h | h <;> (rw [handle] at h; omega)

/-- Witness of C5: the second booking of the slot of the test suite is refused
with 409 and nothing is written. -/
theorem rejected_request_leaves_store_witness :
    (handle sampleStore (.postAppointments sampleBooking "a2" "2025-04-01T09:03:00.000Z")).1.status
        = 409 ∧
      (handle sampleStore (.postAppointments sampleBooking "a2" "2025-04-01T09:03:00.000Z")).2
        = sampleStore :=
  ⟨by decide,
    rejected_request_leaves_store sampleStore
      (.postAppointments sampleBooking "a2" "2025-04-01T09:03:00.000Z")
      (Or.inr (Or.inr (by decide)))⟩

/-- What an accepted appointment creation went through and what it wrote,
with the conversions that did not throw. -/
theorem postAppointments_created_full (s : Store) (body : Rec) (id now : String)
    (h : (postAppointments s body id now).1.status = 201) :
    (truthy (prop body "customerId") = true ∧ truthy (prop body "serviceId") = true ∧
      truthy (prop body "appointment_date") = true ∧ truthy (prop body "start_time") = true ∧
      isValidDate (prop body "appointment_date") = true ∧
      isValidTime (prop body "start_time") = true ∧
      (∃ c, getById s.customers (prop body "customerId") = some c) ∧
      (∃ v, getById s.services (prop body "serviceId") = some v) ∧
      s.appointments.find?
        (slotTaken (prop body "appointment_date") (prop body "start_time")) = none ∧
      postAppointments s body id now =
        (⟨201, .obj (toJson (create s.appointments (bookedObj (prop body "customerId")
            (prop body "serviceId") (prop body "appointment_date") (prop body "start_time"))
            id now).1)⟩,
          { s with appointments := (create s.appointments (bookedObj (prop body "customerId")
            (prop body "serviceId") (prop body "appointment_date") (prop body "start_time"))
            id now).2 })) ∧
      throws (prop body "appointment_date") = false ∧
      throws (prop body "start_time") = false ∧
      findThrows (prop body "customerId") s.customers = false ∧
      findThrows (prop body "serviceId") s.services = false := by
  unfold postAppointments at h ⊢
  simp only at h ⊢
  split at h
  · cases h
  · rename_i h1
    split at h
    · simp [serverError] at h
    · rename_i h2
      split at h
      · cases h
      · rename_i h3
        split at h
        · simp [serverError] at h
        · rename_i h4
          split at h
          · cases h
          · rename_i h5
            split at h
            · simp [serverError] at h
            · rename_i h6
              split at h
              · cases h
              · rename_i h7
                split at h
                · cases h
                · rename_i h8
                  split at h
                  · cases h
                  · rename_i h9
                    rw [if_neg h1, if_neg h2, if_neg h3, if_neg h4, if_neg h5, if_neg h6,
                      if_neg h7, if_neg h8, if_neg h9]
                    simp only [Bool.or_eq_true, Bool.not_eq_true', not_or,
                      Bool.not_eq_false] at h1
                    simp only [Bool.not_eq_true', Bool.not_eq_false] at h3 h5
                    simp only [Bool.not_eq_true] at h2 h4
                    simp only [Bool.or_eq_true, not_or, Bool.not_eq_true] at h6
                    simp only [Option.isNone_iff_eq_none, ← Option.ne_none_iff_exists'] at h7 h8
                    simp only [Option.isSome_iff_ne_none, ne_eq, not_not] at h9
                    exact ⟨⟨h1.1.1.1, h1.1.1.2, h1.1.2, h1.2, h3, h5,
                      Option.ne_none_iff_exists'.mp h7, Option.ne_none_iff_exists'.mp h8, h9,
                      rfl⟩, h2, h4, h6.1, h6.2⟩

/-- What an accepted appointment creation went through and what it wrote. -/
theorem postAppointments_created (s : Store) (body : Rec) (id now : String)
    (h : (postAppointments s body id now).1.status = 201) :
    truthy (prop body "customerId") = true ∧ truthy (prop body "serviceId") = true ∧
      truthy (prop body "appointment_date") = true ∧ truthy (prop body "start_time") = true ∧
      isValidDate (prop body "appointment_date") = true ∧
      isValidTime (prop body "start_time") = true ∧
      (∃ c, getById s.customers (prop body "customerId") = some c) ∧
      (∃ v, getById s.services (prop body "serviceId") = some v) ∧
      s.appointments.find?
        (slotTaken (prop body "appointment_date") (prop body "start_time")) = none ∧
      postAppointments s body id now =
        (⟨201, .obj (toJson (create s.appointments (bookedObj (prop body "customerId")
            (prop body "serviceId") (prop body "appointment_date") (prop body "start_time"))
            id now).1)⟩,
          { s with appointments := (create s.appointments (bookedObj (prop body "customerId")
            (prop body "serviceId") (prop body "appointment_date") (prop body "start_time"))
            id now).2 }) :=
  (postAppointments_created_full s body id now h).1

theorem bookedObj_keys (c v d t : Option JVal) :
    (bookedObj c v d t).map Prod.fst =
      ["customer_id", "service_id", "appointment_date", "start_time", "status"] := rfl

/-- The fields of the record that an accepted appointment creation returns. -/
theorem prop_booked (arr : List Rec) (c v d t : Option JVal) (id now : String) :
    prop (toJson (create arr (bookedObj c v d t) id now).1) "id" = some (.str id) ∧
      prop (toJson (create arr (bookedObj c v d t) id now).1) "customer_id" = c ∧
      prop (toJson (create arr (bookedObj c v d t) id now).1) "service_id" = v ∧
      prop (toJson (create arr (bookedObj c v d t) id now).1) "appointment_date" = d ∧
      prop (toJson (create arr (bookedObj c v d t) id now).1) "start_time" = t ∧
      prop (toJson (create arr (bookedObj c v d t) id now).1) "status" = some (.str "booked") := by
  have hnd : ((bookedObj c v d t).map Prod.fst).Nodup := by rw [bookedObj_keys]; decide
  have hca : "created_at" ∉ (bookedObj c v d t).map Prod.fst := by rw [bookedObj_keys]; decide
  have hid : "id" ∉ (bookedObj c v d t).map Prod.fst := by rw [bookedObj_keys]; decide
  refine ⟨prop_create_id arr _ id now hid, ?_, ?_, ?_, ?_, ?_⟩ <;>
    exact prop_create_of_mem arr _ id now hnd hca _ _ (by simp [bookedObj])

theorem throws_of_converts (v : Option JVal) (h : converts v = true) : throws v = false := by
  simp only [converts, Bool.and_eq_true, Bool.not_eq_true'] at h
  exact h.1

/-- C6. Referential check at creation: with the four inputs present and
well-formed, and every identifier that the two searches convert (the
`customerId` and the `serviceId` sent, the identifiers stored) having a string
conversion, a `customerId` that string-equals the identifier of no stored
customer, or a `serviceId` that string-equals the identifier of no stored
service, is answered with status 400 and the message `Customer not found` or
`Service not found`, whatever the appointments are, and nothing is written;
and the record returned with status 201 references a stored customer and a
stored service. -/
theorem postAppointments_checks_references (s : Store) (body : Rec) (id now : String) :
    (truthy (prop body "customerId") = true → truthy (prop body "serviceId") = true →
      truthy (prop body "appointment_date") = true → truthy (prop body "start_time") = true →
      converts (prop body "appointment_date") = true →
      isValidDate (prop body "appointment_date") = true →
      converts (prop body "start_time") = true →
      isValidTime (prop body "start_time") = true →
      converts (prop body "customerId") = true → converts (prop body "serviceId") = true →
      (∀ c ∈ s.customers, converts (prop c "id") = true) →
      (∀ v ∈ s.services, converts (prop v "id") = true) →
      ((∀ c ∈ s.customers, jsString (prop c "id") ≠ jsString (prop body "customerId")) ∨
        (∀ v ∈ s.services, jsString (prop v "id") ≠ jsString (prop body "serviceId"))) →
      (postAppointments s body id now).1.status = 400 ∧
        ((postAppointments s body id now).1.body = errorBody "Customer not found" ∨
          (postAppointments s body id now).1.body = errorBody "Service not found") ∧
        (postAppointments s body id now).2 = s) ∧
    ((postAppointments s body id now).1.status = 201 →
      ∃ rec, (postAppointments s body id now).1.body = .obj rec ∧
        (∃ c ∈ (postAppointments s body id now).2.customers,
          jsString (prop c "id") = jsString (prop rec "customer_id")) ∧
        (∃ v ∈ (postAppointments s body id now).2.services,
          jsString (prop v "id") = jsString (prop rec "service_id"))) := by
  constructor
  · intro hc hs hd ht hcd hvd hct hvt hcc hcs hic his hmiss
    have e1 := throws_of_converts _ hcd
    have e2 := throws_of_converts _ hct
    have e3 := findThrows_eq_false _ s.customers (throws_of_converts _ hcc)
      (fun c h => throws_of_converts _ (hic c h))
    have e4 := findThrows_eq_false _ s.services (throws_of_converts _ hcs)
      (fun v h => throws_of_converts _ (his v h))
    unfold postAppointments
    simp only [hc, hs, hd, ht, hvd, hvt, e1, e2, e3, e4, Bool.not_true, Bool.or_self,
      Bool.false_eq_true, ↓reduceIte]
    cases hgc : getById s.customers (prop body "customerId") with
    | none => simp [errorBody]
    | some c =>
      cases hgs : getById s.services (prop body "serviceId") with
      | none => simp [errorBody]
      | some v =>
        exfalso
        rcases hmiss with hm | hm
        · exact hm c (getById_mem _ _ _ hgc).1 (getById_mem _ _ _ hgc).2
        · exact hm v (getById_mem _ _ _ hgs).1 (getById_mem _ _ _ hgs).2
  · intro h
    obtain ⟨_, _, _, _, _, _, ⟨c, hc⟩, ⟨v, hv⟩, _, he⟩ := postAppointments_created s body id now h
    rw [he]
    refine ⟨_, rfl, ⟨c, (getById_mem _ _ _ hc).1, ?_⟩, ⟨v, (getById_mem _ _ _ hv).1, ?_⟩⟩
    · rw [(prop_booked s.appointments _ _ _ _ id now).2.1]
      exact (getById_mem _ _ _ hc).2
    · rw [(prop_booked s.appointments _ _ _ _ id now).2.2.1]
      exact (getById_mem _ _ _ hv).2

/-- Witness of C6: a booking for an unknown customer, at the slot already
taken in the sample store, is answered with 400 and not with 409. -/
theorem postAppointments_checks_references_witness :
    (postAppointments sampleStore
        [("customerId", .str "nobody"), ("serviceId", .str "s1"),
         ("appointment_date", .str "2025-04-20"), ("start_time", .str "10:00")]
        "a2" "2025-04-01T09:03:00.000Z").1.status = 400 :=
  ((postAppointments_checks_references sampleStore
      [("customerId", .str "nobody"), ("serviceId", .str "s1"),
       ("appointment_date", .str "2025-04-20"), ("start_time", .str "10:00")]
      "a2" "2025-04-01T09:03:00.000Z").1
    (by decide) (by decide) (by decide) (by decide) (by decide) (by decide)
    (by decide) (by decide) (by decide) (by decide) (by decide) (by decide)
    (Or.inl (by decide))).1

/-- The claim C6 as stated fails on a `customerId` that has no string
conversion. The request carries the four inputs, a valid date and a valid
time, and its `customerId`, the object `{ toString: 1 }`, string-equals the
identifier of no stored customer; the search of the customer throws and the
answer is 500, not the not-found client error 400. -/
theorem postAppointments_throws_on_object_reference :
    truthy (prop objectRefBooking "customerId") = true ∧
      truthy (prop objectRefBooking "serviceId") = true ∧
      truthy (prop objectRefBooking "appointment_date") = true ∧
      truthy (prop objectRefBooking "start_time") = true ∧
      isValidDate (prop objectRefBooking "appointment_date") = true ∧
      isValidTime (prop objectRefBooking "start_time") = true ∧
      throws (prop objectRefBooking "customerId") = true ∧
      (∀ c ∈ sampleStore.customers, prop c "id" = some (.str "c1")) ∧
      (postAppointments sampleStore objectRefBooking "a2" "2025-04-01T09:03:00.000Z").1 =
        serverError ∧
      (postAppointments sampleStore objectRefBooking "a2" "2025-04-01T09:03:00.000Z").1.status =
        500 := by
  refine ⟨by decide, by decide, by decide, by decide, by decide, by decide, by decide,
    by decide, by decide, by decide⟩

theorem patchObj_keys (row : Rec) (c v d t u : Option JVal) :
    (patchObj row c v d t u).map Prod.fst =
      ["customer_id", "service_id", "appointment_date", "start_time", "status"] := rfl

theorem prop_toJson_spread_of_mem (row : Rec) (patch : MemObj) (k : String)
    (v : Option JVal) (hnd : (patch.map Prod.fst).Nodup) (h : (k, v) ∈ patch) :
    prop (toJson (spread (ofRec row) patch)) k = v := by
  rw [prop_toJson _ (tidy_spread (ofRec row) patch (tidy_ofRec row)),
    lookup_spread_of_mem _ _ k v hnd h]
  rfl

/-- The five merged fields read as the patch object sets them, every other
property reads as in the row. -/
theorem prop_mergedRow (row body : Rec) :
    prop (mergedRow row body) "customer_id" =
        jsOr (prop body "customerId") (prop row "customer_id") ∧
      prop (mergedRow row body) "service_id" =
        jsOr (prop body "serviceId") (prop row "service_id") ∧
      prop (mergedRow row body) "appointment_date" =
        jsOr (prop body "appointment_date") (prop row "appointment_date") ∧
      prop (mergedRow row body) "start_time" =
        jsOr (prop body "start_time") (prop row "start_time") ∧
      prop (mergedRow row body) "status" = jsOr (prop body "status") (prop row "status") ∧
      (∀ k, k ∉ ["customer_id", "service_id", "appointment_date", "start_time", "status"] →
        prop (mergedRow row body) k = prop row k) := by
  have ht := fun patch => tidy_spread (ofRec row) patch (tidy_ofRec row)
  have hnd : ∀ c v d t u, ((patchObj row c v d t u).map Prod.fst).Nodup := by
    intro c v d t u; rw [patchObj_keys]; decide
  unfold mergedRow
  refine ⟨?_, ?_, ?_, ?_, ?_, ?_⟩
  · exact prop_toJson_spread_of_mem row _ "customer_id" _ (hnd _ _ _ _ _) (by simp [patchObj])
  · exact prop_toJson_spread_of_mem row _ "service_id" _ (hnd _ _ _ _ _) (by simp [patchObj])
  · exact prop_toJson_spread_of_mem row _ "appointment_date" _ (hnd _ _ _ _ _)
      (by simp [patchObj])
  · exact prop_toJson_spread_of_mem row _ "start_time" _ (hnd _ _ _ _ _) (by simp [patchObj])
  · exact prop_toJson_spread_of_mem row _ "status" _ (hnd _ _ _ _ _) (by simp [patchObj])
  · intro k hk
    rw [prop_toJson _ (ht _), lookup_spread_of_not_mem _ _ k (by rw [patchObj_keys]; exact hk),
      lookup_ofRec]

/-- An update whose search throws is answered with 500 and writes nothing. -/
theorem putAppointments_thrown (s : Store) (id : String) (body : Rec)
    (hf : findThrows (some (.str id)) s.appointments = true) :
    putAppointments s id body = (serverError, s) := by
  unfold putAppointments
  simp only [hf, ↓reduceIte]

/-- An update of an existing appointment whose search does not throw and that
is not answered with 409 is answered with 200 and rewrites the first record of
that identifier. -/
theorem putAppointments_accepted (s : Store) (id : String) (body row : Rec)
    (hrow : getById s.appointments (some (.str id)) = some row)
    (hf : findThrows (some (.str id)) s.appointments = false)
    (hok : (putAppointments s id body).1.status ≠ 409) :
    ∃ pre post, s.appointments = pre ++ row :: post ∧
      (∀ x ∈ pre, idMatches (some (.str id)) x = false) ∧
      putAppointments s id body =
        (⟨200, .obj (mergedRow row body)⟩,
          { s with appointments := pre ++ mergedRow row body :: post }) := by
  obtain ⟨pre, post, e, hpre, _, hu⟩ := update_of_getById s.appointments (some (.str id))
    (patchObj row (prop body "customerId") (prop body "serviceId")
      (prop body "appointment_date") (prop body "start_time") (prop body "status")) row hrow
  refine ⟨pre, post, e, hpre, ?_⟩
  unfold putAppointments at hok ⊢
  simp only [hf, Bool.false_eq_true, ↓reduceIte, hrow] at hok ⊢
  split at hok
  · exact absurd rfl hok
  · rename_i hc
    rw [if_neg hc, hu]
    rfl

/-- C8. Appointment update merge: an update of an existing appointment that is
answered with 200, with safe integers for the numbers of the patch and of the
stored appointments, stores and returns a record whose `customer_id`,
`service_id`, `appointment_date`, `start_time` and `status` are the values of
the patch where these are truthy and the previous values of the record
otherwise; the records before and after it in the collection are unchanged,
and so is the length. -/
theorem putAppointments_merges (s : Store) (id : String) (body row : Rec)
    (hrow : getById s.appointments (some (.str id)) = some row)
    (hok : (putAppointments s id body).1.status = 200)
    (_hbody : safeRec body = true) (_hstore : ∀ a ∈ s.appointments, safeRec a = true) :
    ∃ pre post rec,
      s.appointments = pre ++ row :: post ∧
      (putAppointments s id body).2.appointments = pre ++ rec :: post ∧
      (putAppointments s id body).1 = ⟨200, .obj rec⟩ ∧
      (putAppointments s id body).2.appointments.length = s.appointments.length ∧
      prop rec "customer_id" =
        (if truthy (prop body "customerId") = true then prop body "customerId"
          else prop row "customer_id") ∧
      prop rec "service_id" =
        (if truthy (prop body "serviceId") = true then prop body "serviceId"
          else prop row "service_id") ∧
      prop rec "appointment_date" =
        (if truthy (prop body "appointment_date") = true then prop body "appointment_date"
          else prop row "appointment_date") ∧
      prop rec "start_time" =
        (if truthy (prop body "start_time") = true then prop body "start_time"
          else prop row "start_time") ∧
      prop rec "status" =
        (if truthy (prop body "status") = true then prop body "status"
          else prop row "status") := by
  have hf : findThrows (some (.str id)) s.appointments = false := by
    cases hc : findThrows (some (.str id)) s.appointments with
    | false => rfl
    | true =>
      rw [putAppointments_thrown s id body hc] at hok
      simp [serverError] at hok
  obtain ⟨pre, post, e, _, hput⟩ := putAppointments_accepted s id body row hrow hf
    (by rw [hok]; decide)
  obtain ⟨h1, h2, h3, h4, h5, _⟩ := prop_mergedRow row body
  refine ⟨pre, post, mergedRow row body, e, ?_, ?_, ?_, h1, h2, h3, h4, h5⟩
  · rw [hput]
  · rw [hput]
  · rw [hput, e]; simp

/-- Witness of C8: the appointment of the sample store updated with
`{ status: "completed", start_time: "" }` keeps its time and takes the status. -/
theorem putAppointments_merges_witness :
    ∃ pre post rec,
      sampleStore.appointments = pre ++
        [("id", .str "a1"), ("customer_id", .str "c1"), ("service_id", .str "s1"),
         ("appointment_date", .str "2025-04-20"), ("start_time", .str "10:00"),
         ("status", .str "booked"), ("created_at", .str "2025-04-01T09:02:00.000Z")] :: post ∧
      (putAppointments sampleStore "a1"
        [("status", .str "completed"), ("start_time", .str "")]).2.appointments =
          pre ++ rec :: post ∧
      prop rec "start_time" = some (.str "10:00") ∧
      prop rec "status" = some (.str "completed") := by
  obtain ⟨pre, post, rec, h1, h2, _, _, _, _, _, h8, h9⟩ :=
    putAppointments_merges sampleStore "a1"
      [("status", .str "completed"), ("start_time", .str "")]
      [("id", .str "a1"), ("customer_id", .str "c1"), ("service_id", .str "s1"),
       ("appointment_date", .str "2025-04-20"), ("start_time", .str "10:00"),
       ("status", .str "booked"), ("created_at", .str "2025-04-01T09:02:00.000Z")]
      (by decide) (by decide) (by decide) (by decide)
  exact ⟨pre, post, rec, h1, h2, h8, h9⟩

theorem reachable_sampleStore : Reachable sampleStore :=
  Reachable.step _ (.postAppointments sampleBooking "a1" "2025-04-01T09:02:00.000Z")
    (Reachable.step _ sampleService
      (Reachable.step _ sampleCustomer Reachable.init (by decide)) (by decide))
    (by decide)

theorem reachable_arrayStore : Reachable arrayStore :=
  Reachable.step _ (.postAppointments arrayBooking "a1" "2025-04-01T09:02:00.000Z")
    (Reachable.step _ sampleService
      (Reachable.step _ sampleCustomer Reachable.init (by decide)) (by decide))
    (by decide)

theorem reachable_twoSlotStore : Reachable twoSlotStore :=
  Reachable.step _ _ reachable_sampleStore (by decide)

theorem reachable_objectRefStore : Reachable objectRefStore :=
  Reachable.step _ (.putAppointments "a1" [("customerId", .obj [("toString", .num 1)])])
    reachable_twoSlotStore (by decide)

/-- C3, at the failing input. In the two-slot store both appointments
reference the customer `c1`; the update of the first one with
`{ customerId: { toString: 1 } }` is answered with 200 and stores the object.
The delete of the customer `c1` then removes the customer, throws in the
filter of the appointments and is answered with 500: the appointments are not
written, and the second appointment, whose `customer_id` string-equals `c1`,
is still stored. -/
theorem delete_cascade_stops_on_throw :
    Reachable objectRefStore ∧
      (putAppointments twoSlotStore "a1"
        [("customerId", .obj [("toString", .num 1)])]).1.status = 200 ∧
      (deleteCustomers objectRefStore "c1").1 = serverError ∧
      serverError.status = 500 ∧
      (deleteCustomers objectRefStore "c1").2.customers = [] ∧
      (deleteCustomers objectRefStore "c1").2.appointments = objectRefStore.appointments ∧
      (∃ a ∈ (deleteCustomers objectRefStore "c1").2.appointments,
        prop a "id" = some (.str "a2") ∧ jsString (prop a "customer_id") = "c1") :=
  ⟨reachable_objectRefStore, by decide, by decide, by decide, by decide, by decide, by decide⟩

/-- C1, at the failing input. After the customer and the service of the test
suite, the same booking sent twice with the date as the array `["2025-04-20"]`
is accepted twice (201 and 201): the state reached holds two appointments with
equal `appointment_date` and equal `start_time`, so slot uniqueness is not an
invariant of the sequential system. -/
theorem slot_shared_after_array_date :
    Reachable (handle arrayStore
        (.postAppointments arrayBooking "a2" "2025-04-01T09:03:00.000Z")).2 ∧
      (handle arrayStore
        (.postAppointments arrayBooking "a2" "2025-04-01T09:03:00.000Z")).1.status = 201 ∧
      ¬ SlotUnique (handle arrayStore
        (.postAppointments arrayBooking "a2" "2025-04-01T09:03:00.000Z")).2 :=
  ⟨Reachable.step _ _ reachable_arrayStore (by decide), by decide, by decide⟩

/-- C2, at the failing input. The booking with the array date satisfies every
premise (the four inputs are truthy, date and time pass `isValidDate` and
`isValidTime`, customer and service resolve) and a stored appointment has the
same `appointment_date` and the same `start_time`, yet the answer is 201 and
not 409. -/
theorem array_date_not_refused :
    truthy (prop arrayBooking "customerId") = true ∧
      truthy (prop arrayBooking "serviceId") = true ∧
      truthy (prop arrayBooking "appointment_date") = true ∧
      truthy (prop arrayBooking "start_time") = true ∧
      isValidDate (prop arrayBooking "appointment_date") = true ∧
      isValidTime (prop arrayBooking "start_time") = true ∧
      (getById arrayStore.customers (prop arrayBooking "customerId")).isSome = true ∧
      (getById arrayStore.services (prop arrayBooking "serviceId")).isSome = true ∧
      (∃ a ∈ arrayStore.appointments,
        prop a "appointment_date" = prop arrayBooking "appointment_date" ∧
        prop a "start_time" = prop arrayBooking "start_time") ∧
      (postAppointments arrayStore arrayBooking "a2" "2025-04-01T09:03:00.000Z").1.status
        = 201 := by
  refine ⟨by decide, by decide, by decide, by decide, by decide, by decide, by decide,
    by decide, ?_, by decide⟩
  exact ⟨_, List.mem_singleton.mpr rfl, by decide, by decide⟩

/-- C4, at the failing input. The customer of the test suite updated with the
empty body `{}` is answered with 200 and the record `{ id, created_at }`: the
name, the phone and the email are gone from the response and from the stored
collection. -/
theorem empty_patch_wipes_customer :
    getById sampleStore.customers (some (.str "c1")) =
        some [("id", .str "c1"), ("name", .str "Test User"), ("phone", .str "012"),
          ("email", .null), ("created_at", .str "2025-04-01T09:00:00.000Z")] ∧
      putCustomers sampleStore "c1" [] =
        (⟨200, .obj [("id", .str "c1"), ("created_at", .str "2025-04-01T09:00:00.000Z")]⟩,
          { sampleStore with
            customers := [[("id", .str "c1"),
              ("created_at", .str "2025-04-01T09:00:00.000Z")]] }) ∧
      (putCustomers sampleStore "c1" []).2.customers ≠ sampleStore.customers ∧
      (putServices sampleStore "s1" []).2.services =
        [[("id", .str "s1"), ("created_at", .str "2025-04-01T09:01:00.000Z")]] :=
  ⟨by rfl, by rfl, by decide, by rfl⟩

/-! ## Strict equality on values that are not arrays or objects -/

/-- When the left operand is not an array or an object, `===` holds exactly of equal values. -/
theorem strictEq_iff_of_left (a b : Option JVal) (h : isComposite a = false) :
    strictEq a b = true ↔ a = b := by
  cases a with
  | none => cases b with
    | none => simp [strictEq]
    | some y => cases y <;> simp [strictEq]
  | some x =>
    cases x with
    | arr _ => simp [isComposite] at h
    | obj _ => simp [isComposite] at h
    | null => cases b with
      | none => simp [strictEq]
      | some y => cases y <;> simp [strictEq]
    | bool _ => cases b with
      | none => simp [strictEq]
      | some y => cases y <;> simp [strictEq]
    | num _ => cases b with
      | none => simp [strictEq]
      | some y => cases y <;> simp [strictEq]
    | str _ => cases b with
      | none => simp [strictEq]
      | some y => cases y <;> simp [strictEq]

theorem strictEq_comm (a b : Option JVal) : strictEq a b = strictEq b a := by
  cases a with
  | none => cases b with
    | none => rfl
    | some y => cases y <;> rfl
  | some x =>
    cases b with
    | none => cases x <;> rfl
    | some y => cases x <;> cases y <;> simp [strictEq, eq_comm]

/-- When the right operand is not an array or an object, `===` holds exactly of equal values. -/
theorem strictEq_iff_of_right (a b : Option JVal) (h : isComposite b = false) :
    strictEq a b = true ↔ a = b := by
  rw [strictEq_comm, strictEq_iff_of_left b a h, eq_comm]

theorem jsOr_none (b : Option JVal) : jsOr none b = b := rfl

/-- The search of an appointment by a path identifier does not throw when no
stored appointment has an array or an object as `id`. -/
theorem findThrows_of_plain (l : List Rec) (id : String)
    (h : ∀ a ∈ l, isComposite (prop a "id") = false) :
    findThrows (some (.str id)) l = false :=
  findThrows_eq_false _ l rfl (fun a ha => throws_of_not_composite _ (h a ha))

/-- The answer 409 of an update whose search does not throw: the guard holds
and the search finds a record. -/
theorem putAppointments_conflict (s : Store) (id : String) (body row : Rec)
    (hrow : getById s.appointments (some (.str id)) = some row)
    (hf : findThrows (some (.str id)) s.appointments = false) :
    (putAppointments s id body).1.status = 409 ↔
      slotChanged row (prop body "appointment_date") (prop body "start_time") = true ∧
        ∃ a ∈ s.appointments,
          slotTakenByOther row (prop body "appointment_date") (prop body "start_time") a
            = true := by
  unfold putAppointments
  simp only [hf, Bool.false_eq_true, ↓reduceIte, hrow]
  split
  · rename_i hc
    simp only [Bool.and_eq_true, Option.isSome_iff_ne_none, ne_eq, List.find?_eq_none,
      not_forall, Classical.not_imp, Bool.not_eq_true, Bool.not_eq_false] at hc
    refine ⟨fun _ => ⟨hc.1, ?_⟩, fun _ => rfl⟩
    obtain ⟨a, ha, hm⟩ := hc.2
    exact ⟨a, ha, by simpa using hm⟩
  · rename_i hc
    refine ⟨fun h => (by cases h), fun h => ?_⟩
    exfalso
    apply hc
    obtain ⟨h1, a, ha, hm⟩ := h
    simp only [Bool.and_eq_true, Option.isSome_iff_ne_none, ne_eq, List.find?_eq_none,
      not_forall, Classical.not_imp, Bool.not_eq_true, Bool.not_eq_false]
    exact ⟨h1, a, ha, by simpa using hm⟩

theorem jsOr_ne_iff (d rd : Option JVal) (h : isComposite rd = false) :
    jsOr d rd ≠ rd ↔ (truthy d && !strictEq d rd) = true := by
  unfold jsOr
  cases ht : truthy d with
  | true =>
    simp only [if_true, Bool.true_and, Bool.not_eq_true', ne_eq]
    rw [← Bool.not_eq_true, strictEq_iff_of_right d rd h]
  | false => simp

theorem slotChanged_iff (row : Rec) (d t : Option JVal)
    (hd : isComposite (prop row "appointment_date") = false)
    (ht : isComposite (prop row "start_time") = false) :
    slotChanged row d t = true ↔
      (jsOr d (prop row "appointment_date"), jsOr t (prop row "start_time")) ≠
        (prop row "appointment_date", prop row "start_time") := by
  unfold slotChanged
  rw [Bool.or_eq_true, ← jsOr_ne_iff d _ hd, ← jsOr_ne_iff t _ ht]
  simp only [ne_eq, Prod.mk.injEq, not_and_or]

theorem slotTakenByOther_iff (row a : Rec) (d t : Option JVal)
    (hi : isComposite (prop a "id") = false)
    (hd : isComposite (prop a "appointment_date") = false)
    (ht : isComposite (prop a "start_time") = false) :
    slotTakenByOther row d t a = true ↔
      prop a "id" ≠ prop row "id" ∧
        prop a "appointment_date" = jsOr d (prop row "appointment_date") ∧
        prop a "start_time" = jsOr t (prop row "start_time") := by
  unfold slotTakenByOther
  rw [Bool.and_eq_true, Bool.and_eq_true, strictEq_iff_of_left _ _ hd,
    strictEq_iff_of_left _ _ ht, Bool.not_eq_true', ← Bool.not_eq_true,
    strictEq_iff_of_left _ _ hi, and_assoc]

/-- C7, as amended. For an existing appointment `row`, with `d'` and `t'` the
values of the patch where these are truthy and the values of `row` otherwise:
when no stored appointment has an array or an object as `id`,
`appointment_date` or `start_time`, the update is answered with 409 if and
only if `(d', t')` differs from the slot of `row` and some stored appointment
with another `id` has `appointment_date = d'` and `start_time = t'`; and an
update that supplies neither `appointment_date` nor `start_time` is never
answered with 409 and stores the record with both unchanged. -/
theorem putAppointments_conflict_rule (s : Store) (id : String) (body row : Rec)
    (hrow : getById s.appointments (some (.str id)) = some row) :
    (PlainSlots s.appointments →
      ((putAppointments s id body).1.status = 409 ↔
        ConflictRule jsOr s.appointments row body)) ∧
    (prop body "appointment_date" = none → prop body "start_time" = none →
      (putAppointments s id body).1.status ≠ 409 ∧
      ∃ pre post rec, s.appointments = pre ++ row :: post ∧
        (putAppointments s id body).2.appointments = pre ++ rec :: post ∧
        prop rec "appointment_date" = prop row "appointment_date" ∧
        prop rec "start_time" = prop row "start_time") := by
  constructor
  · intro hplain
    have hr := hplain row (getById_mem _ _ _ hrow).1
    have hf := findThrows_of_plain s.appointments id (fun a ha => (hplain a ha).1)
    rw [putAppointments_conflict s id body row hrow hf, slotChanged_iff row _ _ hr.2.1 hr.2.2]
    unfold ConflictRule
    refine and_congr_right (fun _ => ?_)
    constructor
    · rintro ⟨a, ha, hm⟩
      have hp := hplain a ha
      exact ⟨a, ha, (slotTakenByOther_iff row a _ _ hp.1 hp.2.1 hp.2.2).mp hm⟩
    · rintro ⟨a, ha, hm⟩
      have hp := hplain a ha
      exact ⟨a, ha, (slotTakenByOther_iff row a _ _ hp.1 hp.2.1 hp.2.2).mpr hm⟩
  · intro hd ht
    cases hf : findThrows (some (.str id)) s.appointments with
    | true =>
      obtain ⟨pre, post, e, _, _, _⟩ := update_of_getById s.appointments (some (.str id)) [] row hrow
      rw [putAppointments_thrown s id body hf]
      exact ⟨by simp [serverError], pre, post, row, e, e, rfl, rfl⟩
    | false =>
      have hok : (putAppointments s id body).1.status ≠ 409 := by
        rw [ne_eq, putAppointments_conflict s id body row hrow hf, hd, ht]
        rintro ⟨hc, _⟩
        simp [slotChanged, truthy] at hc
      refine ⟨hok, ?_⟩
      obtain ⟨pre, post, e, _, hput⟩ := putAppointments_accepted s id body row hrow hf hok
      obtain ⟨_, _, h3, h4, _, _⟩ := prop_mergedRow row body
      refine ⟨pre, post, mergedRow row body, e, by rw [hput], ?_, ?_⟩
      · rw [h3, hd, jsOr_none]
      · rw [h4, ht, jsOr_none]

/-- Witness of C7 as amended: moving the 10:00 appointment of the two-slot
store to 11:00, the time of the other appointment, is answered with 409. -/
theorem putAppointments_conflict_rule_witness :
    (putAppointments twoSlotStore "a1" [("start_time", .str "11:00")]).1.status = 409 ↔
      ConflictRule jsOr twoSlotStore.appointments
        [("id", .str "a1"), ("customer_id", .str "c1"), ("service_id", .str "s1"),
         ("appointment_date", .str "2025-04-20"), ("start_time", .str "10:00"),
         ("status", .str "booked"), ("created_at", .str "2025-04-01T09:02:00.000Z")]
        [("start_time", .str "11:00")] :=
  (putAppointments_conflict_rule twoSlotStore "a1" [("start_time", .str "11:00")]
    [("id", .str "a1"), ("customer_id", .str "c1"), ("service_id", .str "s1"),
     ("appointment_date", .str "2025-04-20"), ("start_time", .str "10:00"),
     ("status", .str "booked"), ("created_at", .str "2025-04-01T09:02:00.000Z")]
    (by decide)).1 (by unfold PlainSlots; decide)

instance (eff : Option JVal → Option JVal → Option JVal) (appointments : List Rec)
    (row patch : Rec) : Decidable (ConflictRule eff appointments row patch) := by
  unfold ConflictRule; infer_instance

/-- C7, counterexample. In the two-slot store the 10:00 appointment is updated
with `{ appointment_date: "", start_time: "11:00" }`: the date is provided, so
the rule as stated takes `d' = ""`, no stored appointment has that date, and
the rule predicts no conflict; the handler treats the empty date as absent,
checks the slot (2025-04-20, 11:00) and answers 409. -/
theorem conflict_rule_fails_on_empty_date :
    getById twoSlotStore.appointments (some (.str "a1")) =
        some [("id", .str "a1"), ("customer_id", .str "c1"), ("service_id", .str "s1"),
          ("appointment_date", .str "2025-04-20"), ("start_time", .str "10:00"),
          ("status", .str "booked"), ("created_at", .str "2025-04-01T09:02:00.000Z")] ∧
      (putAppointments twoSlotStore "a1"
        [("appointment_date", .str ""), ("start_time", .str "11:00")]).1.status = 409 ∧
      ¬ ConflictRule providedOr twoSlotStore.appointments
        [("id", .str "a1"), ("customer_id", .str "c1"), ("service_id", .str "s1"),
         ("appointment_date", .str "2025-04-20"), ("start_time", .str "10:00"),
         ("status", .str "booked"), ("created_at", .str "2025-04-01T09:02:00.000Z")]
        [("appointment_date", .str ""), ("start_time", .str "11:00")] :=
  ⟨by decide, by decide, by decide⟩

/-! ## The conflict check of a create on stores without array or object slots -/

/-- The create rule where it holds: with the four inputs present, date and time
accepted by the validators, customer and service resolved, no conversion
throwing, and no stored appointment holding an array or an object as
`appointment_date` or `start_time`, the answer is 409 exactly when some stored
appointment has the requested date and time, and 201 otherwise. -/
theorem postAppointments_conflict_iff_of_plain (s : Store) (body : Rec) (id now : String)
    (hc : truthy (prop body "customerId") = true) (hs : truthy (prop body "serviceId") = true)
    (hd : truthy (prop body "appointment_date") = true)
    (ht : truthy (prop body "start_time") = true)
    (hxd : throws (prop body "appointment_date") = false)
    (hvd : isValidDate (prop body "appointment_date") = true)
    (hxt : throws (prop body "start_time") = false)
    (hvt : isValidTime (prop body "start_time") = true)
    (hfc : findThrows (prop body "customerId") s.customers = false)
    (hfs : findThrows (prop body "serviceId") s.services = false)
    (hgc : (getById s.customers (prop body "customerId")).isSome = true)
    (hgs : (getById s.services (prop body "serviceId")).isSome = true)
    (hplain : ∀ a ∈ s.appointments, isComposite (prop a "appointment_date") = false ∧
      isComposite (prop a "start_time") = false) :
    ((postAppointments s body id now).1.status = 409 ↔
        ∃ a ∈ s.appointments, prop a "appointment_date" = prop body "appointment_date" ∧
          prop a "start_time" = prop body "start_time") ∧
      ((postAppointments s body id now).1.status = 409 ∨
        (postAppointments s body id now).1.status = 201) := by
  have hiff : ∀ a ∈ s.appointments,
      (slotTaken (prop body "appointment_date") (prop body "start_time") a = true ↔
        prop a "appointment_date" = prop body "appointment_date" ∧
          prop a "start_time" = prop body "start_time") := by
    intro a ha
    unfold slotTaken
    rw [Bool.and_eq_true, strictEq_iff_of_left _ _ (hplain a ha).1,
      strictEq_iff_of_left _ _ (hplain a ha).2]
  have hn1 : (getById s.customers (prop body "customerId")).isNone = false := by
    rw [Option.isNone_eq_false_iff]; exact hgc
  have hn2 : (getById s.services (prop body "serviceId")).isNone = false := by
    rw [Option.isNone_eq_false_iff]; exact hgs
  unfold postAppointments
  simp only [hc, hs, hd, ht, hxd, hvd, hxt, hvt, hfc, hfs, hn1, hn2, Bool.not_true,
    Bool.or_self, Bool.false_eq_true, ↓reduceIte]
  split
  · rename_i hf
    refine ⟨⟨fun _ => ?_, fun _ => rfl⟩, Or.inl rfl⟩
    rw [Option.isSome_iff_exists] at hf
    obtain ⟨a, ha⟩ := hf
    exact ⟨a, List.mem_of_find?_eq_some ha, (hiff a (List.mem_of_find?_eq_some ha)).mp
      (List.find?_some ha)⟩
  · rename_i hf
    refine ⟨⟨fun h => (by cases h), fun h => ?_⟩, Or.inr rfl⟩
    exfalso
    apply hf
    obtain ⟨a, ha, hm⟩ := h
    rw [Option.isSome_iff_ne_none, ne_eq, List.find?_eq_none]
    intro hall
    exact hall a ha ((hiff a ha).mpr hm)

/-! ## The empty patch on an appointment -/

theorem map_replace_of_not_any (o : MemObj) (k : String) (v : Option JVal)
    (h : o.any (fun p => p.1 == k) = false) :
    o.map (fun p => if p.1 == k then (k, v) else p) = o := by
  induction o with
  | nil => rfl
  | cons p o ih =>
    rw [List.any_cons, Bool.or_eq_false_iff] at h
    rw [List.map_cons, ih h.2, if_neg (by rw [h.1]; exact Bool.false_ne_true)]

theorem not_any_of_not_mem_keys (o : MemObj) (k : String) (h : k ∉ o.map Prod.fst) :
    o.any (fun p => p.1 == k) = false := by
  rw [← Bool.not_eq_true, List.any_eq_true]
  rintro ⟨p, hp, hk⟩
  apply h
  rw [List.mem_map]
  exact ⟨p, hp, by simpa using hk⟩

/-- Assigning to a property the value it already reads leaves an object with
distinct keys as it is. -/
theorem setProp_same (o : MemObj) (k : String) (v : Option JVal)
    (hnd : (o.map Prod.fst).Nodup) (h : List.lookup k o = some v) : setProp o k v = o := by
  unfold setProp
  rw [if_pos (any_key_of_lookup k o v h)]
  induction o with
  | nil => rfl
  | cons p o ih =>
    obtain ⟨a, b⟩ := p
    rw [List.map_cons, List.nodup_cons] at hnd
    by_cases hk : k = a
    · subst hk
      rw [lookup_cons_self] at h
      have hb := Option.some.inj h
      rw [← hb, List.map_cons,
        map_replace_of_not_any o k b (not_any_of_not_mem_keys o k hnd.1)]
      simp
    · rw [lookup_cons_of_ne hk] at h
      have e : ¬ ((a == k) = true) := by simpa using fun e => hk e.symm
      rw [List.map_cons, ih hnd.2 h]
      simp [e]

theorem toJson_append_undefined (o : MemObj) (k : String) :
    toJson (o ++ [(k, none)]) = toJson o := by
  simp [toJson]

theorem toJson_ofRec (r : Rec) : toJson (ofRec r) = r := by
  induction r with
  | nil => rfl
  | cons p r ih =>
    have : toJson (ofRec (p :: r)) = p :: toJson (ofRec r) := by simp [toJson, ofRec]
    rw [this, ih]

/-- Assigning to a property the value the serialised object reads for it does
not change the serialised object. -/
theorem toJson_setProp_same (o : MemObj) (k : String) (hnd : (o.map Prod.fst).Nodup) :
    toJson (setProp o k (List.lookup k o).join) = toJson o ∧
      ((setProp o k (List.lookup k o).join).map Prod.fst).Nodup ∧
      ∀ k', (List.lookup k' (setProp o k (List.lookup k o).join)).join =
        (List.lookup k' o).join := by
  cases h : List.lookup k o with
  | some v =>
    have e : setProp o k (some v).join = o := by
      cases v with
      | none => exact setProp_same o k none hnd h
      | some w => exact setProp_same o k (some w) hnd h
    rw [e]
    exact ⟨rfl, hnd, fun _ => rfl⟩
  | none =>
    have hany : o.any (fun p => p.1 == k) = false := by
      cases hb : o.any (fun p => p.1 == k) with
      | false => rfl
      | true =>
        exfalso
        rw [List.any_eq_true] at hb
        obtain ⟨⟨a, b⟩, hp, hk⟩ := hb
        have hk2 : a = k := by simpa using hk
        subst hk2
        have : List.lookup a o ≠ none := by
          clear h hnd
          induction o with
          | nil => cases hp
          | cons q o ih =>
            obtain ⟨c, d⟩ := q
            by_cases hc : a = c
            · subst hc; rw [lookup_cons_self]; exact Option.some_ne_none _
            · rw [lookup_cons_of_ne hc]
              rcases List.mem_cons.mp hp with hp | hp
              · cases hp; exact absurd rfl hc
              · exact ih hp
        exact this h
    have e : setProp o k (none : Option (Option JVal)).join = o ++ [(k, none)] := by
      unfold setProp
      rw [if_neg (by rw [hany]; exact Bool.false_ne_true)]
      rfl
    rw [e]
    refine ⟨toJson_append_undefined o k, ?_, ?_⟩
    · rw [List.map_append, List.nodup_append]
      refine ⟨hnd, List.nodup_singleton _, ?_⟩
      intro x hx hx2
      rw [List.map_singleton, List.mem_singleton] at hx2
      rw [List.mem_map] at hx
      obtain ⟨q, hq, hqk⟩ := hx
      have : o.any (fun p => p.1 == k) = true := by
        rw [List.any_eq_true]
        exact ⟨q, hq, by simpa [hqk] using hx2⟩
      rw [hany] at this
      cases this
    · intro k'
      by_cases hk : k' = k
      · subst hk
        rw [lookup_append_of_not_any k' o _ hany, lookup_cons_self, h]
        rfl
      · cases hb : o.any (fun p => p.1 == k') with
        | true => rw [lookup_append_of_any k' o _ hb]
        | false =>
          rw [lookup_append_of_not_any k' o _ hb, lookup_eq_none_of_not_any k' o hb,
            lookup_cons_of_ne hk]
          rfl

theorem toJson_spread_same (row : Rec) (keys : List String) (o : MemObj)
    (hnd : (o.map Prod.fst).Nodup) (hl : ∀ k, (List.lookup k o).join = prop row k) :
    toJson (spread o (keys.map (fun k => (k, prop row k)))) = toJson o := by
  induction keys generalizing o with
  | nil => rfl
  | cons k ks ih =>
    obtain ⟨h1, h2, h3⟩ := toJson_setProp_same o k hnd
    show toJson (spread (setProp o k (prop row k)) _) = _
    rw [← hl k, ih _ h2 (fun k' => by rw [h3 k', hl k']), h1]

theorem nodup_keys_ofRec (row : Rec) (h : (row.map Prod.fst).Nodup) :
    ((ofRec row).map Prod.fst).Nodup := by
  have : (ofRec row).map Prod.fst = row.map Prod.fst := by
    simp [ofRec, List.map_map, Function.comp_def]
  rw [this]; exact h

/-- The part of the empty-patch property that holds: an update of an existing
appointment whose body supplies none of the five fields (or supplies them
falsy) is answered with 200 and the record as stored, and leaves the three
collections as they were. The stored record is a JSON object, its keys are
distinct; the search of the record does not throw. -/
theorem putAppointments_empty_patch (s : Store) (id : String) (body row : Rec)
    (hrow : getById s.appointments (some (.str id)) = some row)
    (hf : findThrows (some (.str id)) s.appointments = false)
    (hkeys : (row.map Prod.fst).Nodup)
    (hc : truthy (prop body "customerId") = false) (hs : truthy (prop body "serviceId") = false)
    (hd : truthy (prop body "appointment_date") = false)
    (ht : truthy (prop body "start_time") = false)
    (hu : truthy (prop body "status") = false) :
    putAppointments s id body = (⟨200, .obj row⟩, s) := by
  have hok : (putAppointments s id body).1.status ≠ 409 := by
    rw [ne_eq, putAppointments_conflict s id body row hrow hf]
    rintro ⟨hch, _⟩
    simp [slotChanged, hd, ht] at hch
  obtain ⟨pre, post, e, _, hput⟩ := putAppointments_accepted s id body row hrow hf hok
  have hm : mergedRow row body = row := by
    unfold mergedRow
    have hp : patchObj row (prop body "customerId") (prop body "serviceId")
        (prop body "appointment_date") (prop body "start_time") (prop body "status") =
        ["customer_id", "service_id", "appointment_date", "start_time", "status"].map
          (fun k => (k, prop row k)) := by
      simp [patchObj, jsOr, hc, hs, hd, ht, hu]
    rw [hp, toJson_spread_same row _ (ofRec row) (nodup_keys_ofRec row hkeys)
      (fun k => lookup_ofRec row k), toJson_ofRec]
  rw [hput, hm, ← e]

/-- The empty body on the appointment of the sample store. -/
theorem putAppointments_empty_patch_sample :
    putAppointments sampleStore "a1" [] =
      (⟨200, .obj [("id", .str "a1"), ("customer_id", .str "c1"), ("service_id", .str "s1"),
        ("appointment_date", .str "2025-04-20"), ("start_time", .str "10:00"),
        ("status", .str "booked"), ("created_at", .str "2025-04-01T09:02:00.000Z")]⟩,
        sampleStore) :=
  putAppointments_empty_patch sampleStore "a1" [] _ (by decide) (by decide) (by decide)
    (by decide) (by decide) (by decide) (by decide) (by decide)

/-! ## Slot uniqueness for requests without array or object dates and times -/

theorem pairwise_replace {R : Rec → Rec → Prop} (hsymm : ∀ a b, R a b → R b a)
    (pre post : List Rec) (row rec : Rec) (h : (pre ++ row :: post).Pairwise R)
    (hr : ∀ a ∈ pre ++ post, R a rec) : (pre ++ rec :: post).Pairwise R := by
  rw [List.pairwise_append, List.pairwise_cons] at h ⊢
  obtain ⟨h1, ⟨_, h3⟩, h4⟩ := h
  refine ⟨h1, ⟨fun b hb => hsymm _ _ (hr b (List.mem_append_right _ hb)), h3⟩, ?_⟩
  intro a ha b hb
  rcases List.mem_cons.mp hb with hb | hb
  · rw [hb]; exact hr a (List.mem_append_left _ ha)
  · exact h4 a ha b (List.mem_cons_of_mem _ hb)

theorem pairwise_row {R : Rec → Rec → Prop} (hsymm : ∀ a b, R a b → R b a)
    (pre post : List Rec) (row : Rec) (h : (pre ++ row :: post).Pairwise R) :
    ∀ a ∈ pre ++ post, R a row := by
  rw [List.pairwise_append, List.pairwise_cons] at h
  obtain ⟨_, ⟨h2, _⟩, h4⟩ := h
  intro a ha
  rcases List.mem_append.mp ha with ha | ha
  · exact h4 a ha row (List.mem_cons_self _ _)
  · exact hsymm _ _ (h2 a ha)

theorem apptInv_nil : ApptInv [] :=
  ⟨fun _ h => (by cases h), fun _ h => (by cases h), List.Pairwise.nil, List.Pairwise.nil⟩

theorem apptInv_filter (l : List Rec) (p : Rec → Bool) (h : ApptInv l) :
    ApptInv (l.filter p) :=
  ⟨fun a ha => h.1 a (List.mem_of_mem_filter ha),
    fun a ha => h.2.1 a (List.mem_of_mem_filter ha),
    h.2.2.1.sublist (List.filter_sublist l), h.2.2.2.sublist (List.filter_sublist l)⟩

theorem apptInv_append (l : List Rec) (rec : Rec) (i : String) (h : ApptInv l)
    (hid : prop rec "id" = some (.str i)) (hfresh : freshIn i l)
    (hd : isComposite (prop rec "appointment_date") = false)
    (ht : isComposite (prop rec "start_time") = false)
    (hslot : ∀ a ∈ l, ¬ sameSlot a rec) : ApptInv (l ++ [rec]) := by
  refine ⟨?_, ?_, ?_, ?_⟩
  · intro a ha
    rcases List.mem_append.mp ha with ha | ha
    · exact h.1 a ha
    · rw [List.mem_singleton.mp ha]; exact ⟨i, hid⟩
  · intro a ha
    rcases List.mem_append.mp ha with ha | ha
    · exact h.2.1 a ha
    · rw [List.mem_singleton.mp ha]; exact ⟨hd, ht⟩
  · rw [List.pairwise_append]
    refine ⟨h.2.2.1, List.pairwise_singleton _ _, ?_⟩
    intro a ha b hb
    rw [List.mem_singleton.mp hb, hid]
    intro e
    apply hfresh a ha
    rw [e, jsString_str]
  · rw [List.pairwise_append]
    refine ⟨h.2.2.2, List.pairwise_singleton _ _, ?_⟩
    intro a ha b hb
    rw [List.mem_singleton.mp hb]
    exact hslot a ha

theorem apptInv_replace (pre post : List Rec) (row rec : Rec)
    (h : ApptInv (pre ++ row :: post)) (hid : prop rec "id" = prop row "id")
    (hd : isComposite (prop rec "appointment_date") = false)
    (ht : isComposite (prop rec "start_time") = false)
    (hslot : ∀ a ∈ pre ++ post, ¬ sameSlot a rec) : ApptInv (pre ++ rec :: post) := by
  have hmem : ∀ a, a ∈ pre ++ rec :: post → a = rec ∨ a ∈ pre ++ row :: post := by
    intro a ha
    rcases List.mem_append.mp ha with ha | ha
    · exact Or.inr (List.mem_append_left _ ha)
    · rcases List.mem_cons.mp ha with ha | ha
      · exact Or.inl ha
      · exact Or.inr (List.mem_append_right _ (List.mem_cons_of_mem _ ha))
  have hrow : row ∈ pre ++ row :: post := List.mem_append_right _ (List.mem_cons_self _ _)
  refine ⟨?_, ?_, ?_, ?_⟩
  · intro a ha
    rcases hmem a ha with e | ha
    · rw [e, hid]; exact h.1 row hrow
    · exact h.1 a ha
  · intro a ha
    rcases hmem a ha with e | ha
    · rw [e]; exact ⟨hd, ht⟩
    · exact h.2.1 a ha
  · refine pairwise_replace (fun a b hab => fun e => hab e.symm) pre post row rec h.2.2.1 ?_
    intro a ha
    rw [hid]
    exact pairwise_row (fun a b hab => fun e => hab e.symm) pre post row h.2.2.1 a ha
  · exact pairwise_replace (fun a b hab => fun e => hab ⟨e.1.symm, e.2.symm⟩) pre post row rec
      h.2.2.2 hslot

theorem postCustomers_appointments (s : Store) (body : Rec) (id now : String) :
    (postCustomers s body id now).2.appointments = s.appointments := by
  unfold postCustomers
  simp only
  split <;> rfl

theorem putCustomers_appointments (s : Store) (id : String) (body : Rec) :
    (putCustomers s id body).2.appointments = s.appointments := by
  unfold putCustomers
  simp only
  split
  · rfl
  · split <;> rfl

theorem postServices_appointments (s : Store) (body : Rec) (id now : String) :
    (postServices s body id now).2.appointments = s.appointments := by
  unfold postServices
  simp only
  split <;> rfl

theorem putServices_appointments (s : Store) (id : String) (body : Rec) :
    (putServices s id body).2.appointments = s.appointments := by
  unfold putServices
  simp only
  split
  · rfl
  · split <;> rfl

theorem isComposite_jsOr (d rd : Option JVal) (hd : isComposite d = false)
    (hr : isComposite rd = false) : isComposite (jsOr d rd) = false := by
  unfold jsOr
  split
  · exact hd
  · exact hr

theorem postAppointments_preserves (s : Store) (body : Rec) (id now : String)
    (hinv : ApptInv s.appointments) (hf : freshIn id s.appointments)
    (hd : isComposite (prop body "appointment_date") = false)
    (ht : isComposite (prop body "start_time") = false) :
    ApptInv (postAppointments s body id now).2.appointments := by
  by_cases h : (postAppointments s body id now).1.status = 201
  · obtain ⟨_, _, _, _, _, _, _, _, hfind, he⟩ := postAppointments_created s body id now h
    obtain ⟨p1, _, _, p4, p5, _⟩ := prop_booked s.appointments (prop body "customerId")
      (prop body "serviceId") (prop body "appointment_date") (prop body "start_time") id now
    rw [he]
    refine apptInv_append s.appointments _ id hinv p1 hf
      ((congrArg isComposite p4).trans hd) ((congrArg isComposite p5).trans ht) ?_
    intro a ha hs
    rw [List.find?_eq_none] at hfind
    apply hfind a ha
    unfold slotTaken
    rw [Bool.and_eq_true, strictEq_iff_of_left _ _ (hinv.2.1 a ha).1,
      strictEq_iff_of_left _ _ (hinv.2.1 a ha).2]
    exact ⟨hs.1.trans p4, hs.2.trans p5⟩
  · rw [postAppointments_rejected s body id now h]
    exact hinv

theorem plainSlots_of_apptInv (l : List Rec) (h : ApptInv l) : PlainSlots l := by
  intro a ha
  obtain ⟨i, hi⟩ := h.1 a ha
  exact ⟨by rw [hi]; rfl, h.2.1 a ha⟩

theorem putAppointments_preserves (s : Store) (id : String) (body : Rec)
    (hinv : ApptInv s.appointments)
    (hd : isComposite (prop body "appointment_date") = false)
    (ht : isComposite (prop body "start_time") = false) :
    ApptInv (putAppointments s id body).2.appointments := by
  have hf := findThrows_of_plain s.appointments id
    (fun a ha => ((plainSlots_of_apptInv _ hinv) a ha).1)
  cases hrow : getById s.appointments (some (.str id)) with
  | none =>
    have : (putAppointments s id body).2 = s := by
      unfold putAppointments; simp only [hf, Bool.false_eq_true, ↓reduceIte, hrow]
    rw [this]; exact hinv
  | some row =>
    by_cases hok : (putAppointments s id body).1.status = 409
    · rw [putAppointments_rejected s id body (by rw [hok]; decide)]
      exact hinv
    · obtain ⟨pre, post, e, _, hput⟩ := putAppointments_accepted s id body row hrow hf hok
      obtain ⟨_, _, p3, p4, _, pk⟩ := prop_mergedRow row body
      have hplain := plainSlots_of_apptInv _ hinv
      have hr := hplain row (getById_mem _ _ _ hrow).1
      rw [hput]
      rw [e] at hinv
      refine apptInv_replace pre post row _ hinv (pk "id" (by decide))
        (by rw [p3]; exact isComposite_jsOr _ _ hd hr.2.1)
        (by rw [p4]; exact isComposite_jsOr _ _ ht hr.2.2) ?_
      intro a ha hs
      have ha' : a ∈ s.appointments := by
        rw [e]
        rcases List.mem_append.mp ha with ha | ha
        · exact List.mem_append_left _ ha
        · exact List.mem_append_right _ (List.mem_cons_of_mem _ ha)
      have hne : prop a "id" ≠ prop row "id" :=
        pairwise_row (fun a b hab => fun e => hab e.symm) pre post row hinv.2.2.1 a ha
      have hnot : ¬ sameSlot a row :=
        pairwise_row (fun a b hab => fun e => hab ⟨e.1.symm, e.2.symm⟩) pre post row
          hinv.2.2.2 a ha
      unfold sameSlot at hs hnot
      rw [p3, p4] at hs
      rw [putAppointments_conflict s id body row hrow hf,
        slotChanged_iff row _ _ hr.2.1 hr.2.2] at hok
      by_cases hch : (jsOr (prop body "appointment_date") (prop row "appointment_date"),
          jsOr (prop body "start_time") (prop row "start_time")) =
          (prop row "appointment_date", prop row "start_time")
      · rw [Prod.mk.injEq] at hch
        rw [hch.1, hch.2] at hs
        exact hnot hs
      · apply hok
        refine ⟨hch, a, ha', ?_⟩
        have hp := hplain a ha'
        exact (slotTakenByOther_iff row a _ _ hp.1 hp.2.1 hp.2.2).mpr ⟨hne, hs⟩

/-- Every request with a fresh generated identifier and without array or
object date and time keeps the invariant of the appointments collection. -/
theorem handle_preserves (s : Store) (r : Request) (hinv : ApptInv s.appointments)
    (hf : r.freshFor s) (hp : r.plain) : ApptInv (handle s r).2.appointments := by
  cases r with
  | postCustomers body id now =>
    show ApptInv (postCustomers s body id now).2.appointments
    rw [postCustomers_appointments]; exact hinv
  | putCustomers id body =>
    show ApptInv (putCustomers s id body).2.appointments
    rw [putCustomers_appointments]; exact hinv
  | deleteCustomers id =>
    show ApptInv (deleteCustomers s id).2.appointments
    rcases deleteCustomers_appointments s id with e | e <;> rw [e]
    · exact hinv
    · exact apptInv_filter _ _ hinv
  | postServices body id now =>
    show ApptInv (postServices s body id now).2.appointments
    rw [postServices_appointments]; exact hinv
  | putServices id body =>
    show ApptInv (putServices s id body).2.appointments
    rw [putServices_appointments]; exact hinv
  | deleteServices id =>
    show ApptInv (deleteServices s id).2.appointments
    rcases deleteServices_appointments s id with e | e <;> rw [e]
    · exact hinv
    · exact apptInv_filter _ _ hinv
  | postAppointments body id now => exact postAppointments_preserves s body id now hinv hf hp.1 hp.2
  | putAppointments id body => exact putAppointments_preserves s id body hinv hp.1 hp.2
  | deleteAppointments id =>
    show ApptInv (deleteAppointments s id).2.appointments
    rcases deleteAppointments_appointments s id with e | e <;> rw [e]
    · exact hinv
    · exact apptInv_filter _ _ hinv

/-- Slot uniqueness where it is an invariant: in every state reached from the
empty collections by requests with fresh generated identifiers whose
appointment dates and times are not arrays or objects, no two distinct
appointments have the same `appointment_date` and the same `start_time`. -/
theorem slotUnique_of_plain_requests (s : Store) (h : ReachablePlain s) : SlotUnique s := by
  have hinv : ApptInv s.appointments := by
    induction h with
    | init => exact apptInv_nil
    | step s r _ hf hp ih => exact handle_preserves s r ih hf hp
  exact hinv.2.2.2

/-! ## Absent fields in an update of a customer or a service -/

/-- An update of an existing customer, found without a conversion throwing,
whose body lacks `name` returns and stores a record without `name`, whatever
the name was; likewise for `phone` and `email`. -/
theorem putCustomers_drops_absent (s : Store) (id : String) (body row : Rec)
    (hrow : getById s.customers (some (.str id)) = some row)
    (hf : findThrows (some (.str id)) s.customers = false) :
    ∃ pre post rec, s.customers = pre ++ row :: post ∧
      putCustomers s id body = (⟨200, .obj rec⟩, { s with customers := pre ++ rec :: post }) ∧
      prop rec "name" = prop body "name" ∧ prop rec "phone" = prop body "phone" ∧
      prop rec "email" = prop body "email" := by
  obtain ⟨pre, post, e, _, _, hu⟩ := update_of_getById s.customers (some (.str id))
    [("name", prop body "name"), ("phone", prop body "phone"), ("email", prop body "email")]
    row hrow
  refine ⟨pre, post, toJson (spread (ofRec row) [("name", prop body "name"),
    ("phone", prop body "phone"), ("email", prop body "email")]), e, ?_, ?_, ?_, ?_⟩
  · unfold putCustomers
    simp only [hf, Bool.false_eq_true, ↓reduceIte, hu]
  · exact prop_toJson_spread_of_mem row _ "name" _ (by simp) (by simp)
  · exact prop_toJson_spread_of_mem row _ "phone" _ (by simp) (by simp)
  · exact prop_toJson_spread_of_mem row _ "email" _ (by simp) (by simp)

/-- An update of an existing service, found without a conversion throwing,
whose body lacks `title` returns and stores a record without `title`; likewise
for `duration_min` and `price`. -/
theorem putServices_drops_absent (s : Store) (id : String) (body row : Rec)
    (hrow : getById s.services (some (.str id)) = some row)
    (hf : findThrows (some (.str id)) s.services = false) :
    ∃ pre post rec, s.services = pre ++ row :: post ∧
      putServices s id body = (⟨200, .obj rec⟩, { s with services := pre ++ rec :: post }) ∧
      prop rec "title" = prop body "title" ∧
      prop rec "duration_min" = prop body "duration_min" ∧
      prop rec "price" = prop body "price" := by
  obtain ⟨pre, post, e, _, _, hu⟩ := update_of_getById s.services (some (.str id))
    [("title", prop body "title"), ("duration_min", prop body "duration_min"),
      ("price", prop body "price")] row hrow
  refine ⟨pre, post, toJson (spread (ofRec row) [("title", prop body "title"),
    ("duration_min", prop body "duration_min"), ("price", prop body "price")]), e,
    ?_, ?_, ?_, ?_⟩
  · unfold putServices
    simp only [hf, Bool.false_eq_true, ↓reduceIte, hu]
  · exact prop_toJson_spread_of_mem row _ "title" _ (by simp) (by simp)
  · exact prop_toJson_spread_of_mem row _ "duration_min" _ (by simp) (by simp)
  · exact prop_toJson_spread_of_mem row _ "price" _ (by simp) (by simp)

/-! ## Successful creation of an appointment -/

theorem exists_of_truthy (v : Option JVal) (h : truthy v = true) : ∃ x, v = some x := by
  cases v with
  | none => cases h
  | some x => exact ⟨x, rfl⟩

/-- The record built by `create` for the object of a booking whose four values
are defined. -/
theorem create_booked (arr : List Rec) (c v d t : JVal) (id now : String) :
    create arr (bookedObj (some c) (some v) (some d) (some t)) id now =
      ([("id", some (.str id)), ("customer_id", some c), ("service_id", some v),
        ("appointment_date", some d), ("start_time", some t),
        ("status", some (.str "booked")), ("created_at", some (.str now))],
       arr ++ [[("id", .str id), ("customer_id", c), ("service_id", v),
        ("appointment_date", d), ("start_time", t),
        ("status", .str "booked"), ("created_at", .str now)]]) := by
  rfl

/-- C11. Successful appointment creation: an accepted create request (status
201) leaves the previous appointments unchanged and in place, followed by
exactly one new record, which is also the response; the record has exactly the
fields `id` (the generated identifier), `customer_id = customerId`,
`service_id = serviceId`, `appointment_date` and `start_time` of the request,
`status = "booked"` and `created_at` (the generated stamp), in this order, and
customers and services are untouched. -/
theorem postAppointments_success (s : Store) (body : Rec) (id now : String)
    (h : (postAppointments s body id now).1.status = 201) :
    ∃ c v d t, prop body "customerId" = some c ∧ prop body "serviceId" = some v ∧
      prop body "appointment_date" = some d ∧ prop body "start_time" = some t ∧
      postAppointments s body id now =
        (⟨201, .obj [("id", .str id), ("customer_id", c), ("service_id", v),
            ("appointment_date", d), ("start_time", t),
            ("status", .str "booked"), ("created_at", .str now)]⟩,
          { s with appointments := s.appointments ++
            [[("id", .str id), ("customer_id", c), ("service_id", v),
              ("appointment_date", d), ("start_time", t),
              ("status", .str "booked"), ("created_at", .str now)]] }) := by
  obtain ⟨h1, h2, h3, h4, _, _, _, _, _, he⟩ := postAppointments_created s body id now h
  obtain ⟨c, hc⟩ := exists_of_truthy _ h1
  obtain ⟨v, hv⟩ := exists_of_truthy _ h2
  obtain ⟨d, hd⟩ := exists_of_truthy _ h3
  obtain ⟨t, ht⟩ := exists_of_truthy _ h4
  refine ⟨c, v, d, t, hc, hv, hd, ht, ?_⟩
  rw [he, hc, hv, hd, ht, create_booked]
  rfl

/-- Witness of C11: the appointment of the test suite created after the
customer and the service. -/
theorem postAppointments_success_witness :
    ∃ c v d t, prop sampleBooking "customerId" = some c ∧
      prop sampleBooking "serviceId" = some v ∧
      prop sampleBooking "appointment_date" = some d ∧
      prop sampleBooking "start_time" = some t ∧
      postAppointments (run emptyStore [sampleCustomer, sampleService]) sampleBooking "a1"
          "2025-04-01T09:02:00.000Z" =
        (⟨201, .obj [("id", .str "a1"), ("customer_id", c), ("service_id", v),
            ("appointment_date", d), ("start_time", t),
            ("status", .str "booked"), ("created_at", .str "2025-04-01T09:02:00.000Z")]⟩,
          { run emptyStore [sampleCustomer, sampleService] with
            appointments := (run emptyStore [sampleCustomer, sampleService]).appointments ++
              [[("id", .str "a1"), ("customer_id", c), ("service_id", v),
                ("appointment_date", d), ("start_time", t),
                ("status", .str "booked"),
                ("created_at", .str "2025-04-01T09:02:00.000Z")]] }) :=
  postAppointments_success (run emptyStore [sampleCustomer, sampleService]) sampleBooking "a1"
    "2025-04-01T09:02:00.000Z" (by decide)

/-! ## Time validation -/

theorem isDigit_cases (c : Char) (h : c.isDigit = true) :
    c = '0' ∨ c = '1' ∨ c = '2' ∨ c = '3' ∨ c = '4' ∨ c = '5' ∨ c = '6' ∨ c = '7' ∨
      c = '8' ∨ c = '9' := by
  have h1 : 48 ≤ c.toNat ∧ c.toNat ≤ 57 := by
    simp only [Char.isDigit, Bool.and_eq_true, decide_eq_true_eq] at h
    exact ⟨h.1, h.2⟩
  have key : ∀ n : Nat, c.toNat = n → c = Char.ofNat n := by
    intro n hn
    rw [← hn, Char.ofNat_toNat]
  obtain ⟨lo, hi⟩ := h1
  generalize hv : c.toNat = n at lo hi
  interval_cases n
  · exact Or.inl (key 48 hv)
  · exact Or.inr (Or.inl (key 49 hv))
  · exact Or.inr (Or.inr (Or.inl (key 50 hv)))
  · exact Or.inr (Or.inr (Or.inr (Or.inl (key 51 hv))))
  · exact Or.inr (Or.inr (Or.inr (Or.inr (Or.inl (key 52 hv)))))
  · exact Or.inr (Or.inr (Or.inr (Or.inr (Or.inr (Or.inl (key 53 hv))))))
  · exact Or.inr (Or.inr (Or.inr (Or.inr (Or.inr (Or.inr (Or.inl (key 54 hv)))))))
  · exact Or.inr (Or.inr (Or.inr (Or.inr (Or.inr (Or.inr (Or.inr (Or.inl (key 55 hv))))))))
  · exact Or.inr (Or.inr (Or.inr (Or.inr (Or.inr (Or.inr (Or.inr (Or.inr (Or.inl (key 56 hv)))))))))
  · exact Or.inr (Or.inr (Or.inr (Or.inr (Or.inr (Or.inr (Or.inr (Or.inr (Or.inr (key 57 hv)))))))))


theorem digitVal_le (c : Char) (h : c.isDigit = true) : digitVal c ≤ 9 := by
  rcases isDigit_cases c h with h | h | h | h | h | h | h | h | h | h <;> (rw [h]; decide)

/-- The hour alternative `[01]\d|2[0-3]` accepts the two digits of 00..23. -/
theorem hour_pattern_iff (h1 h2 : Char) :
    (((h1 == '0' || h1 == '1') && h2.isDigit) ||
        (h1 == '2' && (h2 == '0' || h2 == '1' || h2 == '2' || h2 == '3'))) = true ↔
      h1.isDigit = true ∧ h2.isDigit = true ∧ 10 * digitVal h1 + digitVal h2 ≤ 23 := by
  constructor
  · intro h
    simp only [Bool.or_eq_true, Bool.and_eq_true, beq_iff_eq] at h
    rcases h with ⟨h | h, hd⟩ | ⟨h, ((h' | h') | h') | h'⟩
    · have := digitVal_le h2 hd
      subst h; exact ⟨by decide, hd, by simp only [show digitVal '0' = 0 from rfl]; omega⟩
    · have := digitVal_le h2 hd
      subst h; exact ⟨by decide, hd, by simp only [show digitVal '1' = 1 from rfl]; omega⟩
    all_goals (subst h; subst h'; decide)
  · rintro ⟨d1, d2, hle⟩
    rcases isDigit_cases h1 d1 with h | h | h | h | h | h | h | h | h | h
    · subst h; simp [d2]
    · subst h; simp [d2]
    · subst h
      rcases isDigit_cases h2 d2 with h | h | h | h | h | h | h | h | h | h <;> subst h <;>
        first | decide | (exfalso; revert hle; decide)
    all_goals
      exfalso
      subst h
      revert hle
      generalize digitVal h2 = n
      simp only [show digitVal '3' = 3 from rfl, show digitVal '4' = 4 from rfl,
        show digitVal '5' = 5 from rfl, show digitVal '6' = 6 from rfl,
        show digitVal '7' = 7 from rfl, show digitVal '8' = 8 from rfl,
        show digitVal '9' = 9 from rfl]
      omega

/-- The minute part `[0-5]\d` accepts the two digits of 00..59. -/
theorem minute_pattern_iff (m1 m2 : Char) :
    ((m1 == '0' || m1 == '1' || m1 == '2' || m1 == '3' || m1 == '4' || m1 == '5') &&
        m2.isDigit) = true ↔
      m1.isDigit = true ∧ m2.isDigit = true ∧ 10 * digitVal m1 + digitVal m2 ≤ 59 := by
  constructor
  · intro h
    simp only [Bool.or_eq_true, Bool.and_eq_true, beq_iff_eq] at h
    obtain ⟨h, hd⟩ := h
    have := digitVal_le m2 hd
    rcases h with ((((h | h) | h) | h) | h) | h <;> subst h <;>
      refine ⟨by decide, hd, ?_⟩
    · simp only [show digitVal '0' = 0 from rfl]; omega
    · simp only [show digitVal '1' = 1 from rfl]; omega
    · simp only [show digitVal '2' = 2 from rfl]; omega
    · simp only [show digitVal '3' = 3 from rfl]; omega
    · simp only [show digitVal '4' = 4 from rfl]; omega
    · simp only [show digitVal '5' = 5 from rfl]; omega
  · rintro ⟨d1, d2, hle⟩
    rcases isDigit_cases m1 d1 with h | h | h | h | h | h | h | h | h | h
    · subst h; simp [d2]
    · subst h; simp [d2]
    · subst h; simp [d2]
    · subst h; simp [d2]
    · subst h; simp [d2]
    · subst h; simp [d2]
    all_goals
      exfalso
      subst h
      revert hle
      generalize digitVal m2 = n
      simp only [show digitVal '6' = 6 from rfl, show digitVal '7' = 7 from rfl,
        show digitVal '8' = 8 from rfl, show digitVal '9' = 9 from rfl]
      omega

theorem matchesTimePattern_iff (s : String) : matchesTimePattern s = true ↔ IsTimeOfDay s := by
  unfold matchesTimePattern IsTimeOfDay
  constructor
  · intro h
    split at h
    · rename_i h1 h2 c m1 m2 hs
      rw [Bool.and_eq_true, Bool.and_eq_true, Bool.and_eq_true] at h
      obtain ⟨⟨⟨hh, hc⟩, hm1⟩, hm2⟩ := h
      have hm := (minute_pattern_iff m1 m2).mp (by rw [Bool.and_eq_true]; exact ⟨hm1, hm2⟩)
      have hh' := (hour_pattern_iff h1 h2).mp hh
      have hc' : c = ':' := by simpa using hc
      subst hc'
      exact ⟨h1, h2, m1, m2, hs, hh'.1, hh'.2.1, hm.1, hm.2.1, hh'.2.2, hm.2.2⟩
    · cases h
  · rintro ⟨h1, h2, m1, m2, hs, d1, d2, d3, d4, hh, hm⟩
    rw [hs]
    have hh' := (hour_pattern_iff h1 h2).mpr ⟨d1, d2, hh⟩
    have hm' := (minute_pattern_iff m1 m2).mpr ⟨d3, d4, hm⟩
    rw [Bool.and_eq_true] at hm'
    simp only [Bool.and_eq_true]
    exact ⟨⟨⟨hh', by simp⟩, hm'.1⟩, hm'.2⟩


/-- C14, as amended. Time validation: on a string `isValidTime` holds exactly
of the five characters `HH:MM` with digits, hour 00..23 and minute 00..59; and
a create request with the four inputs present and a date that `isValidDate`
accepts is answered with the invalid-time error exactly when its `start_time`
has a string conversion on which `isValidTime` fails; when the conversion of
`start_time` throws, the answer is 500. -/
theorem isValidTime_spec (s : String) (st : Store) (body : Rec) (id now : String) :
    (isValidTime (some (.str s)) = true ↔ IsTimeOfDay s) ∧
    (truthy (prop body "customerId") = true → truthy (prop body "serviceId") = true →
      truthy (prop body "appointment_date") = true → truthy (prop body "start_time") = true →
      throws (prop body "appointment_date") = false →
      isValidDate (prop body "appointment_date") = true →
      ((postAppointments st body id now).1 = ⟨400, errorBody "Invalid time format (HH:MM)"⟩ ↔
        (throws (prop body "start_time") = false ∧
          isValidTime (prop body "start_time") = false)) ∧
      (throws (prop body "start_time") = true →
        postAppointments st body id now = (serverError, st))) := by
  constructor
  · unfold isValidTime
    rw [jsString_str]
    exact matchesTimePattern_iff s
  · intro hc hs hd ht hxd hvd
    unfold postAppointments
    simp only [hc, hs, hd, ht, hxd, hvd, Bool.not_true, Bool.or_self, Bool.false_eq_true,
      ↓reduceIte]
    cases hxt : throws (prop body "start_time") with
    | true => simp [serverError, errorBody]
    | false =>
      simp only [Bool.false_eq_true, ↓reduceIte, true_and, false_implies, and_true]
      cases hvt : isValidTime (prop body "start_time") with
      | false => simp
      | true =>
        simp only [Bool.not_true, Bool.false_eq_true, ↓reduceIte]
        refine ⟨fun e => ?_, fun e => (by cases e)⟩
        exfalso
        split at e
        · simp [serverError, errorBody] at e
        · split at e
          · simp [errorBody] at e
          · split at e
            · simp [errorBody] at e
            · split at e
              · simp [errorBody] at e
              · simp at e

/-- Witness of C14 as amended: the booking of the test suite with the time
`24:00`. -/
theorem isValidTime_spec_witness :
    (postAppointments sampleStore
        [("customerId", .str "c1"), ("serviceId", .str "s1"),
         ("appointment_date", .str "2025-04-21"), ("start_time", .str "24:00")]
        "a2" "2025-04-01T09:03:00.000Z").1 = ⟨400, errorBody "Invalid time format (HH:MM)"⟩ ↔
      (throws (prop [("customerId", .str "c1"), ("serviceId", .str "s1"),
         ("appointment_date", .str "2025-04-21"), ("start_time", .str "24:00")]
         "start_time") = false ∧
        isValidTime (prop [("customerId", .str "c1"), ("serviceId", .str "s1"),
         ("appointment_date", .str "2025-04-21"), ("start_time", .str "24:00")]
         "start_time") = false) :=
  ((isValidTime_spec "24:00" sampleStore
      [("customerId", .str "c1"), ("serviceId", .str "s1"),
       ("appointment_date", .str "2025-04-21"), ("start_time", .str "24:00")]
      "a2" "2025-04-01T09:03:00.000Z").2
    (by decide) (by decide) (by decide) (by decide) (by decide) (by decide)).1

/-- C14, counterexample. The booking of the test suite on another day with the
object `{ toString: 1 }` as `start_time`: the four inputs are present, the date
is valid, `isValidTime` does not hold of the `start_time` (its pattern test
throws), and the answer is 500 and not the invalid-time error. -/
theorem object_time_not_answered_invalid :
    truthy (prop objectTimeBooking "customerId") = true ∧
      truthy (prop objectTimeBooking "serviceId") = true ∧
      truthy (prop objectTimeBooking "appointment_date") = true ∧
      truthy (prop objectTimeBooking "start_time") = true ∧
      throws (prop objectTimeBooking "appointment_date") = false ∧
      isValidDate (prop objectTimeBooking "appointment_date") = true ∧
      throws (prop objectTimeBooking "start_time") = true ∧
      (postAppointments sampleStore objectTimeBooking "a2" "2025-04-01T09:03:00.000Z").1 =
        serverError ∧
      (postAppointments sampleStore objectTimeBooking "a2" "2025-04-01T09:03:00.000Z").1 ≠
        ⟨400, errorBody "Invalid time format (HH:MM)"⟩ := by
  refine ⟨by decide, by decide, by decide, by decide, by decide, by decide, by decide,
    by decide, by decide⟩

/-! ## Date validation -/

/-- C15, at the failing inputs. `isValidDate` accepts `2025-02-30` and
`2025-04-31`, which are not calendar dates, because the date parser of the
runtime accepts every day 01..31 in every month; `2025-13-01` is rejected. A
booking on `2025-02-30` is created (201). -/
theorem isValidDate_accepts_day_past_month_end :
    isValidDate (some (.str "2025-02-30")) = true ∧ isCalendarDate "2025-02-30" = false ∧
      isValidDate (some (.str "2025-04-31")) = true ∧ isCalendarDate "2025-04-31" = false ∧
      isValidDate (some (.str "2025-13-01")) = false ∧
      (postAppointments sampleStore
        [("customerId", .str "c1"), ("serviceId", .str "s1"),
         ("appointment_date", .str "2025-02-30"), ("start_time", .str "10:00")]
        "a2" "2025-04-01T09:03:00.000Z").1.status = 201 := by
  refine ⟨by decide, by decide, by decide, by decide, by decide, by decide⟩

theorem daysInMonth_le (y m : Nat) : daysInMonth y m ≤ 31 := by
  unfold daysInMonth
  split
  · split <;> omega
  · split <;> omega

/-- Every calendar date is accepted by `isValidDate`; the converse fails, a
day 01..31 past the end of the month is accepted too. -/
theorem isValidDate_of_isCalendarDate (s : String) (h : isCalendarDate s = true) :
    isValidDate (some (.str s)) = true := by
  unfold isValidDate
  rw [jsString_str]
  unfold isCalendarDate at h
  unfold matchesDatePattern dateParses
  split at h
  · rename_i y1 y2 y3 y4 s1 m1 m2 s2 d1 d2 hs
    simp only [Bool.and_eq_true, Bool.or_eq_true, decide_eq_true_eq] at h ⊢
    obtain ⟨⟨⟨⟨⟨⟨⟨⟨⟨⟨⟨⟨⟨a1, a2⟩, a3⟩, a4⟩, a5⟩, a6⟩, a7⟩, a8⟩, a9⟩, a10⟩, b1⟩, b2⟩, b3⟩, b4⟩ := h
    have := daysInMonth_le (1000 * digitVal y1 + 100 * digitVal y2 + 10 * digitVal y3 + digitVal y4)
      (10 * digitVal m1 + digitVal m2)
    exact ⟨⟨⟨⟨⟨⟨⟨⟨⟨⟨a1, a2⟩, a3⟩, a4⟩, a5⟩, a6⟩, a7⟩, a8⟩, a9⟩, a10⟩,
      Or.inl ⟨⟨⟨b1, b2⟩, b3⟩, by omega⟩⟩
  · cases h

/-! ## Identity fields under update -/

theorem prop_toJson_spread_of_not_mem (row : Rec) (patch : MemObj) (k : String)
    (h : k ∉ patch.map Prod.fst) : prop (toJson (spread (ofRec row) patch)) k = prop row k := by
  rw [prop_toJson _ (tidy_spread (ofRec row) patch (tidy_ofRec row)),
    lookup_spread_of_not_mem _ _ k h, lookup_ofRec]

/-- The store function `update` with a patch that names neither `id` nor
`created_at` leaves the identity fields of every record as they were. -/
theorem idStamps_update (arr : List Rec) (id : Option JVal) (patch : MemObj)
    (hid : "id" ∉ patch.map Prod.fst) (hca : "created_at" ∉ patch.map Prod.fst)
    (m : MemObj) (arr' : List Rec) (h : update arr id patch = some (m, arr')) :
    idStamps arr' = idStamps arr := by
  cases hg : getById arr id with
  | none => rw [update_of_getById_none arr id patch hg] at h; cases h
  | some row =>
    obtain ⟨pre, post, e, _, _, hu⟩ := update_of_getById arr id patch row hg
    rw [hu] at h
    cases h
    rw [e]
    unfold idStamps
    rw [List.map_append, List.map_append, List.map_cons, List.map_cons,
      prop_toJson_spread_of_not_mem row patch "id" hid,
      prop_toJson_spread_of_not_mem row patch "created_at" hca]

theorem idStamps_putCustomers (s : Store) (id : String) (body : Rec) :
    idStamps (putCustomers s id body).2.customers = idStamps s.customers ∧
      (putCustomers s id body).2.services = s.services ∧
      (putCustomers s id body).2.appointments = s.appointments := by
  unfold putCustomers
  simp only
  split
  · exact ⟨rfl, rfl, rfl⟩
  · split
    · exact ⟨rfl, rfl, rfl⟩
    · rename_i item arr hu
      exact ⟨idStamps_update _ _ _ (by simp) (by simp) item arr hu, rfl, rfl⟩

theorem idStamps_putServices (s : Store) (id : String) (body : Rec) :
    (putServices s id body).2.customers = s.customers ∧
      idStamps (putServices s id body).2.services = idStamps s.services ∧
      (putServices s id body).2.appointments = s.appointments := by
  unfold putServices
  simp only
  split
  · exact ⟨rfl, rfl, rfl⟩
  · split
    · exact ⟨rfl, rfl, rfl⟩
    · rename_i item arr hu
      exact ⟨rfl, idStamps_update _ _ _ (by simp) (by simp) item arr hu, rfl⟩

/-- An update of an appointment either leaves the store as it is or rewrites
the first record of that identifier with the merged record. -/
theorem putAppointments_cases (s : Store) (id : String) (body : Rec) :
    (putAppointments s id body).2 = s ∨
      ∃ row pre post, getById s.appointments (some (.str id)) = some row ∧
        s.appointments = pre ++ row :: post ∧
        putAppointments s id body =
          (⟨200, .obj (mergedRow row body)⟩,
            { s with appointments := pre ++ mergedRow row body :: post }) := by
  cases hf : findThrows (some (.str id)) s.appointments with
  | true =>
    left
    rw [putAppointments_thrown s id body hf]
  | false =>
    cases hrow : getById s.appointments (some (.str id)) with
    | none =>
      left
      unfold putAppointments; simp only [hf, Bool.false_eq_true, ↓reduceIte, hrow]
    | some row =>
      by_cases hok : (putAppointments s id body).1.status = 409
      · left
        exact putAppointments_rejected s id body (by rw [hok]; decide)
      · right
        obtain ⟨pre, post, e, _, hput⟩ := putAppointments_accepted s id body row hrow hf hok
        exact ⟨row, pre, post, rfl, e, hput⟩

theorem idStamps_putAppointments (s : Store) (id : String) (body : Rec) :
    (putAppointments s id body).2.customers = s.customers ∧
      (putAppointments s id body).2.services = s.services ∧
      idStamps (putAppointments s id body).2.appointments = idStamps s.appointments := by
  rcases putAppointments_cases s id body with h | ⟨row, pre, post, _, e, hput⟩
  · rw [h]; exact ⟨rfl, rfl, rfl⟩
  · rw [hput]
    refine ⟨rfl, rfl, ?_⟩
    obtain ⟨_, _, _, _, _, pk⟩ := prop_mergedRow row body
    show idStamps (pre ++ mergedRow row body :: post) = _
    rw [e]
    unfold idStamps
    rw [List.map_append, List.map_append, List.map_cons, List.map_cons,
      pk "id" (by decide), pk "created_at" (by decide)]

/-- C16. Identity fields are immutable under update: after an update of a
customer, a service or an appointment, with any identifier and any body, each
of the three collections lists the same `(id, created_at)` pairs in the same
positions as before; so neither the updated record nor any other record
changes its `id` or its `created_at`. -/
theorem update_keeps_identity (s : Store) (id : String) (body : Rec) :
    ∀ r ∈ [Request.putCustomers id body, Request.putServices id body,
        Request.putAppointments id body],
      idStamps (handle s r).2.customers = idStamps s.customers ∧
        idStamps (handle s r).2.services = idStamps s.services ∧
        idStamps (handle s r).2.appointments = idStamps s.appointments := by
  intro r hr
  simp only [List.mem_cons, List.mem_singleton, List.not_mem_nil, or_false] at hr
  rcases hr with hr | hr | hr <;> subst hr
  · obtain ⟨h1, h2, h3⟩ := idStamps_putCustomers s id body
    exact ⟨h1, congrArg idStamps h2, congrArg idStamps h3⟩
  · obtain ⟨h1, h2, h3⟩ := idStamps_putServices s id body
    exact ⟨congrArg idStamps h1, h2, congrArg idStamps h3⟩
  · obtain ⟨h1, h2, h3⟩ := idStamps_putAppointments s id body
    exact ⟨congrArg idStamps h1, congrArg idStamps h2, h3⟩

/-- Witness of C16: the customer of the sample store updated with a new name. -/
theorem update_keeps_identity_witness :
    idStamps (handle sampleStore (.putCustomers "c1" [("name", .str "New Name")])).2.customers =
      [(some (.str "c1"), some (.str "2025-04-01T09:00:00.000Z"))] :=
  (update_keeps_identity sampleStore "c1" [("name", .str "New Name")]
    (.putCustomers "c1" [("name", .str "New Name")]) (List.mem_cons_self _ _)).1


/-! ## Well-formedness of the stored slots -/

instance (l : List Rec) : Decidable (WellFormedSlots l) := by
  unfold WellFormedSlots; infer_instance

/-- C17, at the failing input. The appointment of the sample store updated with
`{ appointment_date: "tomorrow", start_time: "noon" }` is answered with 200 and
stored as sent: the state is reachable and holds an appointment whose date
fails `isValidDate` and whose time fails `isValidTime`. -/
theorem update_stores_unvalidated_slot :
    Reachable (handle sampleStore (.putAppointments "a1"
        [("appointment_date", .str "tomorrow"), ("start_time", .str "noon")])).2 ∧
      (handle sampleStore (.putAppointments "a1"
        [("appointment_date", .str "tomorrow"), ("start_time", .str "noon")])).1.status = 200 ∧
      (handle sampleStore (.putAppointments "a1"
        [("appointment_date", .str "tomorrow"), ("start_time", .str "noon")])).2.appointments =
        [[("id", .str "a1"), ("customer_id", .str "c1"), ("service_id", .str "s1"),
          ("appointment_date", .str "tomorrow"), ("start_time", .str "noon"),
          ("status", .str "booked"), ("created_at", .str "2025-04-01T09:02:00.000Z")]] ∧
      isValidDate (some (.str "tomorrow")) = false ∧ isValidTime (some (.str "noon")) = false ∧
      ¬ WellFormedSlots (handle sampleStore (.putAppointments "a1"
        [("appointment_date", .str "tomorrow"), ("start_time", .str "noon")])).2.appointments :=
  ⟨Reachable.step _ _ reachable_sampleStore trivial, by decide, by rfl, by decide, by decide,
    by decide⟩

theorem wellFormedSlots_filter (l : List Rec) (p : Rec → Bool) (h : WellFormedSlots l) :
    WellFormedSlots (l.filter p) :=
  fun a ha => h a (List.mem_of_mem_filter ha)

theorem handle_keeps_wellFormed (s : Store) (r : Request)
    (hinv : WellFormedSlots s.appointments) (hr : r.keepsSlot) :
    WellFormedSlots (handle s r).2.appointments := by
  cases r with
  | postCustomers body id now =>
    show WellFormedSlots (postCustomers s body id now).2.appointments
    rw [postCustomers_appointments]; exact hinv
  | putCustomers id body =>
    show WellFormedSlots (putCustomers s id body).2.appointments
    rw [putCustomers_appointments]; exact hinv
  | deleteCustomers id =>
    show WellFormedSlots (deleteCustomers s id).2.appointments
    rcases deleteCustomers_appointments s id with e | e <;> rw [e]
    · exact hinv
    · exact wellFormedSlots_filter _ _ hinv
  | postServices body id now =>
    show WellFormedSlots (postServices s body id now).2.appointments
    rw [postServices_appointments]; exact hinv
  | putServices id body =>
    show WellFormedSlots (putServices s id body).2.appointments
    rw [putServices_appointments]; exact hinv
  | deleteServices id =>
    show WellFormedSlots (deleteServices s id).2.appointments
    rcases deleteServices_appointments s id with e | e <;> rw [e]
    · exact hinv
    · exact wellFormedSlots_filter _ _ hinv
  | postAppointments body id now =>
    show WellFormedSlots (postAppointments s body id now).2.appointments
    by_cases h : (postAppointments s body id now).1.status = 201
    · obtain ⟨_, _, _, _, hvd, hvt, _, _, _, he⟩ := postAppointments_created s body id now h
      obtain ⟨_, _, _, p4, p5, _⟩ := prop_booked s.appointments (prop body "customerId")
        (prop body "serviceId") (prop body "appointment_date") (prop body "start_time") id now
      rw [he]
      intro a ha
      rcases List.mem_append.mp ha with ha | ha
      · exact hinv a ha
      · rw [List.mem_singleton.mp ha]
        exact ⟨(congrArg isValidDate p4).trans hvd, (congrArg isValidTime p5).trans hvt⟩
    · rw [postAppointments_rejected s body id now h]; exact hinv
  | putAppointments id body =>
    show WellFormedSlots (putAppointments s id body).2.appointments
    rcases putAppointments_cases s id body with h | ⟨row, pre, post, hrow, e, hput⟩
    · rw [h]; exact hinv
    · rw [hput]
      obtain ⟨_, _, p3, p4, _, _⟩ := prop_mergedRow row body
      have hrow' := hinv row (getById_mem _ _ _ hrow).1
      intro a ha
      have ha' : a = mergedRow row body ∨ a ∈ s.appointments := by
        rw [e]
        rcases List.mem_append.mp ha with ha | ha
        · exact Or.inr (List.mem_append_left _ ha)
        · rcases List.mem_cons.mp ha with ha | ha
          · exact Or.inl ha
          · exact Or.inr (List.mem_append_right _ (List.mem_cons_of_mem _ ha))
      rcases ha' with ha' | ha'
      · rw [ha', p3, p4]
        unfold jsOr
        rw [hr.1, hr.2]
        exact hrow'
      · exact hinv a ha'
  | deleteAppointments id =>
    show WellFormedSlots (deleteAppointments s id).2.appointments
    rcases deleteAppointments_appointments s id with e | e <;> rw [e]
    · exact hinv
    · exact wellFormedSlots_filter _ _ hinv

/-- Well-formedness where it is an invariant: in every state reached from the
empty collections by requests among which no appointment update supplies a
date or a time, every stored appointment has a date that passes `isValidDate`
and a time that passes `isValidTime`. -/
theorem wellFormedSlots_of_no_slot_update (s : Store)
    (h : ReachableBy (fun _ r => r.keepsSlot) s) : WellFormedSlots s.appointments := by
  induction h with
  | init => intro a ha; cases ha
  | step s r _ hr ih => exact handle_keeps_wellFormed s r ih hr

/-! ## Creation of a service -/

instance (body : Rec) : Decidable (ValidService body) := by
  unfold ValidService; infer_instance

/-- C18, counterexample. A service with a negative duration and a negative
price is created (201) and stored, although it violates the data model. -/
theorem postServices_accepts_negative_duration :
    (postServices emptyStore
        [("title", .str "Cut"), ("duration_min", .num (-30)), ("price", .num (-15))]
        "s1" "2025-04-01T09:01:00.000Z").1.status = 201 ∧
      (postServices emptyStore
        [("title", .str "Cut"), ("duration_min", .num (-30)), ("price", .num (-15))]
        "s1" "2025-04-01T09:01:00.000Z").2.services =
        [[("id", .str "s1"), ("title", .str "Cut"), ("duration_min", .num (-30)),
          ("price", .num (-15)), ("created_at", .str "2025-04-01T09:01:00.000Z")]] ∧
      ¬ ValidService [("title", .str "Cut"), ("duration_min", .num (-30)), ("price", .num (-15))] :=
  ⟨by decide, by rfl, by decide⟩

theorem looseNull_eq_false (v : Option JVal) (h : looseNull v = false) : ∃ x, v = some x := by
  cases v with
  | none => cases h
  | some x => exact ⟨x, rfl⟩

/-- C18, as amended. A service-create request succeeds (201) if and only if
`title` and `duration_min` are truthy and `price` is neither `null` nor absent;
otherwise it is answered with 400 `Missing fields` and nothing is stored. A
successful create whose numbers are safe integers appends exactly the record
`{ id, title, duration_min, price, created_at }` with the values sent, so the
service stored has a truthy title, a truthy duration and a price that is not
`null`. -/
theorem postServices_presence_rule (s : Store) (body : Rec) (id now : String) :
    ((postServices s body id now).1.status = 201 ↔
      truthy (prop body "title") = true ∧ truthy (prop body "duration_min") = true ∧
        looseNull (prop body "price") = false) ∧
    ((postServices s body id now).1.status ≠ 201 →
      postServices s body id now = (⟨400, errorBody "Missing fields"⟩, s)) ∧
    ((postServices s body id now).1.status = 201 → safeRec body = true →
      ∃ t d p, prop body "title" = some t ∧ prop body "duration_min" = some d ∧
        prop body "price" = some p ∧
        truthy (some t) = true ∧ truthy (some d) = true ∧ looseNull (some p) = false ∧
        postServices s body id now =
          (⟨201, .obj [("id", .str id), ("title", t), ("duration_min", d), ("price", p),
              ("created_at", .str now)]⟩,
            { s with services := s.services ++
              [[("id", .str id), ("title", t), ("duration_min", d), ("price", p),
                ("created_at", .str now)]] })) := by
  have key : (postServices s body id now).1.status = 201 ↔
      truthy (prop body "title") = true ∧ truthy (prop body "duration_min") = true ∧
        looseNull (prop body "price") = false := by
    unfold postServices
    simp only
    split
    · rename_i hc
      simp only [Bool.or_eq_true, Bool.not_eq_true'] at hc
      refine ⟨fun h => (by cases h), fun h => ?_⟩
      rcases hc with (hc | hc) | hc
      · rw [h.1] at hc; cases hc
      · rw [h.2.1] at hc; cases hc
      · rw [h.2.2] at hc; cases hc
    · rename_i hc
      simp only [Bool.or_eq_true, Bool.not_eq_true', not_or, Bool.not_eq_false,
        Bool.not_eq_true] at hc
      exact ⟨fun _ => ⟨hc.1.1, hc.1.2, hc.2⟩, fun _ => rfl⟩
  refine ⟨key, ?_, ?_⟩
  · intro h
    unfold postServices at h ⊢
    simp only at h ⊢
    split at h
    · rename_i hc; rw [if_pos hc]
    · exact absurd rfl h
  · intro h _
    obtain ⟨h1, h2, h3⟩ := key.mp h
    obtain ⟨t, ht⟩ := exists_of_truthy _ h1
    obtain ⟨d, hd⟩ := exists_of_truthy _ h2
    obtain ⟨p, hp⟩ := looseNull_eq_false _ h3
    refine ⟨t, d, p, ht, hd, hp, by rw [← ht]; exact h1, by rw [← hd]; exact h2,
      by rw [← hp]; exact h3, ?_⟩
    unfold postServices
    simp only [h1, h2, h3, Bool.not_true, Bool.or_self, Bool.false_eq_true, ↓reduceIte]
    rw [ht, hd, hp]
    rfl

/-- Witness of C18 as amended: the service of the test suite is created and
stored with the values sent. -/
theorem postServices_presence_rule_witness :
    ∃ t d p, prop [("title", JVal.str "Cut"), ("duration_min", .num 30), ("price", .num 15)]
          "title" = some t ∧
        prop [("title", JVal.str "Cut"), ("duration_min", .num 30), ("price", .num 15)]
          "duration_min" = some d ∧
        prop [("title", JVal.str "Cut"), ("duration_min", .num 30), ("price", .num 15)]
          "price" = some p ∧
        truthy (some t) = true ∧ truthy (some d) = true ∧ looseNull (some p) = false ∧
        postServices emptyStore
            [("title", .str "Cut"), ("duration_min", .num 30), ("price", .num 15)]
            "s1" "2025-04-01T09:01:00.000Z" =
          (⟨201, .obj [("id", .str "s1"), ("title", t), ("duration_min", d), ("price", p),
              ("created_at", .str "2025-04-01T09:01:00.000Z")]⟩,
            { emptyStore with services := emptyStore.services ++
              [[("id", .str "s1"), ("title", t), ("duration_min", d), ("price", p),
                ("created_at", .str "2025-04-01T09:01:00.000Z")]] }) :=
  (postServices_presence_rule emptyStore
    [("title", .str "Cut"), ("duration_min", .num 30), ("price", .num 15)]
    "s1" "2025-04-01T09:01:00.000Z").2.2 (by decide) (by decide)

/-! ## Referential integrity -/

theorem exists_id_of_idStamps (l l' : List Rec) (h : idStamps l' = idStamps l) (x : String)
    (hx : ∃ c ∈ l, jsString (prop c "id") = x) : ∃ c ∈ l', jsString (prop c "id") = x := by
  obtain ⟨c, hc, e⟩ := hx
  have hm : (prop c "id", prop c "created_at") ∈ idStamps l' := by
    rw [h]; exact List.mem_map_of_mem _ hc
  obtain ⟨c', hc', e'⟩ := List.mem_map.mp hm
  refine ⟨c', hc', ?_⟩
  rw [(Prod.mk.inj e').1]; exact e

theorem refIntegrity_of_sub (s s' : Store)
    (hc : ∀ x, (∃ c ∈ s.customers, jsString (prop c "id") = x) →
      ∃ c ∈ s'.customers, jsString (prop c "id") = x)
    (hv : ∀ x, (∃ c ∈ s.services, jsString (prop c "id") = x) →
      ∃ c ∈ s'.services, jsString (prop c "id") = x)
    (ha : ∀ a ∈ s'.appointments, ∃ b ∈ s.appointments,
      jsString (prop a "customer_id") = jsString (prop b "customer_id") ∧
        jsString (prop a "service_id") = jsString (prop b "service_id"))
    (h : RefIntegrity s) : RefIntegrity s' := by
  intro a ha'
  obtain ⟨b, hb, e1, e2⟩ := ha a ha'
  rw [e1, e2]
  exact ⟨hc _ (h b hb).1, hv _ (h b hb).2⟩

theorem postCustomers_customers (s : Store) (body : Rec) (id now : String) :
    ∀ c ∈ s.customers, c ∈ (postCustomers s body id now).2.customers := by
  intro c hc
  unfold postCustomers
  simp only
  split
  · exact hc
  · exact List.mem_append_left _ hc

theorem postCustomers_services (s : Store) (body : Rec) (id now : String) :
    (postCustomers s body id now).2.services = s.services := by
  unfold postCustomers
  simp only
  split <;> rfl

theorem postServices_services (s : Store) (body : Rec) (id now : String) :
    ∀ c ∈ s.services, c ∈ (postServices s body id now).2.services := by
  intro c hc
  unfold postServices
  simp only
  split
  · exact hc
  · exact List.mem_append_left _ hc

theorem postServices_customers (s : Store) (body : Rec) (id now : String) :
    (postServices s body id now).2.customers = s.customers := by
  unfold postServices
  simp only
  split <;> rfl

theorem self_ref (l : List Rec) : ∀ a ∈ l, ∃ b ∈ l,
    jsString (prop a "customer_id") = jsString (prop b "customer_id") ∧
      jsString (prop a "service_id") = jsString (prop b "service_id") :=
  fun a ha => ⟨a, ha, rfl, rfl⟩

/-- Every request that supplies no new reference keeps referential integrity,
together with the fact that the stored references have a string conversion:
the cascade of a delete then does not throw. -/
theorem handle_keeps_refIntegrity (s : Store) (r : Request) (h : RefIntegrity s)
    (hx : RefsConvert s) (hr : r.keepsRefs) :
    RefIntegrity (handle s r).2 ∧ RefsConvert (handle s r).2 := by
  cases r with
  | postCustomers body id now =>
    refine ⟨refIntegrity_of_sub s _ ?_ ?_ ?_ h, ?_⟩
    · rintro x ⟨c, hc, e⟩; exact ⟨c, postCustomers_customers s body id now c hc, e⟩
    · intro x hx
      show ∃ c ∈ (postCustomers s body id now).2.services, _
      rw [postCustomers_services]; exact hx
    · show ∀ a ∈ (postCustomers s body id now).2.appointments, _
      rw [postCustomers_appointments]; exact self_ref _
    · show ∀ a ∈ (postCustomers s body id now).2.appointments, _
      rw [postCustomers_appointments]; exact hx
  | putCustomers id body =>
    obtain ⟨h1, h2, h3⟩ := idStamps_putCustomers s id body
    refine ⟨refIntegrity_of_sub s _ ?_ ?_ ?_ h, ?_⟩
    · exact fun x hx => exists_id_of_idStamps _ _ h1 x hx
    · intro x hx
      show ∃ c ∈ (putCustomers s id body).2.services, _
      rw [h2]; exact hx
    · show ∀ a ∈ (putCustomers s id body).2.appointments, _
      rw [h3]; exact self_ref _
    · show ∀ a ∈ (putCustomers s id body).2.appointments, _
      rw [h3]; exact hx
  | deleteCustomers id =>
    show RefIntegrity (deleteCustomers s id).2 ∧ RefsConvert (deleteCustomers s id).2
    have h2 := any_eq_false_of_forall s.appointments (fun a => throws (prop a "customer_id"))
      (fun a ha => (hx a ha).1)
    unfold deleteCustomers
    split
    · exact ⟨h, hx⟩
    · simp only [h2, Bool.false_eq_true, ↓reduceIte]
      constructor
      · intro a ha
        have ha' := List.mem_filter.mp ha
        have hne : jsString (prop a "customer_id") ≠ id := by
          have := ha'.2
          rw [jsString_str] at this
          simpa using this
        obtain ⟨⟨c, hc, e⟩, hv⟩ := h a ha'.1
        refine ⟨⟨c, ?_, e⟩, hv⟩
        show c ∈ List.filter _ s.customers
        rw [List.mem_filter]
        refine ⟨hc, ?_⟩
        simp only [idMatches, jsString_str, Bool.not_eq_true', beq_eq_false_iff_ne, ne_eq]
        rw [e]; exact hne
      · intro a ha
        exact hx a (List.mem_filter.mp ha).1
  | postServices body id now =>
    refine ⟨refIntegrity_of_sub s _ ?_ ?_ ?_ h, ?_⟩
    · intro x hx
      show ∃ c ∈ (postServices s body id now).2.customers, _
      rw [postServices_customers]; exact hx
    · rintro x ⟨c, hc, e⟩; exact ⟨c, postServices_services s body id now c hc, e⟩
    · show ∀ a ∈ (postServices s body id now).2.appointments, _
      rw [postServices_appointments]; exact self_ref _
    · show ∀ a ∈ (postServices s body id now).2.appointments, _
      rw [postServices_appointments]; exact hx
  | putServices id body =>
    obtain ⟨h1, h2, h3⟩ := idStamps_putServices s id body
    refine ⟨refIntegrity_of_sub s _ ?_ ?_ ?_ h, ?_⟩
    · intro x hx
      show ∃ c ∈ (putServices s id body).2.customers, _
      rw [h1]; exact hx
    · exact fun x hx => exists_id_of_idStamps _ _ h2 x hx
    · show ∀ a ∈ (putServices s id body).2.appointments, _
      rw [h3]; exact self_ref _
    · show ∀ a ∈ (putServices s id body).2.appointments, _
      rw [h3]; exact hx
  | deleteServices id =>
    show RefIntegrity (deleteServices s id).2 ∧ RefsConvert (deleteServices s id).2
    have h2 := any_eq_false_of_forall s.appointments (fun a => throws (prop a "service_id"))
      (fun a ha => (hx a ha).2)
    unfold deleteServices
    split
    · exact ⟨h, hx⟩
    · simp only [h2, Bool.false_eq_true, ↓reduceIte]
      constructor
      · intro a ha
        have ha' := List.mem_filter.mp ha
        have hne : jsString (prop a "service_id") ≠ id := by
          have := ha'.2
          rw [jsString_str] at this
          simpa using this
        obtain ⟨hc, ⟨v, hv, e⟩⟩ := h a ha'.1
        refine ⟨hc, ⟨v, ?_, e⟩⟩
        show v ∈ List.filter _ s.services
        rw [List.mem_filter]
        refine ⟨hv, ?_⟩
        simp only [idMatches, jsString_str, Bool.not_eq_true', beq_eq_false_iff_ne, ne_eq]
        rw [e]; exact hne
      · intro a ha
        exact hx a (List.mem_filter.mp ha).1
  | postAppointments body id now =>
    show RefIntegrity (postAppointments s body id now).2 ∧
      RefsConvert (postAppointments s body id now).2
    by_cases hs : (postAppointments s body id now).1.status = 201
    · obtain ⟨⟨_, _, _, _, _, _, ⟨c, hc⟩, ⟨v, hv⟩, _, he⟩, _, _, hfc, hfv⟩ :=
        postAppointments_created_full s body id now hs
      obtain ⟨_, p2, p3, _, _, _⟩ := prop_booked s.appointments (prop body "customerId")
        (prop body "serviceId") (prop body "appointment_date") (prop body "start_time") id now
      rw [he]
      constructor
      · intro a ha
        rcases List.mem_append.mp ha with ha | ha
        · exact h a ha
        · rw [List.mem_singleton.mp ha]
          exact ⟨⟨c, (getById_mem _ _ _ hc).1,
              (getById_mem _ _ _ hc).2.trans (congrArg jsString p2).symm⟩,
            ⟨v, (getById_mem _ _ _ hv).1,
              (getById_mem _ _ _ hv).2.trans (congrArg jsString p3).symm⟩⟩
      · intro a ha
        rcases List.mem_append.mp ha with ha | ha
        · exact hx a ha
        · rw [List.mem_singleton.mp ha]
          exact ⟨(congrArg throws p2).trans (throws_of_found _ _ c hfc hc),
            (congrArg throws p3).trans (throws_of_found _ _ v hfv hv)⟩
    · rw [postAppointments_rejected s body id now hs]; exact ⟨h, hx⟩
  | putAppointments id body =>
    show RefIntegrity (putAppointments s id body).2 ∧ RefsConvert (putAppointments s id body).2
    rcases putAppointments_cases s id body with hq | ⟨row, pre, post, hrow, e, hput⟩
    · rw [hq]; exact ⟨h, hx⟩
    · rw [hput]
      obtain ⟨p1, p2, _, _, _, _⟩ := prop_mergedRow row body
      have hmem : ∀ a ∈ pre ++ mergedRow row body :: post,
          a = mergedRow row body ∨ a ∈ s.appointments := by
        intro a ha
        rw [e]
        rcases List.mem_append.mp ha with ha | ha
        · exact Or.inr (List.mem_append_left _ ha)
        · rcases List.mem_cons.mp ha with ha | ha
          · exact Or.inl ha
          · exact Or.inr (List.mem_append_right _ (List.mem_cons_of_mem _ ha))
      constructor
      · refine refIntegrity_of_sub s _ (fun _ hx => hx) (fun _ hx => hx) ?_ h
        intro a ha
        rcases hmem a ha with ha' | ha'
        · refine ⟨row, (getById_mem _ _ _ hrow).1, ?_, ?_⟩
          · rw [ha', p1, hr.1, jsOr_none]
          · rw [ha', p2, hr.2, jsOr_none]
        · exact ⟨a, ha', rfl, rfl⟩
      · intro a ha
        rcases hmem a ha with ha' | ha'
        · have hrx := hx row (getById_mem _ _ _ hrow).1
          rw [ha', p1, p2, hr.1, hr.2, jsOr_none, jsOr_none]
          exact hrx
        · exact hx a ha'
  | deleteAppointments id =>
    show RefIntegrity (deleteAppointments s id).2 ∧ RefsConvert (deleteAppointments s id).2
    unfold deleteAppointments
    split
    · exact ⟨h, hx⟩
    · constructor
      · refine refIntegrity_of_sub s _ (fun _ hx => hx) (fun _ hx => hx) ?_ h
        intro a ha
        exact ⟨a, (List.mem_filter.mp ha).1, rfl, rfl⟩
      · intro a ha
        exact hx a (List.mem_filter.mp ha).1

/-- C19. Referential integrity is an invariant of create and delete: in every
state reached from the empty collections by creates, deletes, customer and
service updates, and appointment updates that supply neither `customerId` nor
`serviceId`, every request with a fresh generated identifier, the
`customer_id` of every stored appointment string-equals the `id` of some stored
customer and its `service_id` string-equals the `id` of some stored service. -/
theorem refIntegrity_invariant (s : Store)
    (h : ReachableBy (fun st r => r.freshFor st ∧ r.keepsRefs) s) : RefIntegrity s := by
  have both : RefIntegrity s ∧ RefsConvert s := by
    induction h with
    | init => exact ⟨fun a ha => (by cases ha), fun a ha => (by cases ha)⟩
    | step s r _ hr ih => exact handle_keeps_refIntegrity s r ih.1 ih.2 hr.2
  exact both.1

/-- Witness of C19: the store of the test suite. -/
theorem refIntegrity_invariant_witness : RefIntegrity sampleStore :=
  refIntegrity_invariant sampleStore
    (ReachableBy.step _ (.postAppointments sampleBooking "a1" "2025-04-01T09:02:00.000Z")
      (ReachableBy.step _ sampleService
        (ReachableBy.step _ sampleCustomer ReachableBy.init ⟨by decide, trivial⟩)
        ⟨by decide, trivial⟩)
      ⟨by decide, trivial⟩)

/-! ## The appointment list: content -/

theorem insertSorted_eq {α : Type} (le : α → α → Bool) (x : α) (l : List α) :
    insertSorted le x l = List.orderedInsert (fun a b => le a b = true) x l := by
  induction l with
  | nil => rfl
  | cons y ys ih =>
    simp only [insertSorted, List.orderedInsert, ih]

theorem sortBy_eq {α : Type} (le : α → α → Bool) (l : List α) :
    sortBy le l = List.insertionSort (fun a b => le a b = true) l := by
  induction l with
  | nil => rfl
  | cons x xs ih => simp only [sortBy, List.insertionSort, ih, insertSorted_eq]

/-- The sort returns the rows it was given, each as many times as given. -/
theorem sortBy_perm {α : Type} (le : α → α → Bool) (l : List α) : (sortBy le l).Perm l := by
  rw [sortBy_eq]; exact List.perm_insertionSort _ l

/-- With a total and transitive comparison the sort returns a sorted list. -/
theorem sortBy_sorted {α : Type} (le : α → α → Bool)
    (htotal : ∀ a b, le a b = true ∨ le b a = true)
    (htrans : ∀ a b c, le a b = true → le b c = true → le a c = true) (l : List α) :
    (sortBy le l).Pairwise (fun a b => le a b = true) := by
  rw [sortBy_eq]
  haveI : IsTotal α (fun a b => le a b = true) := ⟨htotal⟩
  haveI : IsTrans α (fun a b => le a b = true) := ⟨htrans⟩
  exact List.sorted_insertionSort _ l

theorem filterRows_eq (rows : List Rec) (date customerId : Option JVal)
    (hdate : isComposite date = false) :
    filterRows rows date customerId =
      rows.filter (fun a => decide
        ((truthy date = true → prop a "appointment_date" = date) ∧
          (truthy customerId = true →
            jsString (prop a "customer_id") = jsString customerId))) := by
  unfold filterRows
  cases hd : truthy date <;> cases hc : truthy customerId
  · simp
  · simp only [Bool.false_eq_true, ↓reduceIte, false_implies, true_implies, true_and]
    congr 1
  · simp only [Bool.false_eq_true, ↓reduceIte, false_implies, true_implies, and_true]
    congr 1
    funext a
    rw [Bool.eq_iff_iff, strictEq_iff_of_right _ _ hdate]
    simp
  · simp only [↓reduceIte, true_implies, List.filter_filter]
    congr 1
    funext a
    rw [Bool.eq_iff_iff, Bool.and_eq_true, strictEq_iff_of_right _ _ hdate]
    simp only [beq_iff_eq, decide_eq_true_eq]
    exact and_comm

/-- The fields of a listed row: the three joined fields, and every other
field as stored. -/
theorem prop_enrich (customers services : List Rec) (a : Rec) :
    prop (toJson (enrich customers services a)) "customer_name" =
        propOrNull (getById customers (prop a "customer_id")) "name" ∧
      prop (toJson (enrich customers services a)) "service_title" =
        propOrNull (getById services (prop a "service_id")) "title" ∧
      prop (toJson (enrich customers services a)) "duration_min" =
        propOrNull (getById services (prop a "service_id")) "duration_min" ∧
      ∀ k, k ∉ ["customer_name", "service_title", "duration_min"] →
        prop (toJson (enrich customers services a)) k = prop a k := by
  have hor : ∀ (l : List Rec) (v : Option JVal) (k : String),
      jsOr (prop ((l.find? (idMatches v)).getD []) k) (some .null) =
        propOrNull (getById l v) k := by
    intro l v k
    unfold getById propOrNull jsOr
    cases l.find? (idMatches v) with
    | none => rfl
    | some c => rfl
  unfold enrich
  refine ⟨?_, ?_, ?_, ?_⟩
  · rw [prop_toJson_spread_of_mem (a) _ "customer_name" _ (by simp) (List.mem_cons_self _ _)]
    exact hor _ _ _
  · rw [prop_toJson_spread_of_mem (a) _ "service_title" _ (by simp)
      (List.mem_cons_of_mem _ (List.mem_cons_self _ _))]
    exact hor _ _ _
  · rw [prop_toJson_spread_of_mem (a) _ "duration_min" _ (by simp)
      (List.mem_cons_of_mem _ (List.mem_cons_of_mem _ (List.mem_cons_self _ _)))]
    exact hor _ _ _
  · intro k hk
    exact prop_toJson_spread_of_not_mem a _ k hk

theorem mem_filterByDate (rows : List Rec) (date : Option JVal) (a : Rec)
    (h : a ∈ filterByDate rows date) : a ∈ rows := by
  unfold filterByDate at h
  split at h
  · exact (List.mem_filter.mp h).1
  · exact h

theorem mem_filterRows (rows : List Rec) (date customerId : Option JVal) (a : Rec)
    (h : a ∈ filterRows rows date customerId) : a ∈ rows := by
  unfold filterRows at h
  simp only at h
  split at h
  · have h' := (List.mem_filter.mp h).1
    split at h'
    · exact (List.mem_filter.mp h').1
    · exact h'
  · split at h
    · exact (List.mem_filter.mp h).1
    · exact h

theorem memProp_enrich (customers services : List Rec) (a : Rec) (k : String)
    (hk : k ∉ ["customer_name", "service_title", "duration_min"]) :
    memProp (enrich customers services a) k = prop a k := by
  have h := (prop_enrich customers services a).2.2.2 k hk
  have ht : Tidy (enrich customers services a) := tidy_spread _ _ (tidy_ofRec a)
  exact (prop_toJson (enrich customers services a) ht k).symm.trans h

/-- The list that is sent, when one is sent: the filtered rows, joined and
sorted. -/
theorem listRows_eq_of_some (cmp : String → String → Int) (s : Store) (query : Rec)
    (rows : List Rec) (h : listRows cmp s query = some rows) :
    rows = (sortBy (rowLe cmp)
      ((filterRows s.appointments (prop query "date") (prop query "customerId")).map
        (enrich s.customers s.services))).map toJson := by
  unfold listRows at h
  simp only at h
  split at h
  · cases h
  · split at h
    · cases h
    · split at h
      · cases h
      · exact (Option.some.inj h).symm

/-- The handler answers with 200 and a list exactly when `listRows` gives the
list, and with 500 when a conversion throws. -/
theorem listRows_of_sent (cmp : String → String → Int) (s : Store) (query : Rec)
    (rows : List Rec) (h : getAppointments cmp s query = ⟨200, .arr (rows.map JVal.obj)⟩) :
    listRows cmp s query = some rows := by
  unfold getAppointments at h
  split at h
  · simp [serverError] at h
  · rename_i r hr
    rw [hr]
    simp only [Response.mk.injEq, JVal.arr.injEq, true_and] at h
    have hinj : Function.Injective JVal.obj := fun a b e => JVal.obj.inj e
    rw [(List.map_injective_iff.mpr hinj) h]

/-- A list is sent when every value that the handler converts to a string has
a string conversion. -/
theorem getAppointments_sent_of_listable (cmp : String → String → Int) (s : Store)
    (query : Rec) (h : Listable s query) :
    ∃ rows : List Rec, getAppointments cmp s query = ⟨200, .arr (rows.map JVal.obj)⟩ := by
  obtain ⟨hq, hc, hv, ha⟩ := h
  have h1 : customerFilterThrows (filterByDate s.appointments (prop query "date"))
      (prop query "customerId") = false := by
    unfold customerFilterThrows
    rw [any_eq_false_of_forall _ _ (fun r hr => by
      simp [(ha r (mem_filterByDate _ _ _ hr)).1, hq])]
    simp
  have h2 : enrichThrows s.customers s.services
      (filterRows s.appointments (prop query "date") (prop query "customerId")) = false := by
    unfold enrichThrows
    refine any_eq_false_of_forall _ _ (fun r hr => ?_)
    have hr' := ha r (mem_filterRows _ _ _ _ hr)
    rw [findThrows_eq_false _ _ hr'.1 hc, findThrows_eq_false _ _ hr'.2.1 hv]
    rfl
  have h3 : sortThrows ((filterRows s.appointments (prop query "date")
      (prop query "customerId")).map (enrich s.customers s.services)) = false := by
    unfold sortThrows
    rw [any_eq_false_of_forall _ _ (fun o ho => by
      obtain ⟨r, hr, e⟩ := List.mem_map.mp ho
      have hr' := ha r (mem_filterRows _ _ _ _ hr)
      rw [← e, memProp_enrich _ _ _ _ (by decide), memProp_enrich _ _ _ _ (by decide),
        hr'.2.2.1, hr'.2.2.2]
      rfl)]
    simp
  refine ⟨(sortBy (rowLe cmp)
      ((filterRows s.appointments (prop query "date") (prop query "customerId")).map
        (enrich s.customers s.services))).map toJson, ?_⟩
  unfold getAppointments listRows
  simp only [h1, h2, h3, Bool.false_eq_true, ↓reduceIte]

/-- C13, as amended. For every state, every collation function and every query
whose `date` is not an array or an object, with safe integers for the numbers
stored and sent: when the handler sends a list (status 200), its rows are,
exactly once each, the rows built from the stored appointments whose
`appointment_date` equals `date` (when `date` is truthy) and whose
`customer_id` string-equals `customerId` (when `customerId` is truthy); a row
keeps every stored field of its appointment and adds `customer_name` (the name
of the first customer whose `id` string-equals `customer_id` when that name is
truthy, `null` otherwise) and `service_title` and `duration_min` (likewise
from the service). -/
theorem getAppointments_content (cmp : String → String → Int) (s : Store) (query : Rec)
    (rows : List Rec) (hdate : isComposite (prop query "date") = false)
    (hsent : getAppointments cmp s query = ⟨200, .arr (rows.map JVal.obj)⟩)
    (_hstore : SafeStore s) (_hquery : safeRec query = true) :
    rows.Perm
        ((s.appointments.filter (fun a => decide
          ((truthy (prop query "date") = true →
              prop a "appointment_date" = prop query "date") ∧
            (truthy (prop query "customerId") = true →
              jsString (prop a "customer_id") = jsString (prop query "customerId"))))).map
          (fun a => toJson (enrich s.customers s.services a))) ∧
      ∀ a, prop (toJson (enrich s.customers s.services a)) "customer_name" =
          propOrNull (getById s.customers (prop a "customer_id")) "name" ∧
        prop (toJson (enrich s.customers s.services a)) "service_title" =
          propOrNull (getById s.services (prop a "service_id")) "title" ∧
        prop (toJson (enrich s.customers s.services a)) "duration_min" =
          propOrNull (getById s.services (prop a "service_id")) "duration_min" ∧
        ∀ k, k ∉ ["customer_name", "service_title", "duration_min"] →
          prop (toJson (enrich s.customers s.services a)) k = prop a k := by
  refine ⟨?_, fun a => prop_enrich s.customers s.services a⟩
  rw [listRows_eq_of_some cmp s query rows (listRows_of_sent cmp s query rows hsent),
    filterRows_eq _ _ _ hdate]
  have := (sortBy_perm (rowLe cmp) ((s.appointments.filter (fun a => decide
      ((truthy (prop query "date") = true →
          prop a "appointment_date" = prop query "date") ∧
        (truthy (prop query "customerId") = true →
          jsString (prop a "customer_id") = jsString (prop query "customerId"))))).map
      (enrich s.customers s.services))).map toJson
  rw [List.map_map] at this
  exact this

instance (s : Store) : Decidable (SafeStore s) := by
  unfold SafeStore; infer_instance

instance (s : Store) (query : Rec) : Decidable (Listable s query) := by
  unfold Listable; infer_instance

/-- Witness of C13 as amended: the list of the two-slot store for the date of
the test suite. -/
theorem getAppointments_content_witness :
    ((listRows localeCompare twoSlotStore [("date", .str "2025-04-20")]).getD []).Perm
      ((twoSlotStore.appointments.filter (fun a => decide
        ((truthy (prop [("date", JVal.str "2025-04-20")] "date") = true →
            prop a "appointment_date" = prop [("date", JVal.str "2025-04-20")] "date") ∧
          (truthy (prop [("date", JVal.str "2025-04-20")] "customerId") = true →
            jsString (prop a "customer_id") =
              jsString (prop [("date", JVal.str "2025-04-20")] "customerId"))))).map
        (fun a => toJson (enrich twoSlotStore.customers twoSlotStore.services a))) :=
  (getAppointments_content localeCompare twoSlotStore [("date", .str "2025-04-20")]
    ((listRows localeCompare twoSlotStore [("date", .str "2025-04-20")]).getD [])
    (by decide) (by rfl) (by decide) (by decide)).1

/-- C13, counterexample. After the service of the test suite has been updated
to `duration_min: 0`, the appointment is listed (status 200) with
`duration_min: null` although its service exists and has the duration 0. -/
theorem listed_duration_null_for_zero :
    getById zeroDurationStore.services (some (.str "s1")) =
        some [("id", .str "s1"), ("title", .str "Cut"), ("duration_min", .num 0),
          ("price", .num 15), ("created_at", .str "2025-04-01T09:01:00.000Z")] ∧
      getAppointments localeCompare zeroDurationStore [] =
        ⟨200, .arr [.obj [("id", .str "a1"), ("customer_id", .str "c1"),
          ("service_id", .str "s1"),
          ("appointment_date", .str "2025-04-20"), ("start_time", .str "10:00"),
          ("status", .str "booked"), ("created_at", .str "2025-04-01T09:02:00.000Z"),
          ("customer_name", .str "Test User"), ("service_title", .str "Cut"),
          ("duration_min", .null)]]⟩ ∧
      ¬ (∀ rows, listRows localeCompare zeroDurationStore [] = some rows → ∀ row ∈ rows,
          ∀ v, getById zeroDurationStore.services (prop row "service_id") = some v →
            prop row "duration_min" = prop v "duration_min") := by
  refine ⟨by rfl, by rfl, ?_⟩
  intro h
  have := h _ (by rfl : listRows localeCompare zeroDurationStore [] =
      some [[("id", .str "a1"), ("customer_id", .str "c1"), ("service_id", .str "s1"),
          ("appointment_date", .str "2025-04-20"), ("start_time", .str "10:00"),
          ("status", .str "booked"), ("created_at", .str "2025-04-01T09:02:00.000Z"),
          ("customer_name", .str "Test User"), ("service_title", .str "Cut"),
          ("duration_min", .null)]]) _ (List.mem_cons_self _ _) _
    (by rfl : getById zeroDurationStore.services
      (prop [("id", .str "a1"), ("customer_id", .str "c1"), ("service_id", .str "s1"),
          ("appointment_date", .str "2025-04-20"), ("start_time", .str "10:00"),
          ("status", .str "booked"), ("created_at", .str "2025-04-01T09:02:00.000Z"),
          ("customer_name", .str "Test User"), ("service_title", .str "Cut"),
          ("duration_min", .null)] "service_id") =
        some [("id", .str "s1"), ("title", .str "Cut"), ("duration_min", .num 0),
          ("price", .num 15), ("created_at", .str "2025-04-01T09:01:00.000Z")])
  revert this
  decide

theorem reachable_objectDateStore : Reachable objectDateStore :=
  Reachable.step _ (.putAppointments "a1" [("appointment_date", .obj [("toString", .num 1)])])
    reachable_twoSlotStore (by decide)

/-- The list is not sent in two reachable states: with the object
`{ toString: 1 }` stored as the `customer_id` of an appointment the search of
the customer throws, with the object stored as an `appointment_date` the sort
callback throws, and the handler answers 500; likewise for the query
`?customerId[toString]=1` on the sample store. -/
theorem getAppointments_answers_500 :
    Reachable objectRefStore ∧ getAppointments localeCompare objectRefStore [] = serverError ∧
      Reachable objectDateStore ∧
      getAppointments localeCompare objectDateStore [] = serverError ∧
      getAppointments localeCompare sampleStore
        [("customerId", .obj [("toString", .str "1")])] = serverError :=
  ⟨reachable_objectRefStore, by rfl, reachable_objectDateStore, by rfl, by rfl⟩

/-! ## The appointment list: order -/

theorem lex_cons_iff {α : Type} [LinearOrder α] (a b : α) (l1 l2 : List α) :
    (a :: l1) < (b :: l2) ↔ a < b ∨ (a = b ∧ l1 < l2) := by
  constructor
  · intro h
    cases h with
    | rel h => exact Or.inl h
    | cons h => exact Or.inr ⟨rfl, h⟩
  · rintro (h | ⟨rfl, h⟩)
    · exact List.Lex.rel h
    · exact List.Lex.cons h

theorem nil_lt_nil_iff {α : Type} [LinearOrder α] : (([] : List α) < []) ↔ False :=
  ⟨fun h => lt_irrefl _ h, False.elim⟩

theorem digit_lt_iff (a b : Char) (ha : a.isDigit = true) (hb : b.isDigit = true) :
    a < b ↔ digitVal a < digitVal b := by
  rcases isDigit_cases a ha with h | h | h | h | h | h | h | h | h | h <;>
  rcases isDigit_cases b hb with h' | h' | h' | h' | h' | h' | h' | h' | h' | h' <;>
  (subst h; subst h'; decide)

theorem digit_eq_iff (a b : Char) (ha : a.isDigit = true) (hb : b.isDigit = true) :
    a = b ↔ digitVal a = digitVal b := by
  rcases isDigit_cases a ha with h | h | h | h | h | h | h | h | h | h <;>
  rcases isDigit_cases b hb with h' | h' | h' | h' | h' | h' | h' | h' | h' | h' <;>
  (subst h; subst h'; decide)

theorem primaryWeight_digit (a : Char) (ha : a.isDigit = true) :
    primaryWeight a = 10 + digitVal a := by
  rcases isDigit_cases a ha with h | h | h | h | h | h | h | h | h | h <;> (subst h; decide)

theorem caseWeight_digit (a : Char) (ha : a.isDigit = true) : caseWeight a = 0 := by
  rcases isDigit_cases a ha with h | h | h | h | h | h | h | h | h | h <;> (subst h; decide)

theorem matchesDatePattern_elim (s : String) (h : matchesDatePattern s = true) :
    ∃ y1 y2 y3 y4 m1 m2 d1 d2 : Char, s.toList = [y1, y2, y3, y4, '-', m1, m2, '-', d1, d2] ∧
      y1.isDigit = true ∧ y2.isDigit = true ∧ y3.isDigit = true ∧ y4.isDigit = true ∧
      m1.isDigit = true ∧ m2.isDigit = true ∧ d1.isDigit = true ∧ d2.isDigit = true := by
  unfold matchesDatePattern at h
  split at h
  · rename_i y1 y2 y3 y4 s1 m1 m2 s2 d1 d2 hs
    simp only [Bool.and_eq_true, beq_iff_eq] at h
    obtain ⟨⟨⟨⟨⟨⟨⟨⟨⟨a1, a2⟩, a3⟩, a4⟩, a5⟩, a6⟩, a7⟩, a8⟩, a9⟩, a10⟩ := h
    subst a5; subst a8
    exact ⟨y1, y2, y3, y4, m1, m2, d1, d2, hs, a1, a2, a3, a4, a6, a7, a9, a10⟩
  · cases h

theorem matchesTimeShape_elim (s : String) (h : matchesTimeShape s = true) :
    ∃ h1 h2 m1 m2 : Char, s.toList = [h1, h2, ':', m1, m2] ∧
      h1.isDigit = true ∧ h2.isDigit = true ∧ m1.isDigit = true ∧ m2.isDigit = true := by
  unfold matchesTimeShape at h
  split at h
  · rename_i h1 h2 c m1 m2 hs
    simp only [Bool.and_eq_true, beq_iff_eq] at h
    obtain ⟨⟨⟨⟨a1, a2⟩, a3⟩, a4⟩, a5⟩ := h
    subst a3
    exact ⟨h1, h2, m1, m2, hs, a1, a2, a4, a5⟩
  · cases h

theorem toList_key (d t : String) : (d ++ " " ++ t).toList = d.toList ++ ' ' :: t.toList := by
  simp [String.toList, String.data_append]

/-- On keys of the form `YYYY-MM-DD HH:MM` the lexicographic order of the
strings is the chronological order. -/
theorem key_le_iff_chronoLe (d1 t1 d2 t2 : String)
    (hd1 : matchesDatePattern d1 = true) (ht1 : matchesTimeShape t1 = true)
    (hd2 : matchesDatePattern d2 = true) (ht2 : matchesTimeShape t2 = true) :
    d1 ++ " " ++ t1 ≤ d2 ++ " " ++ t2 ↔ chronoLe (chronoOf d1 t1) (chronoOf d2 t2) := by
  obtain ⟨y1, y2, y3, y4, m1, m2, e1, e2, hs1, a1, a2, a3, a4, a5, a6, a7, a8⟩ :=
    matchesDatePattern_elim d1 hd1
  obtain ⟨h1, h2, n1, n2, hs2, b1, b2, b3, b4⟩ := matchesTimeShape_elim t1 ht1
  obtain ⟨y1', y2', y3', y4', m1', m2', e1', e2', hs1', a1', a2', a3', a4', a5', a6', a7', a8'⟩ :=
    matchesDatePattern_elim d2 hd2
  obtain ⟨h1', h2', n1', n2', hs2', b1', b2', b3', b4'⟩ := matchesTimeShape_elim t2 ht2
  rw [String.le_iff_toList_le, ← not_lt, toList_key, toList_key]
  unfold chronoLe chronoOf
  rw [hs1, hs2, hs1', hs2']
  simp only [List.cons_append, List.nil_append, lex_cons_iff, nil_lt_nil_iff,
    digit_lt_iff _ _ a1' a1, digit_lt_iff _ _ a2' a2, digit_lt_iff _ _ a3' a3,
    digit_lt_iff _ _ a4' a4, digit_lt_iff _ _ a5' a5, digit_lt_iff _ _ a6' a6,
    digit_lt_iff _ _ a7' a7, digit_lt_iff _ _ a8' a8, digit_lt_iff _ _ b1' b1,
    digit_lt_iff _ _ b2' b2, digit_lt_iff _ _ b3' b3, digit_lt_iff _ _ b4' b4,
    digit_eq_iff _ _ a1' a1, digit_eq_iff _ _ a2' a2, digit_eq_iff _ _ a3' a3,
    digit_eq_iff _ _ a4' a4, digit_eq_iff _ _ a5' a5, digit_eq_iff _ _ a6' a6,
    digit_eq_iff _ _ a7' a7, digit_eq_iff _ _ a8' a8, digit_eq_iff _ _ b1' b1,
    digit_eq_iff _ _ b2' b2, digit_eq_iff _ _ b3' b3, digit_eq_iff _ _ b4' b4,
    lt_self_iff_false, true_and, false_or, and_false, or_false,
    List.take, List.drop, numeral, List.foldl]
  have c1 := digitVal_le _ a1; have c2 := digitVal_le _ a2; have c3 := digitVal_le _ a3
  have c4 := digitVal_le _ a4; have c5 := digitVal_le _ a5; have c6 := digitVal_le _ a6
  have c7 := digitVal_le _ a7; have c8 := digitVal_le _ a8; have c9 := digitVal_le _ b1
  have c10 := digitVal_le _ b2; have c11 := digitVal_le _ b3; have c12 := digitVal_le _ b4
  have c1' := digitVal_le _ a1'; have c2' := digitVal_le _ a2'; have c3' := digitVal_le _ a3'
  have c4' := digitVal_le _ a4'; have c5' := digitVal_le _ a5'; have c6' := digitVal_le _ a6'
  have c7' := digitVal_le _ a7'; have c8' := digitVal_le _ a8'; have c9' := digitVal_le _ b1'
  have c10' := digitVal_le _ b2'; have c11' := digitVal_le _ b3'
  have c12' := digitVal_le _ b4'
  omega

theorem compareWeights_lt_iff (a b : List Nat) : compareWeights a b = .lt ↔ a < b := by
  induction a generalizing b with
  | nil =>
    cases b with
    | nil => simp [compareWeights]
    | cons y ys => simp [compareWeights, List.nil_lt_cons]
  | cons x xs ih =>
    cases b with
    | nil => simp [compareWeights]
    | cons y ys =>
      rw [lex_cons_iff]
      unfold compareWeights
      split
      · rename_i h; simp [h]
      · rename_i h
        split
        · rename_i h2
          simp only [reduceCtorEq, false_iff, not_or, not_and]
          exact ⟨h, fun e => absurd (e ▸ h2) (lt_irrefl _)⟩
        · rename_i h2
          have e : x = y := by omega
          simp [e, ih]

theorem compareWeights_gt_iff (a b : List Nat) : compareWeights a b = .gt ↔ b < a := by
  induction a generalizing b with
  | nil =>
    cases b with
    | nil => simp [compareWeights]
    | cons y ys => simp [compareWeights]
  | cons x xs ih =>
    cases b with
    | nil => simp [compareWeights, List.nil_lt_cons]
    | cons y ys =>
      rw [lex_cons_iff]
      unfold compareWeights
      split
      · rename_i h
        simp only [reduceCtorEq, false_iff, not_or, not_and]
        exact ⟨by omega, fun e => absurd (e ▸ h) (lt_irrefl _)⟩
      · rename_i h
        split
        · rename_i h2; simp [h2]
        · rename_i h2
          have e : x = y := by omega
          simp [e, ih]

theorem compareWeights_eq_iff (a b : List Nat) : compareWeights a b = .eq ↔ a = b := by
  constructor
  · intro h
    rcases lt_trichotomy a b with h1 | h1 | h1
    · rw [(compareWeights_lt_iff a b).mpr h1] at h; cases h
    · exact h1
    · rw [(compareWeights_gt_iff a b).mpr h1] at h; cases h
  · intro h
    cases hc : compareWeights a b with
    | lt => exact absurd ((compareWeights_lt_iff a b).mp hc) (by rw [h]; exact lt_irrefl _)
    | gt => exact absurd ((compareWeights_gt_iff a b).mp hc) (by rw [h]; exact lt_irrefl _)
    | eq => rfl

/-- The model of `localeCompare` orders by the primary weights first and by the
case weights among equal primary weights. -/
theorem localeCompare_le_iff (a b : String) :
    localeCompare a b ≤ 0 ↔
      a.toList.map primaryWeight < b.toList.map primaryWeight ∨
        (a.toList.map primaryWeight = b.toList.map primaryWeight ∧
          a.toList.map caseWeight ≤ b.toList.map caseWeight) := by
  unfold localeCompare
  generalize a.toList.map primaryWeight = pa
  generalize b.toList.map primaryWeight = pb
  generalize a.toList.map caseWeight = ta
  generalize b.toList.map caseWeight = tb
  cases h1 : compareWeights pa pb with
  | lt =>
    exact ⟨fun _ => Or.inl ((compareWeights_lt_iff _ _).mp h1),
      fun _ => (show (-1 : Int) ≤ 0 by decide)⟩
  | gt =>
    have hgt := (compareWeights_gt_iff _ _).mp h1
    refine ⟨fun h => absurd h (show ¬ ((1 : Int) ≤ 0) by decide), fun h => ?_⟩
    rcases h with h | ⟨h, _⟩
    · exact absurd (lt_trans h hgt) (lt_irrefl _)
    · exact absurd (h ▸ hgt) (lt_irrefl _)
  | eq =>
    have e := (compareWeights_eq_iff _ _).mp h1
    cases h2 : compareWeights ta tb with
    | lt =>
      exact ⟨fun _ => Or.inr ⟨e, le_of_lt ((compareWeights_lt_iff _ _).mp h2)⟩,
        fun _ => (show (-1 : Int) ≤ 0 by decide)⟩
    | gt =>
      have hgt := (compareWeights_gt_iff _ _).mp h2
      refine ⟨fun h => absurd h (show ¬ ((1 : Int) ≤ 0) by decide), fun h => ?_⟩
      rcases h with h | ⟨_, h⟩
      · exact absurd (e ▸ h) (lt_irrefl _)
      · exact absurd hgt (not_lt.mpr h)
    | eq =>
      exact ⟨fun _ => Or.inr ⟨e, le_of_eq ((compareWeights_eq_iff _ _).mp h2)⟩,
        fun _ => (show (0 : Int) ≤ 0 by decide)⟩

theorem localeCompare_total (a b : String) : localeCompare a b ≤ 0 ∨ localeCompare b a ≤ 0 := by
  rw [localeCompare_le_iff, localeCompare_le_iff]
  rcases lt_trichotomy (a.toList.map primaryWeight) (b.toList.map primaryWeight) with h | h | h
  · exact Or.inl (Or.inl h)
  · rcases le_total (a.toList.map caseWeight) (b.toList.map caseWeight) with h2 | h2
    · exact Or.inl (Or.inr ⟨h, h2⟩)
    · exact Or.inr (Or.inr ⟨h.symm, h2⟩)
  · exact Or.inr (Or.inl h)

theorem localeCompare_trans (a b c : String) (h1 : localeCompare a b ≤ 0)
    (h2 : localeCompare b c ≤ 0) : localeCompare a c ≤ 0 := by
  rw [localeCompare_le_iff] at h1 h2 ⊢
  rcases h1 with h1 | ⟨e1, t1⟩
  · rcases h2 with h2 | ⟨e2, _⟩
    · exact Or.inl (lt_trans h1 h2)
    · exact Or.inl (e2 ▸ h1)
  · rcases h2 with h2 | ⟨e2, t2⟩
    · exact Or.inl (e1 ▸ h2)
    · exact Or.inr ⟨e1.trans e2, le_trans t1 t2⟩


theorem map_lt_map_iff (f : Char → Nat) {l1 l2 : List Char}
    (h : List.Forall₂ (fun a b => (a < b ↔ f a < f b) ∧ (a = b ↔ f a = f b)) l1 l2) :
    l1.map f < l2.map f ↔ l1 < l2 := by
  induction h with
  | nil => exact ⟨fun h => absurd h (lt_irrefl _), fun h => absurd h (lt_irrefl _)⟩
  | cons hab _ ih =>
    rw [List.map_cons, List.map_cons, lex_cons_iff, lex_cons_iff, ih, hab.1, hab.2]

theorem weight_compat_digit (a b : Char) (ha : a.isDigit = true) (hb : b.isDigit = true) :
    (a < b ↔ primaryWeight a < primaryWeight b) ∧ (a = b ↔ primaryWeight a = primaryWeight b) := by
  rw [primaryWeight_digit a ha, primaryWeight_digit b hb, digit_lt_iff a b ha hb,
    digit_eq_iff a b ha hb]
  omega

theorem weight_compat_same (c : Char) :
    (c < c ↔ primaryWeight c < primaryWeight c) ∧ (c = c ↔ primaryWeight c = primaryWeight c) :=
  ⟨⟨fun h => absurd h (lt_irrefl _), fun h => absurd h (lt_irrefl _)⟩, ⟨fun _ => rfl, fun _ => rfl⟩⟩

/-- On keys of the form `YYYY-MM-DD HH:MM` the model of `localeCompare` is the
lexicographic comparison of the strings. -/
theorem localeCompare_le_iff_key_le (d1 t1 d2 t2 : String)
    (hd1 : matchesDatePattern d1 = true) (ht1 : matchesTimeShape t1 = true)
    (hd2 : matchesDatePattern d2 = true) (ht2 : matchesTimeShape t2 = true) :
    localeCompare (d1 ++ " " ++ t1) (d2 ++ " " ++ t2) ≤ 0 ↔
      d1 ++ " " ++ t1 ≤ d2 ++ " " ++ t2 := by
  obtain ⟨y1, y2, y3, y4, m1, m2, e1, e2, hs1, a1, a2, a3, a4, a5, a6, a7, a8⟩ :=
    matchesDatePattern_elim d1 hd1
  obtain ⟨h1, h2, n1, n2, hs2, b1, b2, b3, b4⟩ := matchesTimeShape_elim t1 ht1
  obtain ⟨y1', y2', y3', y4', m1', m2', e1', e2', hs1', a1', a2', a3', a4', a5', a6', a7', a8'⟩ :=
    matchesDatePattern_elim d2 hd2
  obtain ⟨h1', h2', n1', n2', hs2', b1', b2', b3', b4'⟩ := matchesTimeShape_elim t2 ht2
  have hle : ∀ l1 l2 : List Char, l1 ≤ l2 ↔ ¬ l2 < l1 := fun _ _ => not_lt.symm
  have hcase : (d1 ++ " " ++ t1).toList.map caseWeight =
      (d2 ++ " " ++ t2).toList.map caseWeight := by
    rw [toList_key, toList_key, hs1, hs2, hs1', hs2']
    simp only [List.cons_append, List.nil_append, List.map_cons, List.map_nil,
      caseWeight_digit _ a1, caseWeight_digit _ a2, caseWeight_digit _ a3,
      caseWeight_digit _ a4, caseWeight_digit _ a5, caseWeight_digit _ a6,
      caseWeight_digit _ a7, caseWeight_digit _ a8, caseWeight_digit _ b1,
      caseWeight_digit _ b2, caseWeight_digit _ b3, caseWeight_digit _ b4,
      caseWeight_digit _ a1', caseWeight_digit _ a2', caseWeight_digit _ a3',
      caseWeight_digit _ a4', caseWeight_digit _ a5', caseWeight_digit _ a6',
      caseWeight_digit _ a7', caseWeight_digit _ a8', caseWeight_digit _ b1',
      caseWeight_digit _ b2', caseWeight_digit _ b3', caseWeight_digit _ b4']
  have hprim : (d2 ++ " " ++ t2).toList.map primaryWeight <
      (d1 ++ " " ++ t1).toList.map primaryWeight ↔
      (d2 ++ " " ++ t2).toList < (d1 ++ " " ++ t1).toList := by
    apply map_lt_map_iff
    rw [toList_key, toList_key, hs1, hs2, hs1', hs2']
    exact .cons (weight_compat_digit _ _ a1' a1) (.cons (weight_compat_digit _ _ a2' a2)
      (.cons (weight_compat_digit _ _ a3' a3) (.cons (weight_compat_digit _ _ a4' a4)
      (.cons (weight_compat_same _) (.cons (weight_compat_digit _ _ a5' a5)
      (.cons (weight_compat_digit _ _ a6' a6) (.cons (weight_compat_same _)
      (.cons (weight_compat_digit _ _ a7' a7) (.cons (weight_compat_digit _ _ a8' a8)
      (.cons (weight_compat_same _) (.cons (weight_compat_digit _ _ b1' b1)
      (.cons (weight_compat_digit _ _ b2' b2) (.cons (weight_compat_same _)
      (.cons (weight_compat_digit _ _ b3' b3) (.cons (weight_compat_digit _ _ b4' b4)
      .nil)))))))))))))))
  rw [localeCompare_le_iff, String.le_iff_toList_le, hle, ← hprim, hcase]
  constructor
  · rintro (h | ⟨h, _⟩)
    · exact fun h' => absurd (lt_trans h h') (lt_irrefl _)
    · rw [h]; exact lt_irrefl _
  · intro h
    rcases lt_trichotomy ((d1 ++ " " ++ t1).toList.map primaryWeight)
      ((d2 ++ " " ++ t2).toList.map primaryWeight) with h' | h' | h'
    · exact Or.inl h'
    · exact Or.inr ⟨h', le_refl _⟩
    · exact absurd h' h

theorem tidy_enrich (customers services : List Rec) (a : Rec) :
    Tidy (enrich customers services a) :=
  tidy_spread _ _ (tidy_ofRec a)

theorem rowLe_iff (cmp : String → String → Int) (o1 o2 : MemObj) (h1 : Tidy o1) (h2 : Tidy o2) :
    rowLe cmp o1 o2 = true ↔ cmp (rowKey (toJson o1)) (rowKey (toJson o2)) ≤ 0 := by
  unfold rowLe rowKey memProp
  rw [decide_eq_true_eq, prop_toJson o1 h1, prop_toJson o1 h1, prop_toJson o2 h2,
    prop_toJson o2 h2]

/-- The rows are sent in non-decreasing order of the collation function on
their keys. -/
theorem listRows_sorted (cmp : String → String → Int) (s : Store) (query : Rec)
    (rows : List Rec) (hlist : listRows cmp s query = some rows)
    (htotal : ∀ a b, cmp a b ≤ 0 ∨ cmp b a ≤ 0)
    (htrans : ∀ a b c, cmp a b ≤ 0 → cmp b c ≤ 0 → cmp a c ≤ 0) :
    rows.Pairwise (fun a b => cmp (rowKey a) (rowKey b) ≤ 0) := by
  rw [listRows_eq_of_some cmp s query rows hlist, List.pairwise_map]
  have hs := sortBy_sorted (rowLe cmp)
    (fun a b => by
      unfold rowLe
      rw [decide_eq_true_eq, decide_eq_true_eq]
      exact htotal _ _)
    (fun a b c => by
      unfold rowLe
      rw [decide_eq_true_eq, decide_eq_true_eq, decide_eq_true_eq]
      exact htrans _ _ _)
    ((filterRows s.appointments (prop query "date") (prop query "customerId")).map
      (enrich s.customers s.services))
  have hmem : ∀ o ∈ sortBy (rowLe cmp)
      ((filterRows s.appointments (prop query "date") (prop query "customerId")).map
        (enrich s.customers s.services)), Tidy o := by
    intro o ho
    have := (sortBy_perm _ _).mem_iff.mp ho
    obtain ⟨a, _, e⟩ := List.mem_map.mp this
    rw [← e]; exact tidy_enrich _ _ a
  exact hs.imp_of_mem (fun {a b} ha hb h => (rowLe_iff cmp a b (hmem a ha) (hmem b hb)).mp h)

/-- C12, as amended. For every state whose stored numbers are safe integers
and every filter, with a collation function that is a total preorder
(`localeCompare` is one): when the handler sends a list (status 200), the list
is in non-decreasing order of the collation function applied to the keys
`appointment_date + ' ' + start_time`; and when the collation function is the
lexicographic comparison on keys of the form `YYYY-MM-DD HH:MM` and every
listed appointment has a date of the form `YYYY-MM-DD` and a time of the form
`HH:MM`, the list is in non-decreasing lexicographic order of the keys, which
is non-decreasing order of `(year, month, day, hour, minute)` compared as
numbers. -/
theorem listRows_order (cmp : String → String → Int) (s : Store) (query : Rec)
    (rows : List Rec)
    (htotal : ∀ a b, cmp a b ≤ 0 ∨ cmp b a ≤ 0)
    (htrans : ∀ a b c, cmp a b ≤ 0 → cmp b c ≤ 0 → cmp a c ≤ 0)
    (hsent : getAppointments cmp s query = ⟨200, .arr (rows.map JVal.obj)⟩)
    (_hstore : SafeStore s) :
    rows.Pairwise (fun a b => cmp (rowKey a) (rowKey b) ≤ 0) ∧
    ((∀ d1 t1 d2 t2, matchesDatePattern d1 = true → matchesTimeShape t1 = true →
        matchesDatePattern d2 = true → matchesTimeShape t2 = true →
        (cmp (d1 ++ " " ++ t1) (d2 ++ " " ++ t2) ≤ 0 ↔
          d1 ++ " " ++ t1 ≤ d2 ++ " " ++ t2)) →
      (∀ r ∈ rows, WellFormedRow r) →
      rows.Pairwise (fun a b => rowKey a ≤ rowKey b) ∧
        rows.Pairwise (fun a b => chronoLe (chrono a) (chrono b))) := by
  have hs := listRows_sorted cmp s query rows (listRows_of_sent cmp s query rows hsent)
    htotal htrans
  refine ⟨hs, fun hlex hwf => ?_⟩
  have hkey : rows.Pairwise (fun a b => rowKey a ≤ rowKey b) :=
    hs.imp_of_mem (fun {a b} ha hb h =>
      (hlex _ _ _ _ (hwf a ha).1 (hwf a ha).2 (hwf b hb).1 (hwf b hb).2).mp h)
  refine ⟨hkey, ?_⟩
  exact hkey.imp_of_mem (fun {a b} ha hb h =>
    (key_le_iff_chronoLe _ _ _ _ (hwf a ha).1 (hwf a ha).2 (hwf b hb).1 (hwf b hb).2).mp h)

instance (r : Rec) : Decidable (WellFormedRow r) := by
  unfold WellFormedRow; infer_instance

/-- Witness of C12 as amended: the list of the two-slot store under the model
of `localeCompare` is in chronological order. -/
theorem listRows_order_witness :
    ((listRows localeCompare twoSlotStore []).getD []).Pairwise
      (fun a b => chronoLe (chrono a) (chrono b)) :=
  ((listRows_order localeCompare twoSlotStore []
      ((listRows localeCompare twoSlotStore []).getD [])
      localeCompare_total localeCompare_trans (by rfl) (by decide)).2
    localeCompare_le_iff_key_le (by decide)).2

/-- C12, counterexample. After the dates of the two appointments have been
updated to `May 1` and `april 30`, the list that is sent puts `april 30 11:00`
before `May 1 10:00`, as `localeCompare` orders them (letters compare
alphabetically, whatever the case), while in the lexicographic order of the
strings `May 1 10:00` comes first (`M` precedes `a`). -/
theorem listing_not_lexicographic :
    (listRows localeCompare letterStore []).map (List.map rowKey) =
        some ["april 30 11:00", "May 1 10:00"] ∧
      "May 1 10:00" < "april 30 11:00" ∧
      ¬ (∀ rows, listRows localeCompare letterStore [] = some rows →
          rows.Pairwise (fun a b => rowKey a ≤ rowKey b)) := by
  have h1 : (listRows localeCompare letterStore []).map (List.map rowKey) =
      some ["april 30 11:00", "May 1 10:00"] := by decide
  have h2 : "May 1 10:00" < "april 30 11:00" := by
    rw [String.lt_iff_toList_lt]; decide
  refine ⟨h1, h2, fun h => ?_⟩
  cases hl : listRows localeCompare letterStore [] with
  | none => rw [hl] at h1; cases h1
  | some rows =>
    rw [hl] at h1
    have h3 := List.pairwise_map.mpr (h rows hl)
    rw [Option.some.inj h1] at h3
    exact absurd h2 (not_lt.mpr (List.rel_of_pairwise_cons h3 (List.mem_singleton.mpr rfl)))

end CarRentals
